import Mathlib

/-!
# Batching consumer of the GravityEngine Go SDK (`gedata/consumer_batch.go`)

A shallow embedding of `GEBatchConsumer`: the active buffer, the delivery cache,
`initBatchConsumer`, `Add`, `Flush`, `innerFlush`, `uploadEvents`, `send`,
`FlushAll` and `Close`, followed by the properties proved about them.

Conventions of the embedding

* The buffer and the cache are lists; `len` is `List.length`. A record of the
  engine is a value (`Data`): its event list is the list of its elements. The
  section "Event lists in memory" models the one statement that writes to an
  event list (`append` at line 218) on slices with their backing arrays, and
  proves that on records without spare capacity, as the SDK builds them, it
  writes into no array of a record and gives the list append used here.
* Go `int` fields are `Int`; a length is compared with them after the cast to `Int`.
* A Go `error` is its message; what a call gives back is a `Ret`: `nil`, an
  error, or a runtime panic with the message of the Go runtime.
* The network is an explicit parameter `Env`: the answer of `HttpClient.Do` may
  depend on the request and on every request sent before it. The list of
  requests sent so far is threaded through every operation.
* The iteration order of a Go map is unspecified: `Env.rangeSeed` chooses it, and
  every order can be chosen.
* The two mutexes serialise the operations; the embedding is the sequential
  behaviour of one call at a time.
* Loops of unknown length (`FlushAll`) carry a bound on their passes and give
  `none` when the bound is reached before the loop ends.
-/

namespace gedata

/-! ## Data model (`gedata.go`) -/

/-- A value of the dynamic property bag `map[string]interface{}`. The case
`unsupported` stands for any value `encoding/json` refuses to encode (a channel,
a function, a NaN, ...). -/
inductive PropValue where
  | str (s : String)
  | num (n : Int)
  | flag (b : Bool)
  | unsupported
  deriving DecidableEq, Repr

/-- The Go struct `EventListItem`. -/
structure EventListItem where
  TimeFree : Bool
  Type_ : String
  EventName : String
  Time : Int
  Properties : List (String × PropValue)
  deriving DecidableEq, Repr

/-- The Go struct `Data`: one client's bundle of sub-events, as a value (the
event list is the list of its elements; `MemData` is the record with its event
list as a slice in memory). -/
structure Data where
  ClientId : String
  EventList : List EventListItem
  deriving DecidableEq, Repr

/-- What a Go function of result type `error` gives back: `nil`, an error with
its message, or a runtime panic that unwinds through the caller. -/
inductive Ret where
  | nil
  | error (msg : String)
  | panic (msg : String)
  deriving DecidableEq, Repr

/-! ## The network -/

/-- The HTTP request built by `send`: the URL, the JSON payload (kept as the
`Data` value it encodes), the `Gravity-Content-Compress` header and the
`GE-Integration-Count` header. -/
structure Request where
  url : String
  body : Data
  compressType : String
  count : Int
  deriving DecidableEq, Repr

/-- The outcome of `HttpClient.Do`: a transport error, or a response with its
status code and the result of decoding its body into `struct { Code int }`
(an error message when the body is not JSON of that shape). -/
inductive HttpResult where
  | transportError (err : String)
  | response (statusCode : Int) (body : Except String Int)

/-- The environment of an engine: the endpoint and the map iteration order.
`Do sent req` is the outcome of posting `req` after the requests `sent`;
`rangeSeed sent k` chooses, for a map iteration that starts after the requests
`sent`, which of the remaining entries is visited at step `k`. -/
structure Env where
  Do : List Request → Request → HttpResult
  rangeSeed : List Request → Nat → Nat

/-! ## The engine (`consumer_batch.go`) -/

/-- The Go struct `GEBatchConsumer` (without the mutexes and the HTTP client,
which live in `Env`). -/
structure GEBatchConsumer where
  serverUrl : String
  compress : Bool
  buffer : List Data
  batchSize : Int
  cacheBuffer : List (List Data)
  cacheCapacity : Int
  deriving DecidableEq, Repr

/-- The Go struct `GEBatchConfig` (the HTTP client is in `Env`). -/
structure GEBatchConfig where
  ServerUrl : String
  BatchSize : Int
  Timeout : Int
  Compress : Bool
  AutoFlush : Bool
  Interval : Int
  CacheCapacity : Int
  deriving DecidableEq, Repr

def DefaultTimeOut : Int := 30000
def DefaultBatchSize : Int := 20
def MaxBatchSize : Int := 200
def DefaultInterval : Int := 30
def DefaultCacheCapacity : Int := 50

/-- How `initBatchConsumer` ends when it builds no engine: with the error it
returns, or with a runtime panic. -/
inductive InitFailure where
  | error (msg : String)
  | panic (msg : String)
  deriving DecidableEq, Repr

/-- The function `initBatchConsumer`. `urlParse` is `url.Parse` followed by
`String()`. `canMake cap` tells whether `cap` passes the range check of
`make([][]Data, 0, cap)` (line 134): the largest capacity `makeslice` accepts is
a constant of the platform, and above it `make` panics, after the URL was
parsed and the sizes were chosen. `make([]Data, 0, batchSize)` (line 132) asks
for 200 records at most, which is in range on every platform. The timeout and
the ticker only configure the HTTP client and the background goroutine and
leave no trace in the engine value. -/
def initBatchConsumer (canMake : Int → Bool) (urlParse : String → Except String String)
    (config : GEBatchConfig) : Except InitFailure GEBatchConsumer :=
  if config.ServerUrl = "" then
    .error (.error "ServerUrl not be empty")
  else
    match urlParse config.ServerUrl with
    | .error err => .error (.error err)
    | .ok u =>
      let batchSize : Int :=
        if config.BatchSize > MaxBatchSize then MaxBatchSize
        else if config.BatchSize ≤ 0 then DefaultBatchSize
        else config.BatchSize
      let cacheCapacity : Int :=
        if config.CacheCapacity ≤ 0 then DefaultCacheCapacity else config.CacheCapacity
      if canMake cacheCapacity then
        .ok { serverUrl := u
              compress := config.Compress
              batchSize := batchSize
              buffer := []
              cacheCapacity := cacheCapacity
              cacheBuffer := [] }
      else
        .error (.panic "runtime error: makeslice: cap out of range")

def getBufferLength (c : GEBatchConsumer) : Int := c.buffer.length

def getCacheLength (c : GEBatchConsumer) : Int := c.cacheBuffer.length

/-- Whether `json.Marshal` encodes the payload without error. -/
def jsonMarshalOk (d : Data) : Bool :=
  d.EventList.all fun e => e.Properties.all fun p => p.2 != PropValue.unsupported

/-- The request `send` builds with `http.NewRequest` and the header writes. -/
def buildRequest (c : GEBatchConsumer) (data : Data) (size : Int) : Request :=
  let compressType := if c.compress then "gzip" else "none"
  { url := c.serverUrl, body := data, compressType := compressType, count := size }

/-- The method `send`: posts the payload and classifies the answer into
`(statusCode, code, err)`. The request is appended to the list of requests
sent. Writing gzip data into an in-memory buffer cannot fail, so `encodeData`
only decides the compression header. -/
def send (env : Env) (c : GEBatchConsumer) (data : Data) (size : Int) (sent : List Request) :
    (Int × Int × Option String) × List Request :=
  let req := buildRequest c data size
  match env.Do sent req with
  | .transportError err => ((0, 0, some err), sent ++ [req])
  | .response statusCode body =>
    if statusCode = 200 then
      match body with
      | .error err => ((statusCode, 1, some err), sent ++ [req])
      | .ok code => ((statusCode, code, none), sent ++ [req])
    else ((statusCode, -1, none), sent ++ [req])

/-- The Go map `clientIdMap`, as an association list with one entry per key. -/
abbrev ClientIdMap := List (String × List EventListItem)

/-- The map read `clientIdMap[clientId]` with its presence flag. -/
def mapGet : ClientIdMap → String → Option (List EventListItem)
  | [], _ => none
  | (k, v) :: m, clientId => if k = clientId then some v else mapGet m clientId

/-- The map write `clientIdMap[clientId] = v`. -/
def mapSet : ClientIdMap → String → List EventListItem → ClientIdMap
  | [], clientId, v => [(clientId, v)]
  | (k, w) :: m, clientId, v =>
    if k = clientId then (k, v) :: m else (k, w) :: mapSet m clientId v

/-- The first loop of `uploadEvents` on records as values: the records of the
batch grouped by client id, from the map `acc` on. `append` at line 218 is the
list append here; `groupLoopMem` is the same loop on slices in memory, where
`append` writes in place when the capacity allows, and the two agree on records
without spare capacity (`groupByClientMem_tight`). -/
def groupLoop : List Data → ClientIdMap → ClientIdMap
  | [], acc => acc
  | i :: buffer, acc =>
    match mapGet acc i.ClientId with
    | some evs => groupLoop buffer (mapSet acc i.ClientId (evs ++ i.EventList))
    | none => groupLoop buffer (mapSet acc i.ClientId i.EventList)

def groupByClient (buffer : List Data) : ClientIdMap := groupLoop buffer []

/-- Removes the entry at position `i`, giving it back with the rest. -/
def pickNth {α : Type} : List α → Nat → Option (α × List α)
  | [], _ => none
  | x :: xs, 0 => some (x, xs)
  | x :: xs, i + 1 =>
    match pickNth xs i with
    | some (y, r) => some (y, x :: r)
    | none => none

/-- The order in which `range` visits the entries of a map: at step `k` the
entry at position `seed k` (modulo the number of entries left) is visited
next. `fuel` is the number of entries. -/
def rangeOrder {α : Type} (seed : Nat → Nat) : Nat → Nat → List α → List α
  | 0, _, _ => []
  | fuel + 1, k, l =>
    match pickNth l (seed k % l.length) with
    | some (y, r) => y :: rangeOrder seed fuel (k + 1) r
    | none => []

/-- The assignment `c.cacheBuffer = c.cacheBuffer[1:]`. -/
def dropHead (c : GEBatchConsumer) : GEBatchConsumer :=
  { c with cacheBuffer := c.cacheBuffer.tail }

/-- The retry loop `for i := 0; i < 3; i++` of `uploadEvents` for one payload.
`fuel` bounds the passes (three suffice). The result is `some r` when the loop
executes `return r`, and `none` when it runs to its end. -/
def sendLoop (env : Env) (params : Data) :
    Nat → Int → GEBatchConsumer → List Request → GEBatchConsumer × List Request × Option Ret
  | 0, _, c, sent => (c, sent, none)
  | fuel + 1, i, c, sent =>
    if i < 3 then
      match send env c params 1 sent with
      | ((statusCode, code, err), sent1) =>
        if statusCode = 200 then
          if code = 0 then
            (dropHead c, sent1, some Ret.nil)
          else
            (c, sent1, some (Ret.error "unknown error"))
        else
          match err with
          | some e => (c, sent1, some (Ret.error e))
          | none =>
            if i = 2 then
              (c, sent1, some (Ret.error
                ("network error, but err is nil. Sgetus code is: " ++ toString statusCode)))
            else sendLoop env params fuel (i + 1) c sent1
    else (c, sent, none)

/-- The second loop of `uploadEvents`, over the map entries in the order
given: a payload that `json.Marshal` rejects is skipped. -/
def uploadGroups (env : Env) :
    ClientIdMap → GEBatchConsumer → List Request → GEBatchConsumer × List Request × Ret
  | [], c, sent => (c, sent, Ret.nil)
  | (clientId, buffer) :: rest, c, sent =>
    let d : Data := { ClientId := clientId, EventList := buffer }
    if jsonMarshalOk d then
      match sendLoop env d 3 0 c sent with
      | (c1, sent1, some r) => (c1, sent1, r)
      | (c1, sent1, none) => uploadGroups env rest c1 sent1
    else uploadGroups env rest c sent

/-- The method `uploadEvents`: delivery of the oldest batch of the cache. -/
def uploadEvents (env : Env) (c : GEBatchConsumer) (sent : List Request) :
    GEBatchConsumer × List Request × Ret :=
  match c.cacheBuffer with
  | [] => (c, sent, Ret.panic "runtime error: index out of range [0] with length 0")
  | buffer :: _ =>
    let clientIdMap := groupByClient buffer
    uploadGroups env (rangeOrder (env.rangeSeed sent) clientIdMap.length 0 clientIdMap) c sent

/-- The second step of `innerFlush`: the active buffer becomes a new batch of
the cache when the cache is empty or the buffer has reached the batch size. -/
def moveBuffer (c : GEBatchConsumer) : GEBatchConsumer :=
  if c.cacheBuffer.length = 0 ∨ (c.buffer.length : Int) ≥ c.batchSize then
    { c with cacheBuffer := c.cacheBuffer ++ [c.buffer], buffer := [] }
  else c

/-- The deferred function of `innerFlush`, run after `uploadEvents` whatever
it gave back: `r` is the pending result. -/
def evictOldest (c : GEBatchConsumer) (r : Ret) : GEBatchConsumer × Ret :=
  if (c.cacheBuffer.length : Int) > c.cacheCapacity then
    match c.cacheBuffer with
    | [] => (c, Ret.panic "runtime error: slice bounds out of range [1:0]")
    | _ :: rest => ({ c with cacheBuffer := rest }, r)
  else (c, r)

/-- The method `innerFlush`. -/
def innerFlush (env : Env) (c : GEBatchConsumer) (sent : List Request) :
    GEBatchConsumer × List Request × Ret :=
  if c.buffer.length = 0 ∧ c.cacheBuffer.length = 0 then (c, sent, Ret.nil)
  else
    match uploadEvents env (moveBuffer c) sent with
    | (c1, sent1, err) =>
      match evictOldest c1 err with
      | (c2, r) => (c2, sent1, r)

def Flush (env : Env) (c : GEBatchConsumer) (sent : List Request) :
    GEBatchConsumer × List Request × Ret :=
  innerFlush env c sent

def timerFlush (env : Env) (c : GEBatchConsumer) (sent : List Request) :
    GEBatchConsumer × List Request × Ret :=
  innerFlush env c sent

/-- The method `Add`. -/
def Add (env : Env) (c : GEBatchConsumer) (d : Data) (sent : List Request) :
    GEBatchConsumer × List Request × Ret :=
  let c1 : GEBatchConsumer := { c with buffer := c.buffer ++ [d] }
  if getBufferLength c1 ≥ c1.batchSize ∨ getCacheLength c1 > 0 then
    Flush env c1 sent
  else (c1, sent, Ret.nil)

/-! ## Event lists in memory (`uploadEvents`, lines 214-222)

The engine above keeps a record as a value: its event list is the list of its
elements. A Go slice is a window into a backing array, and `append` at line 218
writes into the array of the first record of a client id when that record's
event list has spare capacity. This section models the first loop of
`uploadEvents` on event lists as they lie in memory. The records the SDK builds
itself have no spare capacity (`[]EventListItem{item}`, `gedata.go` line 177);
on such records the loop writes into no array that existed before it ran and
builds the map of `groupByClient` (`groupByClientMem_tight`). -/

/-- A Go slice of `EventListItem`: the backing array it points into, the index
of its first element in that array, its length, and its capacity (the number
of cells of the array from `off` on). -/
structure Slice where
  arr : Nat
  off : Nat
  len : Nat
  cap : Nat
  deriving DecidableEq, Repr

/-- The backing arrays of the event lists, numbered from 0 in the order of
their allocation. -/
abbrev Memory := List (List EventListItem)

/-- The cells of the backing array `a`. -/
def arrayAt (m : Memory) (a : Nat) : List EventListItem := m.getD a []

/-- The elements of the slice `s`. -/
def readSlice (m : Memory) (s : Slice) : List EventListItem :=
  ((arrayAt m s.arr).drop s.off).take s.len

/-- The array `l` with the cells from `pos` on overwritten by `xs`. -/
def writeAt (l : List EventListItem) (pos : Nat) (xs : List EventListItem) :
    List EventListItem :=
  l.take pos ++ xs ++ l.drop (pos + xs.length)

/-- The zero value of `EventListItem`, which fills the unused cells of a new
array. -/
def zeroItem : EventListItem :=
  { TimeFree := false, Type_ := "", EventName := "", Time := 0, Properties := [] }

/-- The built-in `append(s, xs...)`. When the elements fit into the capacity of
`s` they are written into the backing array of `s`, behind its last element,
and the result is `s` made longer. Otherwise a new array is allocated, with the
elements of `s` followed by `xs`; `grow cap needed` is the capacity the runtime
chooses for it (never less than the length needed). -/
def appendSlice (grow : Nat → Nat → Nat) (m : Memory) (s : Slice) (xs : List EventListItem) :
    Memory × Slice :=
  if s.len + xs.length ≤ s.cap then
    (m.set s.arr (writeAt (arrayAt m s.arr) (s.off + s.len) xs),
      { s with len := s.len + xs.length })
  else
    let newcap := max (s.len + xs.length) (grow s.cap (s.len + xs.length))
    (m ++ [readSlice m s ++ xs ++ List.replicate (newcap - (s.len + xs.length)) zeroItem],
      { arr := m.length, off := 0, len := s.len + xs.length, cap := newcap })

/-- The Go struct `Data` as it lies in memory: the event list is a slice. -/
structure MemData where
  ClientId : String
  EventList : Slice
  deriving DecidableEq, Repr

/-- The record `d` as it reads in the memory `m`. -/
def viewData (m : Memory) (d : MemData) : Data :=
  { ClientId := d.ClientId, EventList := readSlice m d.EventList }

/-- The Go map `clientIdMap` with its values as slices. -/
abbrev SliceMap := List (String × Slice)

/-- The map read `clientIdMap[clientId]` with its presence flag. -/
def sliceGet : SliceMap → String → Option Slice
  | [], _ => none
  | (k, v) :: m, clientId => if k = clientId then some v else sliceGet m clientId

/-- The map write `clientIdMap[clientId] = v`. -/
def sliceSet : SliceMap → String → Slice → SliceMap
  | [], clientId, v => [(clientId, v)]
  | (k, w) :: m, clientId, v =>
    if k = clientId then (k, v) :: m else (k, w) :: sliceSet m clientId v

/-- The first loop of `uploadEvents` in memory. The first record of a client id
puts its own slice into the map (line 220); each later record of that client id
is appended to the slice of the map (line 218), its elements being read when
its turn comes. -/
def groupLoopMem (grow : Nat → Nat → Nat) :
    List MemData → Memory → SliceMap → Memory × SliceMap
  | [], m, acc => (m, acc)
  | i :: buffer, m, acc =>
    match sliceGet acc i.ClientId with
    | some s =>
      match appendSlice grow m s (readSlice m i.EventList) with
      | (m1, s1) => groupLoopMem grow buffer m1 (sliceSet acc i.ClientId s1)
    | none => groupLoopMem grow buffer m (sliceSet acc i.ClientId i.EventList)

/-- The map of slices as it reads in the memory `m`: what the second loop of
`uploadEvents` serialises. -/
def viewMap (m : Memory) (acc : SliceMap) : ClientIdMap :=
  acc.map fun p => (p.1, readSlice m p.2)

/-- The first loop of `uploadEvents` on the batch `buffer` lying in the memory
`m`: the memory it leaves, and the payloads by client id. -/
def groupByClientMem (grow : Nat → Nat → Nat) (m : Memory) (buffer : List MemData) :
    Memory × ClientIdMap :=
  match groupLoopMem grow buffer m [] with
  | (m1, acc) => (m1, viewMap m1 acc)

/-- The slice `s` lies in the memory `m`: its array exists and holds the cells
the capacity of `s` covers. -/
def SliceIn (m : Memory) (s : Slice) : Prop :=
  s.arr < m.length ∧ s.off + s.cap ≤ (arrayAt m s.arr).length ∧ s.len ≤ s.cap

/-- The invariant of the grouping loop started in the memory `m0`, on records
without spare capacity: the arrays of `m0` are as they were; every entry of the
map lies in memory; an entry in an array of `m0` has no spare capacity; and an
array allocated by the loop belongs to one entry. -/
structure GroupInv (m0 m : Memory) (acc : SliceMap) : Prop where
  grows : m0.length ≤ m.length
  old : ∀ a, a < m0.length → arrayAt m a = arrayAt m0 a
  keys : (acc.map Prod.fst).Nodup
  inMem : ∀ p ∈ acc, SliceIn m p.2
  kind : ∀ p ∈ acc, p.2.arr < m0.length → p.2.len = p.2.cap
  own : ∀ p ∈ acc, ∀ q ∈ acc, m0.length ≤ p.2.arr → p.2.arr = q.2.arr → p.1 = q.1

/-! ## Sequences of calls -/

/-- A call on the engine: `Add d`, `Flush`, or a tick of the background timer. -/
inductive Op where
  | add (d : Data)
  | flush
  | tick
  deriving DecidableEq, Repr

def step (env : Env) (op : Op) (c : GEBatchConsumer) (sent : List Request) :
    GEBatchConsumer × List Request × Ret :=
  match op with
  | .add d => Add env c d sent
  | .flush => Flush env c sent
  | .tick => timerFlush env c sent

/-- Runs the calls one after the other; the results are collected in call
order. -/
def runOps (env : Env) : List Op → GEBatchConsumer → List Request →
    GEBatchConsumer × List Request × List Ret
  | [], c, sent => (c, sent, [])
  | op :: ops, c, sent =>
    match step env op c sent with
    | (c1, sent1, r) =>
      match runOps env ops c1 sent1 with
      | (c2, sent2, rs) => (c2, sent2, r :: rs)

/-! ## Draining the engine -/

/-- Whether the characters `p` open the characters `s`. -/
def charsStartWith : List Char → List Char → Bool
  | _, [] => true
  | [], _ :: _ => false
  | a :: s, b :: p => a == b && charsStartWith s p

/-- Whether the characters `p` occur in `s` as one contiguous run. -/
def charsContain : List Char → List Char → Bool
  | [], p => charsStartWith [] p
  | a :: s, p => charsStartWith (a :: s) p || charsContain s p

/-- The library function `strings.Contains`. -/
def stringsContains (s substr : String) : Bool := charsContain s.data substr.data

/-- The method `FlushAll`: `Flush` is called while the cache or the active
buffer is non-empty; an error whose message contains "GEDataError" is
swallowed, any other error ends the loop and is returned. `fuel` bounds the
number of `Flush` calls: the result is `none` when the loop has not ended
within `fuel` calls. -/
def FlushAll (env : Env) :
    Nat → GEBatchConsumer → List Request → Option (GEBatchConsumer × List Request × Ret)
  | 0, c, sent =>
    if getCacheLength c > 0 ∨ getBufferLength c > 0 then none else some (c, sent, Ret.nil)
  | fuel + 1, c, sent =>
    if getCacheLength c > 0 ∨ getBufferLength c > 0 then
      match Flush env c sent with
      | (c1, sent1, Ret.nil) => FlushAll env fuel c1 sent1
      | (c1, sent1, Ret.error msg) =>
        if stringsContains msg "GEDataError" then FlushAll env fuel c1 sent1
        else some (c1, sent1, Ret.error msg)
      | (c1, sent1, Ret.panic msg) => some (c1, sent1, Ret.panic msg)
    else some (c, sent, Ret.nil)

/-- The method `Close`. -/
def Close (env : Env) (fuel : Nat) (c : GEBatchConsumer) (sent : List Request) :
    Option (GEBatchConsumer × List Request × Ret) :=
  FlushAll env fuel c sent

/-- The method `IsStringent`. -/
def IsStringent (_c : GEBatchConsumer) : Bool := false

/-! ## Notions the properties are stated with -/

/-- The concatenation of the event lists of the records of `buffer` whose
client id is `clientId`, in the order the records appear in `buffer`. -/
def eventsOf (clientId : String) : List Data → List EventListItem
  | [] => []
  | i :: buffer =>
    if i.ClientId = clientId then i.EventList ++ eventsOf clientId buffer
    else eventsOf clientId buffer

/-- The batch one run of `innerFlush` moves from the active buffer into the
cache in state `c`, if it moves one (the conditions of lines 190 and 202). -/
def movedBatch (c : GEBatchConsumer) : Option (List Data) :=
  if c.buffer.length = 0 ∧ c.cacheBuffer.length = 0 then none
  else if c.cacheBuffer.length = 0 ∨ (c.buffer.length : Int) ≥ c.batchSize then some c.buffer
  else none

/-- The batch the call `op` moves into the cache in state `c`, if any. -/
def movedBy (op : Op) (c : GEBatchConsumer) : Option (List Data) :=
  match op with
  | .add d =>
    let c1 : GEBatchConsumer := { c with buffer := c.buffer ++ [d] }
    if getBufferLength c1 ≥ c1.batchSize ∨ getCacheLength c1 > 0 then movedBatch c1 else none
  | .flush => movedBatch c
  | .tick => movedBatch c

/-- The batches created by a sequence of calls, in creation order. -/
def createdBatches (env : Env) : List Op → GEBatchConsumer → List Request → List (List Data)
  | [], _, _ => []
  | op :: ops, c, sent =>
    (movedBy op c).toList ++
      createdBatches env ops (step env op c sent).1 (step env op c sent).2.1

/-- The last `n` elements of a list, in order. -/
def lastN {α : Type} (n : Nat) (l : List α) : List α := l.drop (l.length - n)

/-- The endpoint accepts request `r` posted after the requests `pre`: HTTP 200
with code 0. -/
def Accepted (env : Env) (pre : List Request) (r : Request) : Prop :=
  env.Do pre r = HttpResult.response 200 (Except.ok 0)

/-- No delivery attempt made after the requests `sent` succeeds: `final` is
the list of all requests in the end, and none of those posted after `sent`
was accepted. -/
def NoSuccessAfter (env : Env) (sent final : List Request) : Prop :=
  ∀ (pre : List Request) (r : Request) (post : List Request),
    final = pre ++ r :: post → sent.length ≤ pre.length → ¬Accepted env pre r

/-- Every record waiting in the engine can be serialised. -/
def AllSerialisable (c : GEBatchConsumer) : Prop :=
  (∀ i ∈ c.buffer, jsonMarshalOk i = true) ∧
    ∀ b ∈ c.cacheBuffer, ∀ i ∈ b, jsonMarshalOk i = true

/-- The number of `Flush` calls a drain of `c` takes when every delivery
succeeds: one for each batch of the cache and one more for a non-empty
buffer. -/
def pendingFlushes (c : GEBatchConsumer) : Nat :=
  c.cacheBuffer.length + (if c.buffer.length = 0 then 0 else 1)

/-- The endpoint accepts every request posted after the requests `sent`. -/
def AcceptsAfter (env : Env) (sent : List Request) : Prop :=
  ∀ (extra : List Request) (req : Request),
    env.Do (sent ++ extra) req = HttpResult.response 200 (Except.ok 0)

/-! ## Sample data -/

def sampleEvent (n : Int) : EventListItem :=
  { TimeFree := false, Type_ := "track", EventName := "click", Time := n, Properties := [] }

def sampleRecord (clientId : String) (n : Int) : Data :=
  { ClientId := clientId, EventList := [sampleEvent n] }

/-- An endpoint that cannot be reached. -/
def envDown : Env :=
  { Do := fun _ _ => HttpResult.transportError "connection refused", rangeSeed := fun _ _ => 0 }

/-- An endpoint that accepts every request. -/
def envAccept : Env :=
  { Do := fun _ _ => HttpResult.response 200 (Except.ok 0), rangeSeed := fun _ _ => 0 }

/-- An endpoint that answers every request with HTTP 503. -/
def env503 : Env :=
  { Do := fun _ _ => HttpResult.response 503 (Except.ok 0), rangeSeed := fun _ _ => 0 }

/-- An endpoint that answers every request with HTTP 200 and code 7. -/
def envReject : Env :=
  { Do := fun _ _ => HttpResult.response 200 (Except.ok 7), rangeSeed := fun _ _ => 0 }

def sampleParse (s : String) : Except String String := Except.ok s

/-- The range check of `makeslice` on a 64-bit platform: an element of
`[][]Data` takes 24 bytes and an allocation at most `2 ^ 48` bytes. -/
def sampleMake (cap : Int) : Bool := decide (cap * 24 ≤ 281474976710656)

def sampleConfig (batchSize cacheCapacity : Int) : GEBatchConfig :=
  { ServerUrl := "http://localhost", BatchSize := batchSize, Timeout := 0, Compress := false,
    AutoFlush := false, Interval := 0, CacheCapacity := cacheCapacity }

def sampleEngine (batchSize cacheCapacity : Int) : GEBatchConsumer :=
  { serverUrl := "http://localhost", compress := false, buffer := [], batchSize := batchSize,
    cacheBuffer := [], cacheCapacity := cacheCapacity }

/-- The state of `sampleEngine 1 2` after two records were added while the
endpoint was down: two batches wait in the cache. -/
def sampleTwoBatches : GEBatchConsumer :=
  { sampleEngine 1 2 with cacheBuffer := [[sampleRecord "a" 1], [sampleRecord "b" 2]] }

/-- The request that carries the record `sampleRecord "a" 1` alone. -/
def sampleRequest : Request :=
  { url := "http://localhost", body := sampleRecord "a" 1, compressType := "none", count := 1 }

/-- An engine of batch size 2 and capacity 1 with one record in its buffer. -/
def sampleOneBuffered : GEBatchConsumer :=
  { sampleEngine 2 1 with buffer := [sampleRecord "a" 1] }

/-- An endpoint that accepts every request, under a map iteration that visits
the second entry first. -/
def envAcceptSecond : Env :=
  { Do := fun _ _ => HttpResult.response 200 (Except.ok 0), rangeSeed := fun _ _ => 1 }

/-- An endpoint that is down for the first two requests and accepts every
request after them. -/
def envRecovers : Env :=
  { Do := fun sent _ =>
      if sent.length < 2 then HttpResult.transportError "connection refused"
      else HttpResult.response 200 (Except.ok 0),
    rangeSeed := fun _ _ => 0 }

/-- A record with a property value that `json.Marshal` cannot encode. -/
def sampleUnserialisable : Data :=
  { ClientId := "z",
    EventList := [{ TimeFree := false, Type_ := "track", EventName := "click", Time := 9,
                    Properties := [("callback", PropValue.unsupported)] }] }

/-- The request that carries the first two records of client "c1" together. -/
def sampleFirstTwo : Request :=
  { url := "http://localhost", body := ⟨"c1", [sampleEvent 1, sampleEvent 2]⟩,
    compressType := "none", count := 1 }

/-- The request that carries the third record of client "c1". -/
def sampleThird : Request :=
  { url := "http://localhost", body := ⟨"c1", [sampleEvent 3]⟩,
    compressType := "none", count := 1 }

/-- The state of `sampleEngine 1 50` after `Add sampleUnserialisable`: the
record sits in the only batch of the cache. -/
def sampleStuck : GEBatchConsumer :=
  { sampleEngine 1 50 with cacheBuffer := [[sampleUnserialisable]] }

/-- An endpoint that is down for the first five requests and accepts every
request after them. -/
def envRecoversLate : Env :=
  { Do := fun sent _ =>
      if sent.length < 5 then HttpResult.transportError "connection refused"
      else HttpResult.response 200 (Except.ok 0),
    rangeSeed := fun _ _ => 0 }

/-- A runtime whose `append` allocates twice the length it needs. -/
def sampleGrow (_ needed : Nat) : Nat := 2 * needed

/-- A memory with three backing arrays: array 0 holds the events 1 and 9,
array 1 the event 2, array 2 the event 4. -/
def sampleMemory : Memory :=
  [[sampleEvent 1, sampleEvent 9], [sampleEvent 2], [sampleEvent 4]]

/-- An older batch in `sampleMemory`, two records of client "a": the event list
of the first is `array0[0:1]` (length 1, capacity 2), that of the second is
array 1. -/
def sampleOlderBatch : List MemData :=
  [{ ClientId := "a", EventList := { arr := 0, off := 0, len := 1, cap := 2 } },
   { ClientId := "a", EventList := { arr := 1, off := 0, len := 1, cap := 1 } }]

/-- A newer batch in `sampleMemory`, two records of client "b": the event list
of the first is `array0[1:2]`, that of the second is array 2. -/
def sampleNewerBatch : List MemData :=
  [{ ClientId := "b", EventList := { arr := 0, off := 1, len := 1, cap := 1 } },
   { ClientId := "b", EventList := { arr := 2, off := 0, len := 1, cap := 1 } }]

/-- One batch in `sampleMemory`, three records of client "a" with the event
lists `array0[0:1]`, array 1 and `array0[1:2]`. -/
def sampleSharedBatch : List MemData :=
  [{ ClientId := "a", EventList := { arr := 0, off := 0, len := 1, cap := 2 } },
   { ClientId := "a", EventList := { arr := 1, off := 0, len := 1, cap := 1 } },
   { ClientId := "a", EventList := { arr := 0, off := 1, len := 1, cap := 1 } }]

/-! ## The map of client ids and its iteration order -/

theorem mapGet_mapSet (m : ClientIdMap) (k k' : String) (v : List EventListItem) :
    mapGet (mapSet m k v) k' = if k = k' then some v else mapGet m k' := by
  induction m with
  | nil => simp [mapSet, mapGet]
  | cons p m ih =>
    obtain ⟨a, w⟩ := p
    unfold mapSet
    by_cases ha : a = k
    · subst ha
      simp only [if_true, mapGet]
      split_ifs <;> rfl
    · simp only [if_neg ha, mapGet, ih]
      by_cases hk : k = k'
      · subst hk; simp [ha]
      · simp [hk]

theorem mapSet_keys (m : ClientIdMap) (k : String) (v : List EventListItem) :
    (mapSet m k v).map Prod.fst =
      if k ∈ m.map Prod.fst then m.map Prod.fst else m.map Prod.fst ++ [k] := by
  induction m with
  | nil => simp [mapSet]
  | cons p m ih =>
    obtain ⟨a, w⟩ := p
    unfold mapSet
    by_cases ha : a = k
    · subst ha; simp
    · have hne : ¬k = a := fun h => ha h.symm
      simp only [if_neg ha, List.map_cons, ih, List.mem_cons, hne, false_or]
      split_ifs <;> simp

theorem mapSet_nodup (m : ClientIdMap) (k : String) (v : List EventListItem)
    (h : (m.map Prod.fst).Nodup) : ((mapSet m k v).map Prod.fst).Nodup := by
  rw [mapSet_keys]
  split_ifs with hk
  · exact h
  · rw [List.nodup_append]
    refine ⟨h, List.nodup_singleton k, ?_⟩
    intro a ha hb
    simp only [List.mem_singleton] at hb
    subst hb
    exact hk ha

theorem groupLoop_nodup :
    ∀ (buffer : List Data) (acc : ClientIdMap),
      (acc.map Prod.fst).Nodup → ((groupLoop buffer acc).map Prod.fst).Nodup := by
  intro buffer
  induction buffer with
  | nil => intro acc h; exact h
  | cons i buffer ih =>
    intro acc h
    unfold groupLoop
    split <;> exact ih _ (mapSet_nodup _ _ _ h)

theorem mapGet_of_mem :
    ∀ (m : ClientIdMap), (m.map Prod.fst).Nodup →
      ∀ g ∈ m, mapGet m g.1 = some g.2 := by
  intro m
  induction m with
  | nil => intro _ g hg; simp at hg
  | cons p m ih =>
    intro hn g hg
    obtain ⟨a, w⟩ := p
    simp only [List.map_cons, List.nodup_cons] at hn
    simp only [List.mem_cons] at hg
    unfold mapGet
    rcases hg with rfl | hg
    · simp
    · have : a ≠ g.1 := by
        intro h
        apply hn.1
        rw [h]
        exact List.mem_map_of_mem Prod.fst hg
      simp only [if_neg this]
      exact ih hn.2 g hg

theorem mem_of_mapGet :
    ∀ (m : ClientIdMap) (k : String) (v : List EventListItem),
      mapGet m k = some v → (k, v) ∈ m := by
  intro m
  induction m with
  | nil => intro k v h; simp [mapGet] at h
  | cons p m ih =>
    intro k v h
    obtain ⟨a, w⟩ := p
    unfold mapGet at h
    split_ifs at h with ha
    · simp only [Option.some.injEq] at h
      subst ha; subst h
      exact List.mem_cons_self _ _
    · exact List.mem_cons_of_mem _ (ih k v h)

theorem filter_key_of_mem :
    ∀ (m : ClientIdMap), (m.map Prod.fst).Nodup →
      ∀ (k : String) (v : List EventListItem), (k, v) ∈ m →
        m.filter (fun g => decide (g.1 = k)) = [(k, v)] := by
  intro m
  induction m with
  | nil => intro _ k v h; simp at h
  | cons p m ih =>
    intro hn k v h
    obtain ⟨a, w⟩ := p
    simp only [List.map_cons, List.nodup_cons] at hn
    rcases List.mem_cons.mp h with heq | hmem
    · simp only [Prod.mk.injEq] at heq
      obtain ⟨rfl, rfl⟩ := heq
      rw [List.filter_cons_of_pos (by simp)]
      congr 1
      rw [List.filter_eq_nil_iff]
      intro g hg hk
      simp only [decide_eq_true_eq] at hk
      apply hn.1
      rw [← hk]
      exact List.mem_map_of_mem Prod.fst hg
    · have hne : a ≠ k := by
        intro hak
        apply hn.1
        rw [hak]
        exact List.mem_map_of_mem Prod.fst hmem
      rw [List.filter_cons_of_neg (by simpa using hne)]
      exact ih hn.2 k v hmem

/-- The entry of a client id after the grouping loop: the events already in
the map followed by the events of its records in the buffer. -/
theorem groupLoop_get :
    ∀ (buffer : List Data) (acc : ClientIdMap) (clientId : String),
      mapGet (groupLoop buffer acc) clientId =
        match mapGet acc clientId with
        | some evs => some (evs ++ eventsOf clientId buffer)
        | none =>
          if buffer.any (fun i => decide (i.ClientId = clientId)) then
            some (eventsOf clientId buffer)
          else none := by
  intro buffer
  induction buffer with
  | nil =>
    intro acc clientId
    simp only [groupLoop, eventsOf, List.append_nil, List.any_nil]
    cases mapGet acc clientId <;> simp
  | cons i buffer ih =>
    intro acc clientId
    unfold groupLoop
    by_cases hi : i.ClientId = clientId
    · subst hi
      cases hg : mapGet acc i.ClientId with
      | some evs => simp [ih, mapGet_mapSet, eventsOf]
      | none => simp [ih, mapGet_mapSet, eventsOf]
    · cases hg : mapGet acc i.ClientId with
      | some evs =>
        simp only [ih, mapGet_mapSet, if_neg hi, eventsOf, List.any_cons, decide_eq_false hi, Bool.false_or]
      | none =>
        simp only [ih, mapGet_mapSet, if_neg hi, eventsOf, List.any_cons, decide_eq_false hi, Bool.false_or]

/-- Every entry of the map built from a batch is a client id of the batch
with the concatenation of the event lists of its records, in batch order. -/
theorem groupByClient_mem (buffer : List Data) (g : String × List EventListItem)
    (hg : g ∈ groupByClient buffer) :
    (∃ i ∈ buffer, i.ClientId = g.1) ∧ g.2 = eventsOf g.1 buffer := by
  have hn : ((groupByClient buffer).map Prod.fst).Nodup :=
    groupLoop_nodup buffer [] (by simp)
  have h1 := mapGet_of_mem _ hn g hg
  unfold groupByClient at h1
  rw [groupLoop_get] at h1
  simp only [mapGet] at h1
  split_ifs at h1 with ha
  simp only [Option.some.injEq] at h1
  refine ⟨?_, h1.symm⟩
  simpa using ha

/-- Every client id of a batch has its entry in the map built from it. -/
theorem groupByClient_get (buffer : List Data) (i : Data) (hi : i ∈ buffer) :
    (i.ClientId, eventsOf i.ClientId buffer) ∈ groupByClient buffer := by
  apply mem_of_mapGet
  unfold groupByClient
  rw [groupLoop_get]
  simp only [mapGet]
  rw [if_pos]
  simp only [List.any_eq_true, decide_eq_true_eq]
  exact ⟨i, hi, rfl⟩

theorem pickNth_perm {α : Type} :
    ∀ (l : List α) (i : Nat) (y : α) (r : List α),
      pickNth l i = some (y, r) → l.Perm (y :: r) := by
  intro l
  induction l with
  | nil => intro i y r h; simp [pickNth] at h
  | cons x xs ih =>
    intro i y r h
    cases i with
    | zero =>
      simp only [pickNth, Option.some.injEq, Prod.mk.injEq] at h
      rw [h.1, h.2]
    | succ i =>
      unfold pickNth at h
      split at h
      next y' r' hp =>
        simp only [Option.some.injEq, Prod.mk.injEq] at h
        rw [← h.1, ← h.2]
        exact ((ih i y' r' hp).cons x).trans (List.Perm.swap y' x r')
      next => simp at h

theorem pickNth_lt {α : Type} :
    ∀ (l : List α) (i : Nat), i < l.length → ∃ y r, pickNth l i = some (y, r) := by
  intro l
  induction l with
  | nil => intro i h; simp at h
  | cons x xs ih =>
    intro i h
    cases i with
    | zero => exact ⟨x, xs, rfl⟩
    | succ i =>
      obtain ⟨y, r, hp⟩ := ih i (by simpa using h)
      exact ⟨y, x :: r, by simp [pickNth, hp]⟩

theorem pickNth_of_mem {α : Type} :
    ∀ (l : List α) (y : α), y ∈ l → ∃ i r, i < l.length ∧ pickNth l i = some (y, r) := by
  intro l
  induction l with
  | nil => intro y h; simp at h
  | cons x xs ih =>
    intro y h
    rcases List.mem_cons.mp h with rfl | h
    · exact ⟨0, xs, by simp, rfl⟩
    · obtain ⟨i, r, hi, hp⟩ := ih y h
      exact ⟨i + 1, x :: r, by simpa using hi, by simp [pickNth, hp]⟩

theorem rangeOrder_subset {α : Type} (seed : Nat → Nat) :
    ∀ (fuel k : Nat) (l : List α), ∀ x ∈ rangeOrder seed fuel k l, x ∈ l := by
  intro fuel
  induction fuel with
  | zero => intro k l x hx; simp [rangeOrder] at hx
  | succ n ih =>
    intro k l x hx
    unfold rangeOrder at hx
    split at hx
    next y r hp =>
      have hperm := pickNth_perm l _ y r hp
      simp only [List.mem_cons] at hx
      rcases hx with rfl | hx
      · exact hperm.symm.subset (List.mem_cons_self _ _)
      · exact hperm.symm.subset (List.mem_cons_of_mem _ (ih (k + 1) r x hx))
    next => simp at hx

/-- The iteration visits every entry of the map exactly once. -/
theorem rangeOrder_perm {α : Type} (seed : Nat → Nat) :
    ∀ (fuel k : Nat) (l : List α), l.length = fuel → (rangeOrder seed fuel k l).Perm l := by
  intro fuel
  induction fuel with
  | zero =>
    intro k l h
    rw [List.length_eq_zero] at h
    subst h
    simp [rangeOrder]
  | succ n ih =>
    intro k l h
    have hpos : 0 < l.length := by omega
    obtain ⟨y, r, hp⟩ := pickNth_lt l (seed k % l.length) (Nat.mod_lt _ hpos)
    have hperm := pickNth_perm l _ y r hp
    have hlen : r.length = n := by
      have := hperm.length_eq
      simp only [List.length_cons] at this
      omega
    unfold rangeOrder
    simp only [hp]
    exact ((ih (k + 1) r hlen).cons y).trans hperm.symm

theorem rangeOrder_congr {α : Type} (s1 s2 : Nat → Nat) :
    ∀ (fuel k : Nat) (l : List α), (∀ j, k ≤ j → s1 j = s2 j) →
      rangeOrder s1 fuel k l = rangeOrder s2 fuel k l := by
  intro fuel
  induction fuel with
  | zero => intro k l _; rfl
  | succ n ih =>
    intro k l h
    unfold rangeOrder
    rw [h k (le_refl k)]
    split
    · rw [ih (k + 1) _ (fun j hj => h j (by omega))]
    · rfl

/-- Every order of the map entries is the iteration order for some seed: the
model leaves the order of `range` over a map unconstrained. -/
theorem rangeOrder_complete {α : Type} :
    ∀ (p l : List α), p.Perm l → ∀ k : Nat, ∃ seed, rangeOrder seed l.length k l = p := by
  intro p
  induction p with
  | nil =>
    intro l h k
    have : l = [] := List.Perm.eq_nil h.symm
    subst this
    exact ⟨fun _ => 0, rfl⟩
  | cons y p ih =>
    intro l h k
    have hy : y ∈ l := h.subset (List.mem_cons_self _ _)
    obtain ⟨i, r, hi, hp⟩ := pickNth_of_mem l y hy
    have hperm := pickNth_perm l i y r hp
    have hr : p.Perm r := (List.Perm.cons_inv (h.trans hperm))
    obtain ⟨seed', hs⟩ := ih r hr (k + 1)
    have hlen : l.length = r.length + 1 := by
      have := hperm.length_eq
      simpa using this
    refine ⟨fun j => if j = k then i else seed' j, ?_⟩
    rw [hlen]
    unfold rangeOrder
    simp only [if_true]
    rw [Nat.mod_eq_of_lt hi, hp]
    simp only
    rw [rangeOrder_congr _ seed' r.length (k + 1) r (fun j hj => by
      have : j ≠ k := by omega
      simp [this]), hs]

/-! ## The grouping loop in memory -/

theorem writeAt_length (l : List EventListItem) (pos : Nat) (xs : List EventListItem)
    (h : pos + xs.length ≤ l.length) : (writeAt l pos xs).length = l.length := by
  unfold writeAt
  simp only [List.length_append, List.length_take, List.length_drop]
  omega

theorem writeAt_nil (l : List EventListItem) (pos : Nat) : writeAt l pos [] = l := by
  unfold writeAt
  simp

theorem writeAt_read (l : List EventListItem) (off len : Nat) (xs : List EventListItem)
    (h : off + len + xs.length ≤ l.length) :
    ((writeAt l (off + len) xs).drop off).take (len + xs.length) =
      (l.drop off).take len ++ xs := by
  unfold writeAt
  have h1 : (List.take (off + len) l).length = off + len := by
    rw [List.length_take]; omega
  rw [List.append_assoc, List.drop_append_of_le_length (by omega)]
  have h2 : (List.drop off (List.take (off + len) l)).length = len := by
    rw [List.length_drop, h1]; omega
  rw [← List.append_assoc, List.take_append_of_le_length (by
    rw [List.length_append, h2])]
  rw [List.take_of_length_le (by rw [List.length_append, h2])]
  congr 1
  rw [List.drop_take]
  congr 1
  omega

theorem arrayAt_set_same (m : Memory) (a : Nat) (v : List EventListItem) (h : a < m.length) :
    arrayAt (m.set a v) a = v := by
  unfold arrayAt
  simp [List.getD_eq_getElem?_getD, h]

theorem arrayAt_set_other (m : Memory) (a b : Nat) (v : List EventListItem) (h : b ≠ a) :
    arrayAt (m.set a v) b = arrayAt m b := by
  unfold arrayAt
  simp [List.getD_eq_getElem?_getD, List.getElem?_set_ne (Ne.symm h)]

theorem set_arrayAt (m : Memory) (a : Nat) : m.set a (arrayAt m a) = m := by
  unfold arrayAt
  apply List.ext_getElem?
  intro i
  by_cases hi : a = i
  · subst hi
    by_cases hl : a < m.length
    · simp [List.getD_eq_getElem?_getD, hl]
    · have hl2 : m.length ≤ a := Nat.le_of_not_lt hl
      rw [List.getElem?_eq_none hl2, List.getElem?_eq_none (by rw [List.length_set]; exact hl2)]
  · rw [List.getElem?_set_ne hi]

theorem arrayAt_append_old (m : Memory) (v : List EventListItem) (a : Nat) (h : a < m.length) :
    arrayAt (m ++ [v]) a = arrayAt m a := by
  unfold arrayAt
  simp [List.getD_eq_getElem?_getD, List.getElem?_append_left h]

theorem arrayAt_append_new (m : Memory) (v : List EventListItem) :
    arrayAt (m ++ [v]) m.length = v := by
  unfold arrayAt
  simp [List.getD_eq_getElem?_getD]

theorem readSlice_length (m : Memory) (s : Slice) (h : SliceIn m s) :
    (readSlice m s).length = s.len := by
  obtain ⟨-, h2, h3⟩ := h
  unfold readSlice
  rw [List.length_take, List.length_drop]
  omega

theorem mapGet_viewMap (m : Memory) (acc : SliceMap) (clientId : String) :
    mapGet (viewMap m acc) clientId = (sliceGet acc clientId).map (readSlice m) := by
  induction acc with
  | nil => rfl
  | cons p acc ih =>
    obtain ⟨k, w⟩ := p
    unfold viewMap at ih ⊢
    simp only [List.map_cons, mapGet, sliceGet]
    split_ifs
    · rfl
    · exact ih

theorem sliceGet_mem :
    ∀ (acc : SliceMap) (k : String) (v : Slice), sliceGet acc k = some v → (k, v) ∈ acc := by
  intro acc
  induction acc with
  | nil => intro k v h; simp [sliceGet] at h
  | cons p acc ih =>
    intro k v h
    obtain ⟨a, w⟩ := p
    unfold sliceGet at h
    split_ifs at h with ha
    · simp only [Option.some.injEq] at h
      subst ha; subst h
      exact List.mem_cons_self _ _
    · exact List.mem_cons_of_mem _ (ih k v h)

theorem sliceGet_none :
    ∀ (acc : SliceMap) (k : String), sliceGet acc k = none → k ∉ acc.map Prod.fst := by
  intro acc
  induction acc with
  | nil => intro k _; simp
  | cons p acc ih =>
    intro k h
    obtain ⟨a, w⟩ := p
    unfold sliceGet at h
    split_ifs at h with ha
    simp only [List.map_cons, List.mem_cons, not_or]
    exact ⟨fun hk => ha hk.symm, ih k h⟩

theorem sliceSet_keys (acc : SliceMap) (k : String) (v : Slice) :
    (sliceSet acc k v).map Prod.fst =
      if k ∈ acc.map Prod.fst then acc.map Prod.fst else acc.map Prod.fst ++ [k] := by
  induction acc with
  | nil => simp [sliceSet]
  | cons p acc ih =>
    obtain ⟨a, w⟩ := p
    unfold sliceSet
    by_cases ha : a = k
    · subst ha; simp
    · have hne : ¬k = a := fun h => ha h.symm
      simp only [if_neg ha, List.map_cons, ih, List.mem_cons, hne, false_or]
      split_ifs <;> simp

theorem sliceSet_nodup (acc : SliceMap) (k : String) (v : Slice)
    (h : (acc.map Prod.fst).Nodup) : ((sliceSet acc k v).map Prod.fst).Nodup := by
  rw [sliceSet_keys]
  split_ifs with hk
  · exact h
  · rw [List.nodup_append]
    refine ⟨h, List.nodup_singleton k, ?_⟩
    intro a ha hb
    simp only [List.mem_singleton] at hb
    subst hb
    exact hk ha

theorem mem_sliceSet :
    ∀ (acc : SliceMap) (k : String) (v : Slice) (p : String × Slice),
      (acc.map Prod.fst).Nodup →
      p ∈ sliceSet acc k v → p = (k, v) ∨ (p ∈ acc ∧ p.1 ≠ k) := by
  intro acc
  induction acc with
  | nil =>
    intro k v p _ h
    simp only [sliceSet, List.mem_singleton] at h
    exact Or.inl h
  | cons q acc ih =>
    intro k v p hn h
    obtain ⟨a, w⟩ := q
    simp only [List.map_cons, List.nodup_cons] at hn
    unfold sliceSet at h
    by_cases ha : a = k
    · rw [if_pos ha] at h
      rcases List.mem_cons.mp h with h1 | h1
      · left; rw [h1, ha]
      · right
        refine ⟨List.mem_cons_of_mem _ h1, ?_⟩
        intro hp
        apply hn.1
        rw [ha, ← hp]
        exact List.mem_map_of_mem Prod.fst h1
    · rw [if_neg ha] at h
      rcases List.mem_cons.mp h with h1 | h1
      · right
        rw [h1]
        exact ⟨List.mem_cons_self _ _, ha⟩
      · rcases ih k v p hn.2 h1 with h2 | ⟨h2, h3⟩
        · exact Or.inl h2
        · exact Or.inr ⟨List.mem_cons_of_mem _ h2, h3⟩

theorem viewMap_sliceSet :
    ∀ (acc : SliceMap) (m m1 : Memory) (k : String) (v : Slice),
      (acc.map Prod.fst).Nodup →
      (∀ q ∈ acc, q.1 ≠ k → readSlice m1 q.2 = readSlice m q.2) →
      viewMap m1 (sliceSet acc k v) = mapSet (viewMap m acc) k (readSlice m1 v) := by
  intro acc
  induction acc with
  | nil => intro m m1 k v _ _; rfl
  | cons q acc ih =>
    intro m m1 k v hn h
    obtain ⟨a, w⟩ := q
    simp only [List.map_cons, List.nodup_cons] at hn
    have hrest : ∀ q ∈ acc, q.1 ≠ k → readSlice m1 q.2 = readSlice m q.2 :=
      fun q hq => h q (List.mem_cons_of_mem _ hq)
    by_cases ha : a = k
    · have hsame : viewMap m1 acc = viewMap m acc := by
        unfold viewMap
        apply List.map_congr_left
        intro q hq
        have hqk : q.1 ≠ k := by
          intro hp
          apply hn.1
          rw [ha, ← hp]
          exact List.mem_map_of_mem Prod.fst hq
        rw [hrest q hq hqk]
      have e1 : sliceSet ((a, w) :: acc) k v = (a, v) :: acc := by
        show (if a = k then (a, v) :: acc else (a, w) :: sliceSet acc k v) = (a, v) :: acc
        exact if_pos ha
      have e2 : viewMap m ((a, w) :: acc) = (a, readSlice m w) :: viewMap m acc := rfl
      rw [e1, e2]
      show _ = (if a = k then (a, readSlice m1 v) :: viewMap m acc
        else (a, readSlice m w) :: mapSet (viewMap m acc) k (readSlice m1 v))
      rw [if_pos ha, ← hsame]
      rfl
    · have e1 : sliceSet ((a, w) :: acc) k v = (a, w) :: sliceSet acc k v := by
        show (if a = k then (a, v) :: acc else (a, w) :: sliceSet acc k v) =
          (a, w) :: sliceSet acc k v
        exact if_neg ha
      have e2 : viewMap m ((a, w) :: acc) = (a, readSlice m w) :: viewMap m acc := rfl
      have e3 : viewMap m1 ((a, w) :: sliceSet acc k v) =
          (a, readSlice m1 w) :: viewMap m1 (sliceSet acc k v) := rfl
      rw [e1, e2, e3, ih m m1 k v hn.2 hrest,
        h (a, w) (List.mem_cons_self _ _) ha]
      show _ = (if a = k then (a, readSlice m1 v) :: viewMap m acc
        else (a, readSlice m w) :: mapSet (viewMap m acc) k (readSlice m1 v))
      rw [if_neg ha]

theorem readSlice_congr (m m1 : Memory) (s : Slice)
    (h : arrayAt m1 s.arr = arrayAt m s.arr) : readSlice m1 s = readSlice m s := by
  unfold readSlice
  rw [h]

theorem SliceIn_congr (m m1 : Memory) (s : Slice) (hl : m.length ≤ m1.length)
    (h : arrayAt m1 s.arr = arrayAt m s.arr) (hs : SliceIn m s) : SliceIn m1 s := by
  obtain ⟨h1, h2, h3⟩ := hs
  refine ⟨by omega, ?_, h3⟩
  rw [h]
  exact h2

theorem appendSlice_inPlace (grow : Nat → Nat → Nat) (m : Memory) (s : Slice)
    (xs : List EventListItem) (h : s.len + xs.length ≤ s.cap) :
    appendSlice grow m s xs =
      (m.set s.arr (writeAt (arrayAt m s.arr) (s.off + s.len) xs),
        { s with len := s.len + xs.length }) := by
  unfold appendSlice
  rw [if_pos h]

theorem appendSlice_alloc (grow : Nat → Nat → Nat) (m : Memory) (s : Slice)
    (xs : List EventListItem) (h : ¬s.len + xs.length ≤ s.cap) :
    appendSlice grow m s xs =
      (m ++ [readSlice m s ++ xs ++
          List.replicate (max (s.len + xs.length) (grow s.cap (s.len + xs.length)) -
            (s.len + xs.length)) zeroItem],
        { arr := m.length, off := 0, len := s.len + xs.length,
          cap := max (s.len + xs.length) (grow s.cap (s.len + xs.length)) }) := by
  unfold appendSlice
  rw [if_neg h]

/-- The map write `clientIdMap[k] = s1` keeps the invariant of the grouping
loop when the memory `m1` written before it left every other entry alone. -/
theorem GroupInv.set {m0 m : Memory} {acc : SliceMap} (hinv : GroupInv m0 m acc)
    (m1 : Memory) (k : String) (s1 : Slice)
    (hgrow : m.length ≤ m1.length)
    (hold : ∀ a, a < m0.length → arrayAt m1 a = arrayAt m a)
    (hothers : ∀ q ∈ acc, q.1 ≠ k → arrayAt m1 q.2.arr = arrayAt m q.2.arr)
    (hin1 : SliceIn m1 s1)
    (hkind1 : s1.arr < m0.length → s1.len = s1.cap)
    (hown1 : ∀ q ∈ acc, q.1 ≠ k → m0.length ≤ s1.arr ∨ m0.length ≤ q.2.arr →
      s1.arr ≠ q.2.arr) :
    GroupInv m0 m1 (sliceSet acc k s1) ∧
      viewMap m1 (sliceSet acc k s1) = mapSet (viewMap m acc) k (readSlice m1 s1) := by
  have hcase := fun p hp => mem_sliceSet acc k s1 p hinv.keys hp
  refine ⟨⟨le_trans hinv.grows hgrow, ?_, sliceSet_nodup acc k s1 hinv.keys, ?_, ?_, ?_⟩, ?_⟩
  · intro a ha
    rw [hold a ha, hinv.old a ha]
  · intro p hp
    rcases hcase p hp with rfl | ⟨hp1, hp2⟩
    · exact hin1
    · exact SliceIn_congr m m1 p.2 hgrow (hothers p hp1 hp2) (hinv.inMem p hp1)
  · intro p hp
    rcases hcase p hp with rfl | ⟨hp1, -⟩
    · exact hkind1
    · exact hinv.kind p hp1
  · intro p hp q hq hpriv harr
    rcases hcase p hp with rfl | ⟨hp1, hp2⟩
    · rcases hcase q hq with rfl | ⟨hq1, hq2⟩
      · rfl
      · exact absurd harr (hown1 q hq1 hq2 (Or.inl hpriv))
    · rcases hcase q hq with rfl | ⟨hq1, hq2⟩
      · exact absurd harr.symm (hown1 p hp1 hp2 (Or.inr hpriv))
      · exact hinv.own p hp1 q hq1 hpriv harr
  · apply viewMap_sliceSet acc m m1 k s1 hinv.keys
    intro q hq hqk
    exact readSlice_congr m m1 q.2 (hothers q hq hqk)

/-- Two entries of the map under different keys do not share an array that the
loop allocated. -/
theorem GroupInv.apart {m0 m : Memory} {acc : SliceMap} (hinv : GroupInv m0 m acc)
    (k : String) (s : Slice) (hs : (k, s) ∈ acc) :
    ∀ q ∈ acc, q.1 ≠ k → m0.length ≤ s.arr ∨ m0.length ≤ q.2.arr → s.arr ≠ q.2.arr := by
  intro q hq hqk hor harr
  rcases hor with h | h
  · exact hqk (hinv.own (k, s) hs q hq h harr).symm
  · exact hqk (hinv.own q hq (k, s) hs h harr.symm)

/-- One pass of the grouping loop on a key that is in the map: `append`
keeps the invariant, and the entry reads as the old elements followed by the
new ones. -/
theorem appendSlice_step (grow : Nat → Nat → Nat) (m0 m : Memory) (acc : SliceMap)
    (k : String) (s : Slice) (xs : List EventListItem)
    (hinv : GroupInv m0 m acc) (hs : sliceGet acc k = some s) :
    GroupInv m0 (appendSlice grow m s xs).1 (sliceSet acc k (appendSlice grow m s xs).2) ∧
      viewMap (appendSlice grow m s xs).1 (sliceSet acc k (appendSlice grow m s xs).2) =
        mapSet (viewMap m acc) k (readSlice m s ++ xs) := by
  have hmem : (k, s) ∈ acc := sliceGet_mem acc k s hs
  have hin : SliceIn m s := hinv.inMem _ hmem
  obtain ⟨hin1, hin2, hin3⟩ := hin
  have hlen : (readSlice m s).length = s.len := readSlice_length m s ⟨hin1, hin2, hin3⟩
  by_cases hc : s.len + xs.length ≤ s.cap
  · rw [appendSlice_inPlace grow m s xs hc]
    simp only
    by_cases hrec : s.arr < m0.length
    · have htight : s.len = s.cap := hinv.kind _ hmem hrec
      have hxs : xs = [] := List.eq_nil_of_length_eq_zero (by omega)
      subst hxs
      rw [writeAt_nil, set_arrayAt]
      have hs1 : ({ s with len := s.len + ([] : List EventListItem).length } : Slice) = s := by
        cases s; rfl
      rw [hs1]
      have := hinv.set m k s (le_refl _) (fun _ _ => rfl) (fun _ _ _ => rfl)
        ⟨hin1, hin2, hin3⟩ (fun _ => htight) (hinv.apart k s hmem)
      rw [List.append_nil]
      exact this
    · have hpriv : m0.length ≤ s.arr := Nat.le_of_not_lt hrec
      have hwlen : (writeAt (arrayAt m s.arr) (s.off + s.len) xs).length =
          (arrayAt m s.arr).length := writeAt_length _ _ _ (by omega)
      have hread : readSlice (m.set s.arr (writeAt (arrayAt m s.arr) (s.off + s.len) xs))
          { s with len := s.len + xs.length } = readSlice m s ++ xs := by
        unfold readSlice
        simp only
        rw [arrayAt_set_same m s.arr _ hin1]
        exact writeAt_read _ _ _ _ (by omega)
      have := hinv.set (m.set s.arr (writeAt (arrayAt m s.arr) (s.off + s.len) xs)) k
        { s with len := s.len + xs.length }
        (by rw [List.length_set])
        (fun a ha => arrayAt_set_other m s.arr a _ (by omega))
        (fun q hq hqk => arrayAt_set_other m s.arr q.2.arr _
          (fun h => hinv.apart k s hmem q hq hqk (Or.inl hpriv) h.symm))
        ⟨by simp only [List.length_set]; exact hin1,
          by simp only; rw [arrayAt_set_same m s.arr _ hin1, hwlen]; exact hin2,
          by simp only; exact hc⟩
        (fun h => absurd h (by simp only; omega))
        (hinv.apart k s hmem)
      rw [hread] at this
      exact this
  · rw [appendSlice_alloc grow m s xs hc]
    simp only
    have hread : readSlice (m ++ [readSlice m s ++ xs ++
          List.replicate (max (s.len + xs.length) (grow s.cap (s.len + xs.length)) -
            (s.len + xs.length)) zeroItem])
        { arr := m.length, off := 0, len := s.len + xs.length,
          cap := max (s.len + xs.length) (grow s.cap (s.len + xs.length)) } =
        readSlice m s ++ xs := by
      have hlen1 : (List.take s.len (List.drop s.off (arrayAt m s.arr))).length = s.len := hlen
      unfold readSlice
      simp only
      rw [arrayAt_append_new, List.drop_zero,
        List.take_append_of_le_length (by rw [List.length_append, hlen1]),
        List.take_of_length_le (by rw [List.length_append, hlen1])]
    have := hinv.set (m ++ [readSlice m s ++ xs ++
          List.replicate (max (s.len + xs.length) (grow s.cap (s.len + xs.length)) -
            (s.len + xs.length)) zeroItem]) k
        { arr := m.length, off := 0, len := s.len + xs.length,
          cap := max (s.len + xs.length) (grow s.cap (s.len + xs.length)) }
        (by rw [List.length_append]; omega)
        (fun a ha => arrayAt_append_old m _ a (lt_of_lt_of_le ha hinv.grows))
        (fun q hq _ => arrayAt_append_old m _ q.2.arr (hinv.inMem q hq).1)
        ⟨by simp only [List.length_append, List.length_singleton]; omega,
          by
            simp only
            rw [arrayAt_append_new, List.length_append, List.length_append,
              List.length_replicate, hlen]
            omega,
          by simp only; omega⟩
        (fun h => absurd h (by have := hinv.grows; simp only; omega))
        (fun q hq _ _ => by
          have := (hinv.inMem q hq).1
          simp only
          omega)
    rw [hread] at this
    exact this

/-- The grouping loop in memory, on records whose event lists have no spare
capacity: the invariant is kept, and the map reads as the map `groupLoop`
builds from the elements of the records. -/
theorem groupLoopMem_sim (grow : Nat → Nat → Nat) (m0 : Memory) :
    ∀ (buffer : List MemData) (m : Memory) (acc : SliceMap),
      (∀ d ∈ buffer, SliceIn m0 d.EventList ∧ d.EventList.len = d.EventList.cap) →
      GroupInv m0 m acc →
      GroupInv m0 (groupLoopMem grow buffer m acc).1 (groupLoopMem grow buffer m acc).2 ∧
        viewMap (groupLoopMem grow buffer m acc).1 (groupLoopMem grow buffer m acc).2 =
          groupLoop (buffer.map (viewData m0)) (viewMap m acc) := by
  intro buffer
  induction buffer with
  | nil => intro m acc _ hinv; exact ⟨hinv, rfl⟩
  | cons i buffer ih =>
    intro m acc hbuf hinv
    obtain ⟨hi, htight⟩ := hbuf i (List.mem_cons_self _ _)
    have hrest : ∀ d ∈ buffer, SliceIn m0 d.EventList ∧ d.EventList.len = d.EventList.cap :=
      fun d hd => hbuf d (List.mem_cons_of_mem _ hd)
    have harr : arrayAt m i.EventList.arr = arrayAt m0 i.EventList.arr := hinv.old _ hi.1
    have hread : readSlice m i.EventList = readSlice m0 i.EventList :=
      readSlice_congr m0 m i.EventList harr
    rw [List.map_cons]
    unfold groupLoopMem groupLoop
    have hget := mapGet_viewMap m acc i.ClientId
    cases hs : sliceGet acc i.ClientId with
    | none =>
      rw [hs] at hget
      simp only [Option.map_none'] at hget
      have hview : (viewData m0 i).ClientId = i.ClientId := rfl
      rw [hview, hget]
      simp only
      have hstep := hinv.set m i.ClientId i.EventList (le_refl _) (fun _ _ => rfl)
        (fun _ _ _ => rfl)
        (SliceIn_congr m0 m i.EventList hinv.grows harr hi)
        (fun _ => htight)
        (fun q hq _ hor harr2 => by
          rcases hor with h | h
          · have := hi.1; omega
          · have := hi.1; omega)
      obtain ⟨h1, h2⟩ := ih m (sliceSet acc i.ClientId i.EventList) hrest hstep.1
      refine ⟨h1, ?_⟩
      rw [h2, hstep.2, hread]
      rfl
    | some s =>
      rw [hs] at hget
      simp only [Option.map_some'] at hget
      have hview : (viewData m0 i).ClientId = i.ClientId := rfl
      rw [hview, hget]
      simp only
      have hstep := appendSlice_step grow m0 m acc i.ClientId s (readSlice m i.EventList)
        hinv hs
      obtain ⟨h1, h2⟩ := ih (appendSlice grow m s (readSlice m i.EventList)).1
        (sliceSet acc i.ClientId (appendSlice grow m s (readSlice m i.EventList)).2)
        hrest hstep.1
      refine ⟨h1, ?_⟩
      rw [h2, hstep.2, hread]
      rfl

/-- The grouping loop of `uploadEvents` on records whose event lists have no
spare capacity (`len = cap`, as for every record built by the SDK from the
literal `[]EventListItem{item}`): `append` at line 218 copies, so the loop
leaves every array that was in memory as it found it, and the map it builds is
the map `groupByClient` builds from the elements of the records. -/
theorem groupByClientMem_tight (grow : Nat → Nat → Nat) (m : Memory) (buffer : List MemData)
    (h : ∀ d ∈ buffer, SliceIn m d.EventList ∧ d.EventList.len = d.EventList.cap) :
    (groupByClientMem grow m buffer).2 = groupByClient (buffer.map (viewData m)) ∧
      ∀ a, a < m.length →
        arrayAt (groupByClientMem grow m buffer).1 a = arrayAt m a := by
  have hinv : GroupInv m m [] :=
    ⟨le_refl _, fun _ _ => rfl, List.nodup_nil, fun p hp => absurd hp (List.not_mem_nil p),
      fun p hp => absurd hp (List.not_mem_nil p),
      fun p hp => absurd hp (List.not_mem_nil p)⟩
  obtain ⟨h1, h2⟩ := groupLoopMem_sim grow m buffer m [] h hinv
  unfold groupByClientMem groupByClient
  exact ⟨h2, h1.old⟩

/-- The agreement at a concrete batch: the two records of `sampleNewerBatch`
have no spare capacity. -/
theorem groupByClientMem_tight_sample :
    (groupByClientMem sampleGrow sampleMemory sampleNewerBatch).2 =
        groupByClient (sampleNewerBatch.map (viewData sampleMemory)) ∧
      ∀ a, a < sampleMemory.length →
        arrayAt (groupByClientMem sampleGrow sampleMemory sampleNewerBatch).1 a =
          arrayAt sampleMemory a :=
  groupByClientMem_tight sampleGrow sampleMemory sampleNewerBatch (by
    intro d hd
    simp only [sampleNewerBatch, List.mem_cons, List.mem_singleton, List.not_mem_nil,
      or_false] at hd
    rcases hd with rfl | rfl <;> exact ⟨⟨by decide, by decide, by decide⟩, rfl⟩)

/-! ## The retry loop -/

theorem send_sent (env : Env) (c : GEBatchConsumer) (d : Data) (size : Int)
    (sent : List Request) :
    (send env c d size sent).2 = sent ++ [buildRequest c d size] := by
  unfold send
  simp only
  split
  · rfl
  · split_ifs
    · split <;> rfl
    · rfl

theorem sendLoop_done (env : Env) (d : Data) (fuel : Nat) (i : Int) (c : GEBatchConsumer)
    (sent : List Request) (hi : ¬i < 3) :
    sendLoop env d fuel i c sent = (c, sent, none) := by
  cases fuel with
  | zero => rfl
  | succ n => unfold sendLoop; rw [if_neg hi]

/-- One pass of the retry loop after a transport error: the error is returned. -/
theorem sendLoop_transport (env : Env) (d : Data) (fuel : Nat) (i : Int) (c : GEBatchConsumer)
    (sent : List Request) (e : String) (hi : i < 3)
    (h : env.Do sent (buildRequest c d 1) = HttpResult.transportError e) :
    sendLoop env d (fuel + 1) i c sent =
      (c, sent ++ [buildRequest c d 1], some (Ret.error e)) := by
  unfold sendLoop
  simp [send, h, hi]

/-- One pass of the retry loop after HTTP 200 with code 0: the oldest batch is
removed and `nil` is returned. -/
theorem sendLoop_accept (env : Env) (d : Data) (fuel : Nat) (i : Int) (c : GEBatchConsumer)
    (sent : List Request) (hi : i < 3)
    (h : env.Do sent (buildRequest c d 1) = HttpResult.response 200 (Except.ok 0)) :
    sendLoop env d (fuel + 1) i c sent =
      (dropHead c, sent ++ [buildRequest c d 1], some Ret.nil) := by
  unfold sendLoop
  simp [send, h, hi]

/-- One pass of the retry loop after HTTP 200 with a body that is not code 0:
the error "unknown error" is returned. -/
theorem sendLoop_reject (env : Env) (d : Data) (fuel : Nat) (i : Int) (c : GEBatchConsumer)
    (sent : List Request) (body : Except String Int) (hi : i < 3)
    (h : env.Do sent (buildRequest c d 1) = HttpResult.response 200 body)
    (hb : body ≠ Except.ok 0) :
    sendLoop env d (fuel + 1) i c sent =
      (c, sent ++ [buildRequest c d 1], some (Ret.error "unknown error")) := by
  unfold sendLoop
  cases body with
  | error e => simp [send, h, hi]
  | ok code =>
    have hc : code ≠ 0 := fun h0 => hb (by rw [h0])
    simp [send, h, hi, hc]

/-- One pass of the retry loop after a status other than 200, before the
last pass: the loop goes on. -/
theorem sendLoop_retry (env : Env) (d : Data) (fuel : Nat) (i : Int) (c : GEBatchConsumer)
    (sent : List Request) (s : Int) (body : Except String Int) (hi : i < 2)
    (h : env.Do sent (buildRequest c d 1) = HttpResult.response s body) (hs : s ≠ 200) :
    sendLoop env d (fuel + 1) i c sent =
      sendLoop env d fuel (i + 1) c (sent ++ [buildRequest c d 1]) := by
  have h3 : i < 3 := by omega
  have h2 : i ≠ 2 := by omega
  conv_lhs => unfold sendLoop
  simp [send, h, h3, h2, hs]

/-- The third pass of the retry loop after a status other than 200: the error
with that status code is returned. -/
theorem sendLoop_last (env : Env) (d : Data) (fuel : Nat) (c : GEBatchConsumer)
    (sent : List Request) (s : Int) (body : Except String Int)
    (h : env.Do sent (buildRequest c d 1) = HttpResult.response s body) (hs : s ≠ 200) :
    sendLoop env d (fuel + 1) 2 c sent =
      (c, sent ++ [buildRequest c d 1],
        some (Ret.error ("network error, but err is nil. Sgetus code is: " ++ toString s))) := by
  unfold sendLoop
  simp [send, h, hs]

/-- Three answers with a status other than 200 in a row: the retry loop posts
the request three times and returns the error of the third answer. -/
theorem sendLoop_three (env : Env) (d : Data) (c : GEBatchConsumer) (sent : List Request)
    (s1 s2 s3 : Int) (b1 b2 b3 : Except String Int)
    (h1 : env.Do sent (buildRequest c d 1) = HttpResult.response s1 b1) (hs1 : s1 ≠ 200)
    (h2 : env.Do (sent ++ [buildRequest c d 1]) (buildRequest c d 1) =
      HttpResult.response s2 b2) (hs2 : s2 ≠ 200)
    (h3 : env.Do (sent ++ [buildRequest c d 1, buildRequest c d 1]) (buildRequest c d 1) =
      HttpResult.response s3 b3) (hs3 : s3 ≠ 200) :
    sendLoop env d 1 0 c sent = (c, sent ++ [buildRequest c d 1], none) ∧
    sendLoop env d 2 0 c sent =
      (c, sent ++ [buildRequest c d 1, buildRequest c d 1], none) ∧
    sendLoop env d 3 0 c sent =
      (c, sent ++ [buildRequest c d 1, buildRequest c d 1, buildRequest c d 1],
        some (Ret.error ("network error, but err is nil. Sgetus code is: " ++ toString s3))) := by
  have e2 : sent ++ [buildRequest c d 1] ++ [buildRequest c d 1] =
      sent ++ [buildRequest c d 1, buildRequest c d 1] := by simp
  have e3 : sent ++ [buildRequest c d 1, buildRequest c d 1] ++ [buildRequest c d 1] =
      sent ++ [buildRequest c d 1, buildRequest c d 1, buildRequest c d 1] := by simp
  refine ⟨?_, ?_, ?_⟩
  · rw [sendLoop_retry env d 0 0 c sent s1 b1 (by omega) h1 hs1]
    rfl
  · rw [sendLoop_retry env d 1 0 c sent s1 b1 (by omega) h1 hs1,
      sendLoop_retry env d 0 (0 + 1) c _ s2 b2 (by omega) h2 hs2, e2]
    rfl
  · rw [sendLoop_retry env d 2 0 c sent s1 b1 (by omega) h1 hs1,
      sendLoop_retry env d 1 (0 + 1) c _ s2 b2 (by omega) h2 hs2, e2]
    have := sendLoop_last env d 0 c _ s3 b3 h3 hs3
    rw [e3] at this
    exact this

/-- Three passes are all the retry loop can make: more fuel changes nothing. -/
theorem sendLoop_fuel (env : Env) (d : Data) :
    ∀ (fuel : Nat) (i : Int) (c : GEBatchConsumer) (sent : List Request),
      3 - i ≤ (fuel : Int) →
      sendLoop env d (fuel + 1) i c sent = sendLoop env d fuel i c sent := by
  intro fuel
  induction fuel with
  | zero =>
    intro i c sent h
    rw [sendLoop_done env d 1 i c sent (by simp only [Nat.cast_zero] at h; omega)]
    rfl
  | succ n ih =>
    intro i c sent h
    by_cases hi : i < 3
    · cases hdo : env.Do sent (buildRequest c d 1) with
      | transportError e =>
        rw [sendLoop_transport env d (n + 1) i c sent e hi hdo,
          sendLoop_transport env d n i c sent e hi hdo]
      | response s body =>
        by_cases hs : s = 200
        · subst hs
          by_cases hb : body = Except.ok 0
          · subst hb
            rw [sendLoop_accept env d (n + 1) i c sent hi hdo,
              sendLoop_accept env d n i c sent hi hdo]
          · rw [sendLoop_reject env d (n + 1) i c sent body hi hdo hb,
              sendLoop_reject env d n i c sent body hi hdo hb]
        · by_cases h2 : i = 2
          · subst h2
            rw [sendLoop_last env d (n + 1) c sent s body hdo hs,
              sendLoop_last env d n c sent s body hdo hs]
          · rw [sendLoop_retry env d (n + 1) i c sent s body (by omega) hdo hs,
              sendLoop_retry env d n i c sent s body (by omega) hdo hs]
            exact ih (i + 1) c _ (by push_cast at h; omega)
    · rw [sendLoop_done env d (n + 1 + 1) i c sent hi, sendLoop_done env d (n + 1) i c sent hi]

/-- With enough passes left the retry loop always ends in a `return`. -/
theorem sendLoop_returns (env : Env) (d : Data) :
    ∀ (fuel : Nat) (i : Int) (c : GEBatchConsumer) (sent : List Request),
      i < 3 → 3 - i ≤ (fuel : Int) → (sendLoop env d fuel i c sent).2.2 ≠ none := by
  intro fuel
  induction fuel with
  | zero => intro i c sent h1 h2; simp only [Nat.cast_zero] at h2; omega
  | succ n ih =>
    intro i c sent h1 h2
    rcases h : send env c d 1 sent with ⟨⟨s, code, err⟩, sent1⟩
    unfold sendLoop
    simp only [h, if_pos h1]
    cases err <;> simp only [] <;> split_ifs <;>
      first
        | (apply ih (i + 1) c sent1 (by omega); push_cast at h2; omega)
        | simp

/-- The retry loop only posts the request of its payload, some number of
times. -/
theorem sendLoop_sent (env : Env) (d : Data) :
    ∀ (fuel : Nat) (i : Int) (c : GEBatchConsumer) (sent : List Request),
      ∃ n, n ≤ fuel ∧ (sendLoop env d fuel i c sent).2.1 =
        sent ++ List.replicate n (buildRequest c d 1) := by
  intro fuel
  induction fuel with
  | zero => intro i c sent; exact ⟨0, le_refl _, by simp [sendLoop]⟩
  | succ n ih =>
    intro i c sent
    have hsent := send_sent env c d 1 sent
    rcases h : send env c d 1 sent with ⟨⟨s, code, err⟩, sent1⟩
    rw [h] at hsent
    simp only at hsent
    subst hsent
    obtain ⟨m, hm, hrec⟩ := ih (i + 1) c (sent ++ [buildRequest c d 1])
    have hrec' : (sendLoop env d n (i + 1) c (sent ++ [buildRequest c d 1])).2.1 =
        sent ++ List.replicate (m + 1) (buildRequest c d 1) := by
      rw [hrec, List.replicate_succ, List.append_assoc]; rfl
    unfold sendLoop
    simp only [h]
    cases err <;> simp only [] <;> split_ifs <;>
      first
        | exact ⟨m + 1, by omega, hrec'⟩
        | exact ⟨1, by omega, rfl⟩
        | exact ⟨0, by omega, by simp⟩

/-- A pass of the retry loop posts the request at least once. -/
theorem sendLoop_sent_pos (env : Env) (d : Data) (fuel : Nat) (i : Int) (c : GEBatchConsumer)
    (sent : List Request) (hi : i < 3) :
    ∃ n, 1 ≤ n ∧ n ≤ fuel + 1 ∧ (sendLoop env d (fuel + 1) i c sent).2.1 =
      sent ++ List.replicate n (buildRequest c d 1) := by
  have one : ∀ r, (sendLoop env d (fuel + 1) i c sent) =
      (c, sent ++ [buildRequest c d 1], r) ∨ (sendLoop env d (fuel + 1) i c sent) =
      (dropHead c, sent ++ [buildRequest c d 1], r) →
      ∃ n, 1 ≤ n ∧ n ≤ fuel + 1 ∧ (sendLoop env d (fuel + 1) i c sent).2.1 =
        sent ++ List.replicate n (buildRequest c d 1) := by
    intro r h
    rcases h with h | h <;> exact ⟨1, le_refl _, by omega, by rw [h]; rfl⟩
  cases hdo : env.Do sent (buildRequest c d 1) with
  | transportError e => exact one _ (Or.inl (sendLoop_transport env d fuel i c sent e hi hdo))
  | response s body =>
    by_cases hs : s = 200
    · subst hs
      by_cases hb : body = Except.ok 0
      · subst hb
        exact one _ (Or.inr (sendLoop_accept env d fuel i c sent hi hdo))
      · exact one _ (Or.inl (sendLoop_reject env d fuel i c sent body hi hdo hb))
    · by_cases h2 : i = 2
      · subst h2
        exact one _ (Or.inl (sendLoop_last env d fuel c sent s body hdo hs))
      · rw [sendLoop_retry env d fuel i c sent s body (by omega) hdo hs]
        obtain ⟨m, hm, hrec⟩ := sendLoop_sent env d fuel (i + 1) c (sent ++ [buildRequest c d 1])
        refine ⟨m + 1, by omega, by omega, ?_⟩
        rw [hrec, List.replicate_succ, List.append_assoc]; rfl

/-- The list of requests only grows: what was sent stays, in place. -/
theorem sendLoop_prefix (env : Env) (d : Data) (fuel : Nat) (i : Int) (c : GEBatchConsumer)
    (sent : List Request) : ∃ new, (sendLoop env d fuel i c sent).2.1 = sent ++ new := by
  obtain ⟨n, -, hn⟩ := sendLoop_sent env d fuel i c sent
  exact ⟨_, hn⟩

theorem sendLoop_length (env : Env) (d : Data) (fuel : Nat) (i : Int) (c : GEBatchConsumer)
    (sent : List Request) :
    sent.length ≤ (sendLoop env d fuel i c sent).2.1.length := by
  obtain ⟨n, -, hn⟩ := sendLoop_sent env d fuel i c sent
  rw [hn]; simp

theorem sendLoop_state (env : Env) (d : Data) :
    ∀ (fuel : Nat) (i : Int) (c : GEBatchConsumer) (sent : List Request),
      ((sendLoop env d fuel i c sent).1 = c ∧
          (sendLoop env d fuel i c sent).2.2 ≠ some Ret.nil ∧
          ∀ m, (sendLoop env d fuel i c sent).2.2 ≠ some (Ret.panic m)) ∨
        ((sendLoop env d fuel i c sent).1 = dropHead c ∧
          (sendLoop env d fuel i c sent).2.2 = some Ret.nil) := by
  intro fuel
  induction fuel with
  | zero => intro i c sent; simp [sendLoop]
  | succ n ih =>
    intro i c sent
    rcases h : send env c d 1 sent with ⟨⟨s, code, err⟩, sent1⟩
    unfold sendLoop
    simp only [h]
    cases err <;> simp only [] <;> split_ifs <;>
      first
        | exact ih (i + 1) c sent1
        | (right; simp; done)
        | (left; simp)

/-- The retry loop removes the oldest batch only after a request that the
endpoint accepted, which is then the last request sent. -/
theorem sendLoop_removes (env : Env) (d : Data) :
    ∀ (fuel : Nat) (i : Int) (c : GEBatchConsumer) (sent : List Request),
      (sendLoop env d fuel i c sent).1 = c ∨
        ∃ pre, (sendLoop env d fuel i c sent).2.1 = pre ++ [buildRequest c d 1] ∧
          sent.length ≤ pre.length ∧ Accepted env pre (buildRequest c d 1) := by
  intro fuel
  induction fuel with
  | zero => intro i c sent; left; rfl
  | succ n ih =>
    intro i c sent
    by_cases hi : i < 3
    · cases hdo : env.Do sent (buildRequest c d 1) with
      | transportError e => left; rw [sendLoop_transport env d n i c sent e hi hdo]
      | response s body =>
        by_cases hs : s = 200
        · subst hs
          by_cases hb : body = Except.ok 0
          · subst hb
            right
            rw [sendLoop_accept env d n i c sent hi hdo]
            exact ⟨sent, rfl, le_refl _, hdo⟩
          · left; rw [sendLoop_reject env d n i c sent body hi hdo hb]
        · by_cases h2 : i = 2
          · subst h2
            left; rw [sendLoop_last env d n c sent s body hdo hs]
          · rw [sendLoop_retry env d n i c sent s body (by omega) hdo hs]
            rcases ih (i + 1) c (sent ++ [buildRequest c d 1]) with h | ⟨pre, h1, h2, h3⟩
            · left; exact h
            · right
              refine ⟨pre, h1, ?_, h3⟩
              simp only [List.length_append, List.length_singleton] at h2
              omega
    · left; rw [sendLoop_done env d (n + 1) i c sent hi]

/-! ## The delivery of one batch -/

theorem uploadGroups_state (env : Env) :
    ∀ (groups : ClientIdMap) (c : GEBatchConsumer) (sent : List Request),
      ((uploadGroups env groups c sent).1 = c ∧
          ∀ m, (uploadGroups env groups c sent).2.2 ≠ Ret.panic m) ∨
        ((uploadGroups env groups c sent).1 = dropHead c ∧
          (uploadGroups env groups c sent).2.2 = Ret.nil) := by
  intro groups
  induction groups with
  | nil => intro c sent; simp [uploadGroups]
  | cons g rest ih =>
    intro c sent
    obtain ⟨clientId, buffer⟩ := g
    unfold uploadGroups
    simp only
    split_ifs with hm
    · rcases h : sendLoop env ⟨clientId, buffer⟩ 3 0 c sent with ⟨c1, sent1, r⟩
      have hs := sendLoop_state env ⟨clientId, buffer⟩ 3 0 c sent
      rw [h] at hs
      simp only at hs
      cases r with
      | none =>
        simp only
        rcases hs with ⟨h1, -, -⟩ | ⟨-, h2⟩
        · subst h1; exact ih c1 sent1
        · exact absurd h2 (by simp)
      | some r =>
        simp only
        rcases hs with ⟨h1, h2, h3⟩ | ⟨h1, h2⟩
        · left; refine ⟨h1, ?_⟩
          intro m hm; apply h3 m; rw [hm]
        · right; refine ⟨h1, ?_⟩
          simpa using h2
    · exact ih c sent

/-- What `uploadEvents` does to the engine: nothing, or (only when it gives
back `nil`, on a non-empty cache) the removal of the oldest batch. -/
theorem uploadEvents_state (env : Env) (c : GEBatchConsumer) (sent : List Request) :
    (uploadEvents env c sent).1 = c ∨
      ((uploadEvents env c sent).1 = dropHead c ∧
        (uploadEvents env c sent).2.2 = Ret.nil ∧ c.cacheBuffer ≠ []) := by
  unfold uploadEvents
  cases hc : c.cacheBuffer with
  | nil => left; rfl
  | cons b rest =>
    simp only
    rcases uploadGroups_state env
        (rangeOrder (env.rangeSeed sent) (groupByClient b).length 0 (groupByClient b)) c sent with
      ⟨h1, -⟩ | ⟨h1, h2⟩
    · left; exact h1
    · right; exact ⟨h1, h2, by simp⟩

theorem uploadEvents_capacity (env : Env) (c : GEBatchConsumer) (sent : List Request) :
    (uploadEvents env c sent).1.cacheCapacity = c.cacheCapacity := by
  rcases uploadEvents_state env c sent with h | ⟨h, -, -⟩ <;> (rw [h]; try rfl)

theorem uploadEvents_length_le (env : Env) (c : GEBatchConsumer) (sent : List Request) :
    (uploadEvents env c sent).1.cacheBuffer.length ≤ c.cacheBuffer.length := by
  rcases uploadEvents_state env c sent with h | ⟨h, -, -⟩ <;> (rw [h]; try simp [dropHead])

theorem uploadEvents_buffer (env : Env) (c : GEBatchConsumer) (sent : List Request) :
    (uploadEvents env c sent).1.buffer = c.buffer := by
  rcases uploadEvents_state env c sent with h | ⟨h, -, -⟩ <;> (rw [h]; try rfl)

/-- Every request the second loop of `uploadEvents` posts carries one of the
map entries as its payload. -/
theorem uploadGroups_sent (env : Env) :
    ∀ (groups : ClientIdMap) (c : GEBatchConsumer) (sent : List Request),
      ∃ new, (uploadGroups env groups c sent).2.1 = sent ++ new ∧
        ∀ r ∈ new, ∃ g ∈ groups, r = buildRequest c ⟨g.1, g.2⟩ 1 := by
  intro groups
  induction groups with
  | nil => intro c sent; exact ⟨[], by simp [uploadGroups], by simp⟩
  | cons g rest ih =>
    intro c sent
    obtain ⟨clientId, buffer⟩ := g
    unfold uploadGroups
    simp only
    split_ifs with hm
    · obtain ⟨n, -, hn⟩ := sendLoop_sent env ⟨clientId, buffer⟩ 3 0 c sent
      have hs := sendLoop_state env ⟨clientId, buffer⟩ 3 0 c sent
      rcases h : sendLoop env ⟨clientId, buffer⟩ 3 0 c sent with ⟨c1, sent1, r⟩
      rw [h] at hn hs
      simp only at hn hs
      have hrep : ∀ r ∈ List.replicate n (buildRequest c ⟨clientId, buffer⟩ 1),
          ∃ g ∈ (clientId, buffer) :: rest, r = buildRequest c ⟨g.1, g.2⟩ 1 := by
        intro r hr
        exact ⟨(clientId, buffer), List.mem_cons_self _ _, (List.mem_replicate.mp hr).2⟩
      cases r with
      | some r => exact ⟨_, hn, hrep⟩
      | none =>
        simp only
        rcases hs with ⟨h1, -, -⟩ | ⟨-, h2⟩
        · subst h1
          obtain ⟨new, hnew, hall⟩ := ih c1 sent1
          refine ⟨List.replicate n (buildRequest c1 ⟨clientId, buffer⟩ 1) ++ new, ?_, ?_⟩
          · rw [hnew, hn, List.append_assoc]
          · intro r hr
            rcases List.mem_append.mp hr with hr | hr
            · exact hrep r hr
            · obtain ⟨g, hg, hgr⟩ := hall r hr
              exact ⟨g, List.mem_cons_of_mem _ hg, hgr⟩
        · exact absurd h2 (by simp)
    · obtain ⟨new, hnew, hall⟩ := ih c sent
      refine ⟨new, hnew, ?_⟩
      intro r hr
      obtain ⟨g, hg, hgr⟩ := hall r hr
      exact ⟨g, List.mem_cons_of_mem _ hg, hgr⟩

/-- Every request `uploadEvents` posts is built from the oldest batch alone:
its payload is a client id of that batch with the concatenation of the event
lists of that client's records, in batch order. -/
theorem uploadEvents_sent (env : Env) (c : GEBatchConsumer) (sent : List Request)
    (b : List Data) (rest : List (List Data)) (hc : c.cacheBuffer = b :: rest) :
    ∃ new, (uploadEvents env c sent).2.1 = sent ++ new ∧
      ∀ r ∈ new, ∃ i ∈ b, r = buildRequest c ⟨i.ClientId, eventsOf i.ClientId b⟩ 1 := by
  unfold uploadEvents
  rw [hc]
  simp only
  obtain ⟨new, hnew, hall⟩ := uploadGroups_sent env
    (rangeOrder (env.rangeSeed sent) (groupByClient b).length 0 (groupByClient b)) c sent
  refine ⟨new, hnew, ?_⟩
  intro r hr
  obtain ⟨g, hg, hgr⟩ := hall r hr
  have hmem := rangeOrder_subset _ _ _ _ g hg
  obtain ⟨⟨i, hi, hid⟩, hev⟩ := groupByClient_mem b g hmem
  refine ⟨i, hi, ?_⟩
  rw [hgr, hev, hid]

/-- When some map entry can be serialised, the second loop of `uploadEvents`
runs the retry loop for such an entry, once, and returns what it returns. -/
theorem uploadGroups_first (env : Env) :
    ∀ (groups : ClientIdMap) (c : GEBatchConsumer) (sent : List Request),
      (∃ g ∈ groups, jsonMarshalOk ⟨g.1, g.2⟩ = true) →
      ∃ g ∈ groups, jsonMarshalOk ⟨g.1, g.2⟩ = true ∧ ∃ r,
        (sendLoop env ⟨g.1, g.2⟩ 3 0 c sent).2.2 = some r ∧
        uploadGroups env groups c sent =
          ((sendLoop env ⟨g.1, g.2⟩ 3 0 c sent).1, (sendLoop env ⟨g.1, g.2⟩ 3 0 c sent).2.1, r) := by
  intro groups
  induction groups with
  | nil => intro c sent h; obtain ⟨g, hg, -⟩ := h; simp at hg
  | cons g rest ih =>
    intro c sent h
    obtain ⟨clientId, buffer⟩ := g
    by_cases hm : jsonMarshalOk ⟨clientId, buffer⟩ = true
    · refine ⟨(clientId, buffer), List.mem_cons_self _ _, hm, ?_⟩
      have hret := sendLoop_returns env ⟨clientId, buffer⟩ 3 0 c sent (by omega) (by norm_num)
      unfold uploadGroups
      simp only [if_pos hm]
      rcases hsl : sendLoop env ⟨clientId, buffer⟩ 3 0 c sent with ⟨c1, sent1, r⟩
      rw [hsl] at hret
      cases r with
      | none => exact absurd rfl hret
      | some r => exact ⟨r, rfl, rfl⟩
    · have h' : ∃ g ∈ rest, jsonMarshalOk ⟨g.1, g.2⟩ = true := by
        obtain ⟨g, hg, hgm⟩ := h
        rcases List.mem_cons.mp hg with rfl | hg
        · exact absurd hgm hm
        · exact ⟨g, hg, hgm⟩
      obtain ⟨g, hg, hgm, r, hr, heq⟩ := ih c sent h'
      refine ⟨g, List.mem_cons_of_mem _ hg, hgm, r, hr, ?_⟩
      unfold uploadGroups
      simp only [if_neg hm]
      exact heq

/-- When some payload of the oldest batch can be serialised, `uploadEvents`
runs the retry loop once, for such a payload, and returns what it returns. -/
theorem uploadEvents_first (env : Env) (c : GEBatchConsumer) (sent : List Request)
    (b : List Data) (rest : List (List Data)) (hc : c.cacheBuffer = b :: rest)
    (hm : ∃ i ∈ b, jsonMarshalOk ⟨i.ClientId, eventsOf i.ClientId b⟩ = true) :
    ∃ i ∈ b, jsonMarshalOk ⟨i.ClientId, eventsOf i.ClientId b⟩ = true ∧ ∃ r,
      (sendLoop env ⟨i.ClientId, eventsOf i.ClientId b⟩ 3 0 c sent).2.2 = some r ∧
      uploadEvents env c sent =
        ((sendLoop env ⟨i.ClientId, eventsOf i.ClientId b⟩ 3 0 c sent).1,
          (sendLoop env ⟨i.ClientId, eventsOf i.ClientId b⟩ 3 0 c sent).2.1, r) := by
  obtain ⟨i0, hi0, hm0⟩ := hm
  have hex : ∃ g ∈ rangeOrder (env.rangeSeed sent) (groupByClient b).length 0 (groupByClient b),
      jsonMarshalOk ⟨g.1, g.2⟩ = true := by
    refine ⟨(i0.ClientId, eventsOf i0.ClientId b), ?_, hm0⟩
    exact (rangeOrder_perm _ _ 0 _ rfl).symm.subset (groupByClient_get b i0 hi0)
  obtain ⟨g, hg, hgm, r, hr, heq⟩ := uploadGroups_first env _ c sent hex
  have hmem := rangeOrder_subset _ _ _ _ g hg
  obtain ⟨⟨i, hi, hid⟩, hev⟩ := groupByClient_mem b g hmem
  have hg2 : (⟨g.1, g.2⟩ : Data) = ⟨i.ClientId, eventsOf i.ClientId b⟩ := by
    rw [hev, hid]
  rw [hg2] at hgm hr heq
  refine ⟨i, hi, hgm, r, hr, ?_⟩
  unfold uploadEvents
  rw [hc]
  exact heq

theorem uploadGroups_removes (env : Env) :
    ∀ (groups : ClientIdMap) (c : GEBatchConsumer) (sent : List Request),
      (uploadGroups env groups c sent).1 = c ∨
        ∃ pre r, (uploadGroups env groups c sent).2.1 = pre ++ [r] ∧
          sent.length ≤ pre.length ∧ Accepted env pre r := by
  intro groups
  induction groups with
  | nil => intro c sent; left; rfl
  | cons g rest ih =>
    intro c sent
    obtain ⟨clientId, buffer⟩ := g
    unfold uploadGroups
    simp only
    split_ifs with hm
    · have hs := sendLoop_state env ⟨clientId, buffer⟩ 3 0 c sent
      have hr := sendLoop_removes env ⟨clientId, buffer⟩ 3 0 c sent
      have hl := sendLoop_length env ⟨clientId, buffer⟩ 3 0 c sent
      rcases h : sendLoop env ⟨clientId, buffer⟩ 3 0 c sent with ⟨c1, sent1, r⟩
      rw [h] at hs hr hl
      simp only at hs hr hl
      cases r with
      | some r =>
        simp only
        rcases hr with h1 | ⟨pre, h1, h2, h3⟩
        · left; exact h1
        · right; exact ⟨pre, _, h1, h2, h3⟩
      | none =>
        simp only
        rcases hs with ⟨h1, -, -⟩ | ⟨-, h2⟩
        · subst h1
          rcases ih c1 sent1 with h1 | ⟨pre, r, h1, h2, h3⟩
          · left; exact h1
          · right; exact ⟨pre, r, h1, by omega, h3⟩
        · exact absurd h2 (by simp)
    · exact ih c sent

/-- The delivery removes the oldest batch only after a request that the
endpoint accepted, which is then the last request sent. -/
theorem uploadEvents_removes (env : Env) (c : GEBatchConsumer) (sent : List Request) :
    (uploadEvents env c sent).1 = c ∨
      ∃ pre r, (uploadEvents env c sent).2.1 = pre ++ [r] ∧
        sent.length ≤ pre.length ∧ Accepted env pre r := by
  unfold uploadEvents
  split
  · left; rfl
  · exact uploadGroups_removes env _ c sent

theorem uploadEvents_length (env : Env) (c : GEBatchConsumer) (sent : List Request) :
    sent.length ≤ (uploadEvents env c sent).2.1.length := by
  cases hc : c.cacheBuffer with
  | nil => unfold uploadEvents; rw [hc]
  | cons b rest =>
    obtain ⟨new, hnew, -⟩ := uploadEvents_sent env c sent b rest hc
    rw [hnew]; simp

theorem uploadEvents_prefix (env : Env) (c : GEBatchConsumer) (sent : List Request) :
    ∃ new, (uploadEvents env c sent).2.1 = sent ++ new := by
  cases hc : c.cacheBuffer with
  | nil => exact ⟨[], by unfold uploadEvents; rw [hc]; simp⟩
  | cons b rest =>
    obtain ⟨new, hnew, -⟩ := uploadEvents_sent env c sent b rest hc
    exact ⟨new, hnew⟩

/-! ## One flush -/

theorem innerFlush_eq (env : Env) (c : GEBatchConsumer) (sent : List Request)
    (h : ¬(c.buffer.length = 0 ∧ c.cacheBuffer.length = 0)) :
    innerFlush env c sent =
      ((evictOldest (uploadEvents env (moveBuffer c) sent).1
          (uploadEvents env (moveBuffer c) sent).2.2).1,
        (uploadEvents env (moveBuffer c) sent).2.1,
        (evictOldest (uploadEvents env (moveBuffer c) sent).1
          (uploadEvents env (moveBuffer c) sent).2.2).2) := by
  unfold innerFlush
  rw [if_neg h]

theorem moveBuffer_capacity (c : GEBatchConsumer) :
    (moveBuffer c).cacheCapacity = c.cacheCapacity := by
  unfold moveBuffer; split_ifs <;> rfl

theorem moveBuffer_length_le (c : GEBatchConsumer) :
    (moveBuffer c).cacheBuffer.length ≤ c.cacheBuffer.length + 1 := by
  unfold moveBuffer; split_ifs <;> simp

theorem moveBuffer_cache (c : GEBatchConsumer)
    (h : ¬(c.buffer.length = 0 ∧ c.cacheBuffer.length = 0)) :
    (moveBuffer c).cacheBuffer = c.cacheBuffer ++ (movedBatch c).toList := by
  unfold moveBuffer movedBatch
  rw [if_neg h]
  split_ifs <;> simp

theorem moveBuffer_config (c : GEBatchConsumer) :
    (moveBuffer c).serverUrl = c.serverUrl ∧ (moveBuffer c).compress = c.compress ∧
      (moveBuffer c).batchSize = c.batchSize := by
  unfold moveBuffer; split_ifs <;> exact ⟨rfl, rfl, rfl⟩

theorem buildRequest_moveBuffer (c : GEBatchConsumer) (d : Data) (size : Int) :
    buildRequest (moveBuffer c) d size = buildRequest c d size := by
  obtain ⟨h1, h2, -⟩ := moveBuffer_config c
  simp only [buildRequest, h1, h2]

theorem evictOldest_capacity (c : GEBatchConsumer) (r : Ret) :
    (evictOldest c r).1.cacheCapacity = c.cacheCapacity := by
  unfold evictOldest
  split_ifs
  · cases c.cacheBuffer <;> rfl
  · rfl

theorem evictOldest_length_le (c : GEBatchConsumer) (r : Ret) (N : Int)
    (hN : c.cacheCapacity = N) (h0 : 0 ≤ N) (h : (c.cacheBuffer.length : Int) ≤ N + 1) :
    ((evictOldest c r).1.cacheBuffer.length : Int) ≤ N := by
  unfold evictOldest
  split_ifs with h1
  · split
    next hc => rw [hc] at h1; simp only [List.length_nil, Nat.cast_zero] at h1; rw [hc]; simp only [List.length_nil, Nat.cast_zero]; omega
    next b rest hc => rw [hc] at h; simp only [List.length_cons] at h ⊢; push_cast at h; omega
  · simp only; omega

theorem evictOldest_cache (c : GEBatchConsumer) (r : Ret) :
    (evictOldest c r).1.cacheBuffer =
      if (c.cacheBuffer.length : Int) > c.cacheCapacity then c.cacheBuffer.tail
      else c.cacheBuffer := by
  unfold evictOldest
  split_ifs
  · split
    next h => rw [h]; rfl
    next b rest h => rw [h]; rfl
  · rfl

theorem evictOldest_buffer (c : GEBatchConsumer) (r : Ret) :
    (evictOldest c r).1.buffer = c.buffer := by
  unfold evictOldest
  split_ifs
  · split <;> rfl
  · rfl

theorem evictOldest_ret (c : GEBatchConsumer) (r : Ret) (h : c.cacheBuffer ≠ []) :
    (evictOldest c r).2 = r := by
  unfold evictOldest
  split_ifs
  · split
    next hnil => exact absurd hnil h
    next => rfl
  · rfl

theorem evictOldest_ret_cases (c : GEBatchConsumer) (r : Ret) :
    (evictOldest c r).2 = r ∨ ∃ msg, (evictOldest c r).2 = Ret.panic msg := by
  unfold evictOldest
  split_ifs
  · split
    · right; exact ⟨_, rfl⟩
    · left; rfl
  · left; rfl

/-- One flush keeps the capacity and keeps the cache within it. -/
theorem innerFlush_bound (env : Env) (c : GEBatchConsumer) (sent : List Request)
    (h : (c.cacheBuffer.length : Int) ≤ c.cacheCapacity) :
    (innerFlush env c sent).1.cacheCapacity = c.cacheCapacity ∧
      ((innerFlush env c sent).1.cacheBuffer.length : Int) ≤ c.cacheCapacity := by
  by_cases he : c.buffer.length = 0 ∧ c.cacheBuffer.length = 0
  · unfold innerFlush; rw [if_pos he]; exact ⟨rfl, h⟩
  · rw [innerFlush_eq env c sent he]
    have hcap : (uploadEvents env (moveBuffer c) sent).1.cacheCapacity = c.cacheCapacity := by
      rw [uploadEvents_capacity, moveBuffer_capacity]
    refine ⟨by simp only [evictOldest_capacity, hcap], ?_⟩
    apply evictOldest_length_le _ _ _ hcap (by omega)
    have h1 := uploadEvents_length_le env (moveBuffer c) sent
    have h2 := moveBuffer_length_le c
    omega

/-- The cache after a flush that gets past the emptiness test: the buffer
is moved (or not), the delivery removes the oldest batch (or not), and the
deferred eviction removes the oldest batch left when the capacity is exceeded. -/
theorem innerFlush_cache (env : Env) (c : GEBatchConsumer) (sent : List Request)
    (h : ¬(c.buffer.length = 0 ∧ c.cacheBuffer.length = 0)) :
    ((uploadEvents env (moveBuffer c) sent).1 = moveBuffer c ∧
      (innerFlush env c sent).1.cacheBuffer =
        if ((moveBuffer c).cacheBuffer.length : Int) > c.cacheCapacity then
          (moveBuffer c).cacheBuffer.tail
        else (moveBuffer c).cacheBuffer) ∨
    ((uploadEvents env (moveBuffer c) sent).1 = dropHead (moveBuffer c) ∧
      (uploadEvents env (moveBuffer c) sent).2.2 = Ret.nil ∧
      (moveBuffer c).cacheBuffer ≠ [] ∧
      (innerFlush env c sent).1.cacheBuffer =
        if ((moveBuffer c).cacheBuffer.tail.length : Int) > c.cacheCapacity then
          (moveBuffer c).cacheBuffer.tail.tail
        else (moveBuffer c).cacheBuffer.tail) := by
  rw [innerFlush_eq env c sent h]
  simp only [evictOldest_cache]
  rcases uploadEvents_state env (moveBuffer c) sent with hu | ⟨hu, hr, hne⟩
  · left
    refine ⟨hu, ?_⟩
    rw [hu, moveBuffer_capacity]
  · right
    refine ⟨hu, hr, hne, ?_⟩
    rw [hu]
    simp only [dropHead, moveBuffer_capacity]

/-- The requests of one flush are built from the batch at the head of the
cache once the buffer has been moved. -/
theorem innerFlush_sent (env : Env) (c : GEBatchConsumer) (sent : List Request)
    (b : List Data) (rest : List (List Data))
    (h : ¬(c.buffer.length = 0 ∧ c.cacheBuffer.length = 0))
    (hc : (moveBuffer c).cacheBuffer = b :: rest) :
    ∃ new, (innerFlush env c sent).2.1 = sent ++ new ∧
      ∀ r ∈ new, ∃ i ∈ b, r = buildRequest c ⟨i.ClientId, eventsOf i.ClientId b⟩ 1 := by
  rw [innerFlush_eq env c sent h]
  simp only
  obtain ⟨new, hnew, hall⟩ := uploadEvents_sent env (moveBuffer c) sent b rest hc
  refine ⟨new, hnew, ?_⟩
  intro r hr
  obtain ⟨i, hi, hri⟩ := hall r hr
  exact ⟨i, hi, by rw [hri, buildRequest_moveBuffer]⟩

theorem innerFlush_buffer (env : Env) (c : GEBatchConsumer) (sent : List Request)
    (h : ¬(c.buffer.length = 0 ∧ c.cacheBuffer.length = 0)) :
    (innerFlush env c sent).1.buffer = (moveBuffer c).buffer := by
  rw [innerFlush_eq env c sent h]
  simp only [evictOldest_buffer, uploadEvents_buffer]

/-- The cache after a flush is the cache with the moved buffer behind it,
less at most two batches at the front. -/
theorem innerFlush_drop (env : Env) (c : GEBatchConsumer) (sent : List Request)
    (h : ¬(c.buffer.length = 0 ∧ c.cacheBuffer.length = 0)) :
    ∃ j, j ≤ 2 ∧ (innerFlush env c sent).1.cacheBuffer = (moveBuffer c).cacheBuffer.drop j := by
  rcases innerFlush_cache env c sent h with ⟨-, hres⟩ | ⟨-, -, -, hres⟩
  · rw [hres]
    split_ifs
    · exact ⟨1, by omega, by simp⟩
    · exact ⟨0, by omega, by simp⟩
  · rw [hres]
    split_ifs
    · refine ⟨2, by omega, ?_⟩
      generalize (moveBuffer c).cacheBuffer = l
      cases l with
      | nil => rfl
      | cons a t => cases t <;> rfl
    · exact ⟨1, by omega, by simp⟩

/-- One flush on a cache within its capacity that holds `B1` then `B2`. -/
theorem innerFlush_two (env : Env) (c : GEBatchConsumer) (sent : List Request)
    (B1 B2 : List Data) (rest : List (List Data))
    (hc : c.cacheBuffer = B1 :: B2 :: rest)
    (hcap : (c.cacheBuffer.length : Int) ≤ c.cacheCapacity) :
    (∃ new, (innerFlush env c sent).2.1 = sent ++ new ∧
      ∀ r ∈ new, ∃ i ∈ B1, r = buildRequest c ⟨i.ClientId, eventsOf i.ClientId B1⟩ 1) ∧
    (((uploadEvents env (moveBuffer c) sent).1 = dropHead (moveBuffer c) ∨
        ((moveBuffer c).cacheBuffer.length : Int) > c.cacheCapacity) →
      (innerFlush env c sent).1.cacheBuffer = B2 :: (rest ++ (movedBatch c).toList)) ∧
    (¬((uploadEvents env (moveBuffer c) sent).1 = dropHead (moveBuffer c) ∨
        ((moveBuffer c).cacheBuffer.length : Int) > c.cacheCapacity) →
      (innerFlush env c sent).1.cacheBuffer = B1 :: B2 :: (rest ++ (movedBatch c).toList)) := by
  have h : ¬(c.buffer.length = 0 ∧ c.cacheBuffer.length = 0) := by
    rw [hc]; simp
  have hm : (moveBuffer c).cacheBuffer = B1 :: B2 :: (rest ++ (movedBatch c).toList) := by
    rw [moveBuffer_cache c h, hc]; rfl
  have hlen : ((moveBuffer c).cacheBuffer.length : Int) ≤ c.cacheCapacity + 1 := by
    have := moveBuffer_length_le c
    omega
  refine ⟨innerFlush_sent env c sent B1 _ h hm, ?_, ?_⟩
  · intro hd
    rcases innerFlush_cache env c sent h with ⟨hu, hres⟩ | ⟨hu, -, -, hres⟩
    · rw [hres]
      rcases hd with hd | hd
      · rw [hu] at hd
        have := congrArg (fun x => x.cacheBuffer.length) hd
        simp [dropHead, hm] at this
      · rw [if_pos hd, hm]; rfl
    · rw [hres]
      have hl : ¬(((moveBuffer c).cacheBuffer.tail.length : Int) > c.cacheCapacity) := by
        rw [hm] at hlen ⊢
        simp only [List.length_cons, List.tail_cons] at hlen ⊢
        push_cast at hlen ⊢
        omega
      rw [if_neg hl, hm]; rfl
  · intro hd
    push_neg at hd
    rcases innerFlush_cache env c sent h with ⟨-, hres⟩ | ⟨hu, -, -, -⟩
    · rw [hres, if_neg (by omega), hm]
    · exact absurd hu hd.1

/-- A flush whose delivery runs the retry loop for one pass that returns an
error without touching the cache. -/
theorem innerFlush_of_first_pass (env : Env) (c : GEBatchConsumer) (sent : List Request)
    (b : List Data) (rest : List (List Data))
    (hc : (moveBuffer c).cacheBuffer = b :: rest)
    (hm : ∃ i ∈ b, jsonMarshalOk ⟨i.ClientId, eventsOf i.ClientId b⟩ = true)
    (msg : String)
    (hpass : ∀ d : Data, sendLoop env d 3 0 (moveBuffer c) sent =
      (moveBuffer c, sent ++ [buildRequest (moveBuffer c) d 1], some (Ret.error msg))) :
    ∃ i ∈ b,
      (innerFlush env c sent).2.1 =
        sent ++ [buildRequest c ⟨i.ClientId, eventsOf i.ClientId b⟩ 1] ∧
      (innerFlush env c sent).2.2 = Ret.error msg := by
  have hne : ¬(c.buffer.length = 0 ∧ c.cacheBuffer.length = 0) := by
    intro h
    obtain ⟨i, hi, -⟩ := hm
    unfold moveBuffer at hc
    rw [if_pos (Or.inl h.2)] at hc
    simp only [List.length_eq_zero] at h
    rw [h.1, h.2] at hc
    simp only [List.nil_append, List.cons.injEq] at hc
    rw [← hc.1] at hi
    simp at hi
  obtain ⟨i, hi, -, r, hr, heq⟩ := uploadEvents_first env (moveBuffer c) sent b rest hc hm
  rw [hpass] at hr heq
  simp only [Option.some.injEq] at hr
  refine ⟨i, hi, ?_, ?_⟩
  · rw [innerFlush_eq env c sent hne, heq, buildRequest_moveBuffer]
  · rw [innerFlush_eq env c sent hne, heq]
    simp only
    rw [evictOldest_ret _ _ (by rw [hc]; simp), hr]

theorem innerFlush_length (env : Env) (c : GEBatchConsumer) (sent : List Request) :
    sent.length ≤ (innerFlush env c sent).2.1.length := by
  by_cases h : c.buffer.length = 0 ∧ c.cacheBuffer.length = 0
  · unfold innerFlush; rw [if_pos h]
  · rw [innerFlush_eq env c sent h]; exact uploadEvents_length env (moveBuffer c) sent

theorem innerFlush_prefix (env : Env) (c : GEBatchConsumer) (sent : List Request) :
    ∃ new, (innerFlush env c sent).2.1 = sent ++ new := by
  by_cases h : c.buffer.length = 0 ∧ c.cacheBuffer.length = 0
  · exact ⟨[], by unfold innerFlush; rw [if_pos h]; simp⟩
  · rw [innerFlush_eq env c sent h]; exact uploadEvents_prefix env (moveBuffer c) sent

/-! ## Sequences of calls on an engine -/

/-- The engine `initBatchConsumer` builds: empty buffer, empty cache, batch size
in `[1, 200]`, capacity at least one. -/
theorem initBatchConsumer_fresh (canMake : Int → Bool)
    (urlParse : String → Except String String) (config : GEBatchConfig) (c0 : GEBatchConsumer)
    (h : initBatchConsumer canMake urlParse config = Except.ok c0) :
    c0.buffer = [] ∧ c0.cacheBuffer = [] ∧ 1 ≤ c0.batchSize ∧ c0.batchSize ≤ 200 ∧
      1 ≤ c0.cacheCapacity := by
  unfold initBatchConsumer at h
  by_cases hs : config.ServerUrl = ""
  · rw [if_pos hs] at h; cases h
  · rw [if_neg hs] at h
    cases hu : urlParse config.ServerUrl with
    | error e => rw [hu] at h; cases h
    | ok u =>
      rw [hu] at h
      simp only [] at h
      by_cases hm : canMake (if config.CacheCapacity ≤ 0 then DefaultCacheCapacity
          else config.CacheCapacity) = true
      · rw [if_pos hm] at h
        simp only [Except.ok.injEq] at h
        subst h
        refine ⟨rfl, rfl, ?_⟩
        simp only [MaxBatchSize, DefaultBatchSize, DefaultCacheCapacity]
        refine ⟨?_, ?_, ?_⟩ <;> split_ifs <;> omega
      · rw [if_neg hm] at h; cases h

theorem Add_bound (env : Env) (c : GEBatchConsumer) (d : Data) (sent : List Request)
    (h : (c.cacheBuffer.length : Int) ≤ c.cacheCapacity) :
    (Add env c d sent).1.cacheCapacity = c.cacheCapacity ∧
      ((Add env c d sent).1.cacheBuffer.length : Int) ≤ c.cacheCapacity := by
  unfold Add
  simp only
  split_ifs
  · exact innerFlush_bound env { c with buffer := c.buffer ++ [d] } sent h
  · exact ⟨rfl, h⟩

theorem step_bound (env : Env) (op : Op) (c : GEBatchConsumer) (sent : List Request)
    (h : (c.cacheBuffer.length : Int) ≤ c.cacheCapacity) :
    (step env op c sent).1.cacheCapacity = c.cacheCapacity ∧
      ((step env op c sent).1.cacheBuffer.length : Int) ≤ c.cacheCapacity := by
  cases op with
  | add d => exact Add_bound env c d sent h
  | flush => exact innerFlush_bound env c sent h
  | tick => exact innerFlush_bound env c sent h

theorem runOps_bound (env : Env) :
    ∀ (ops : List Op) (c : GEBatchConsumer) (sent : List Request),
      (c.cacheBuffer.length : Int) ≤ c.cacheCapacity →
      (runOps env ops c sent).1.cacheCapacity = c.cacheCapacity ∧
        ((runOps env ops c sent).1.cacheBuffer.length : Int) ≤ c.cacheCapacity := by
  intro ops
  induction ops with
  | nil => intro c sent h; exact ⟨rfl, h⟩
  | cons op ops ih =>
    intro c sent h
    have hs := step_bound env op c sent h
    have hr := ih (step env op c sent).1 (step env op c sent).2.1 (by rw [hs.1]; exact hs.2)
    unfold runOps
    simp only
    rw [hs.1] at hr
    exact hr

theorem step_length (env : Env) (op : Op) (c : GEBatchConsumer) (sent : List Request) :
    sent.length ≤ (step env op c sent).2.1.length := by
  cases op with
  | add d =>
    simp only [step, Add]
    split_ifs
    · exact innerFlush_length env _ sent
    · exact le_refl _
  | flush => exact innerFlush_length env c sent
  | tick => exact innerFlush_length env c sent

theorem step_prefix (env : Env) (op : Op) (c : GEBatchConsumer) (sent : List Request) :
    ∃ new, (step env op c sent).2.1 = sent ++ new := by
  cases op with
  | add d =>
    simp only [step, Add]
    split_ifs
    · exact innerFlush_prefix env _ sent
    · exact ⟨[], by simp⟩
  | flush => exact innerFlush_prefix env c sent
  | tick => exact innerFlush_prefix env c sent

theorem runOps_prefix (env : Env) :
    ∀ (ops : List Op) (c : GEBatchConsumer) (sent : List Request),
      ∃ new, (runOps env ops c sent).2.1 = sent ++ new := by
  intro ops
  induction ops with
  | nil => intro c sent; exact ⟨[], by simp [runOps]⟩
  | cons op ops ih =>
    intro c sent
    obtain ⟨n1, h1⟩ := step_prefix env op c sent
    obtain ⟨n2, h2⟩ := ih (step env op c sent).1 (step env op c sent).2.1
    refine ⟨n1 ++ n2, ?_⟩
    unfold runOps
    simp only
    rw [h2, h1, List.append_assoc]

/-- A run of `Add` calls that stays below the batch size on an empty cache only
appends to the active buffer. -/
theorem runOps_adds_below (env : Env) :
    ∀ (ds : List Data) (c : GEBatchConsumer) (sent : List Request),
      c.cacheBuffer = [] →
      ((c.buffer.length + ds.length : Nat) : Int) < c.batchSize →
      runOps env (ds.map Op.add) c sent =
        ({ c with buffer := c.buffer ++ ds }, sent, ds.map fun _ => Ret.nil) := by
  intro ds
  induction ds with
  | nil => intro c sent _ _; simp [runOps]
  | cons d ds ih =>
    intro c sent hc hlen
    simp only [List.length_cons] at hlen
    have hno : ¬(getBufferLength { c with buffer := c.buffer ++ [d] } ≥ c.batchSize ∨
        getCacheLength { c with buffer := c.buffer ++ [d] } > 0) := by
      simp only [getBufferLength, getCacheLength, hc, List.length_append, List.length_singleton,
        List.length_nil]
      rintro (h | h) <;> omega
    have hadd : Add env c d sent = ({ c with buffer := c.buffer ++ [d] }, sent, Ret.nil) := by
      unfold Add
      simp only
      rw [if_neg hno]
    have hrec := ih { c with buffer := c.buffer ++ [d] } sent hc (by
      simp only [List.length_append, List.length_singleton]
      omega)
    simp only [List.map_cons, runOps, step, hadd, hrec, List.append_assoc, List.singleton_append]

/-! ## Runs without a successful delivery -/

theorem NoSuccessAfter.head {env : Env} {sent mid final : List Request}
    (h : NoSuccessAfter env sent final) (new : List Request) (hf : final = mid ++ new) :
    NoSuccessAfter env sent mid := by
  intro pre r post hmid hlen
  apply h pre r (post ++ new) _ hlen
  rw [hf, hmid]; simp

theorem NoSuccessAfter.rest {env : Env} {sent mid final : List Request}
    (h : NoSuccessAfter env sent final) (hlen : sent.length ≤ mid.length) :
    NoSuccessAfter env mid final := by
  intro pre r post hfin hl
  exact h pre r post hfin (by omega)

/-- A flush none of whose requests is accepted: the cache is the old cache
with the moved buffer behind it, less its oldest batch when the capacity is
exceeded. -/
theorem innerFlush_no_success (env : Env) (c : GEBatchConsumer) (sent : List Request)
    (hno : NoSuccessAfter env sent (innerFlush env c sent).2.1)
    (hcap : (c.cacheBuffer.length : Int) ≤ c.cacheCapacity) :
    (innerFlush env c sent).1.cacheBuffer =
      if ((c.cacheBuffer ++ (movedBatch c).toList).length : Int) > c.cacheCapacity then
        (c.cacheBuffer ++ (movedBatch c).toList).tail
      else c.cacheBuffer ++ (movedBatch c).toList := by
  by_cases h : c.buffer.length = 0 ∧ c.cacheBuffer.length = 0
  · have hm : movedBatch c = none := by unfold movedBatch; rw [if_pos h]
    unfold innerFlush
    rw [if_pos h, hm]
    simp only [Option.toList, List.append_nil]
    rw [if_neg (by omega)]
  · rcases innerFlush_cache env c sent h with ⟨-, hres⟩ | ⟨hu, -, hne, -⟩
    · rw [hres, moveBuffer_cache c h]
    · exfalso
      rcases uploadEvents_removes env (moveBuffer c) sent with h1 | ⟨pre, r, h1, h2, h3⟩
      · rw [hu] at h1
        have := congrArg (fun x => x.cacheBuffer.length) h1
        simp only [dropHead, List.length_tail] at this
        have hpos : 0 < (moveBuffer c).cacheBuffer.length := List.length_pos.mpr hne
        omega
      · rw [innerFlush_eq env c sent h] at hno
        exact hno pre r [] h1 h2 h3

theorem step_no_success (env : Env) (op : Op) (c : GEBatchConsumer) (sent : List Request)
    (hno : NoSuccessAfter env sent (step env op c sent).2.1)
    (hcap : (c.cacheBuffer.length : Int) ≤ c.cacheCapacity) :
    (step env op c sent).1.cacheBuffer =
      if ((c.cacheBuffer ++ (movedBy op c).toList).length : Int) > c.cacheCapacity then
        (c.cacheBuffer ++ (movedBy op c).toList).tail
      else c.cacheBuffer ++ (movedBy op c).toList := by
  cases op with
  | flush => exact innerFlush_no_success env c sent hno hcap
  | tick => exact innerFlush_no_success env c sent hno hcap
  | add d =>
    simp only [step, Add, movedBy, Flush] at hno ⊢
    split_ifs at hno ⊢ with h1 h2 h2
    · rw [innerFlush_no_success env _ sent hno hcap, if_pos h2]
    · rw [innerFlush_no_success env _ sent hno hcap, if_neg h2]
    · simp only [Option.toList, List.append_nil] at h2
      omega
    · simp

theorem lastN_length {α : Type} (n : Nat) (l : List α) :
    (lastN n l).length = min l.length n := by
  unfold lastN
  simp only [List.length_drop]
  omega

/-- Appending at most one batch to the last `n` batches and dropping the
oldest when there are more than `n` gives the last `n` batches again. -/
theorem lastN_push {α : Type} (n : Nat) (hn : 1 ≤ n) (hist : List α) (m : Option α) :
    (if (lastN n hist ++ m.toList).length > n then (lastN n hist ++ m.toList).tail
      else lastN n hist ++ m.toList) = lastN n (hist ++ m.toList) := by
  cases m with
  | none =>
    simp only [Option.toList, List.append_nil]
    rw [if_neg]
    rw [lastN_length]; omega
  | some b =>
    simp only [Option.toList]
    by_cases hl : n ≤ hist.length
    · have h1 : (lastN n hist ++ [b]).length > n := by
        simp only [List.length_append, lastN_length, List.length_singleton]; omega
      rw [if_pos h1]
      unfold lastN
      have hlt : hist.length - n < hist.length := by omega
      rw [List.length_append, List.length_singleton]
      have e1 : hist.length + 1 - n = (hist.length - n) + 1 := by omega
      rw [e1, List.drop_append_of_le_length (by omega)]
      rw [← List.drop_append_of_le_length (by omega : hist.length - n ≤ hist.length)]
      rw [List.tail_drop]
      rw [List.drop_append_of_le_length (by omega)]
    · have h1 : ¬(lastN n hist ++ [b]).length > n := by
        simp only [List.length_append, lastN_length, List.length_singleton]; omega
      rw [if_neg h1]
      unfold lastN
      have e0 : hist.length - n = 0 := by omega
      have e1 : (hist ++ [b]).length - n = 0 := by
        simp only [List.length_append, List.length_singleton]; omega
      rw [e0, e1]; rfl

theorem runOps_no_success (env : Env) :
    ∀ (ops : List Op) (c : GEBatchConsumer) (sent : List Request) (hist : List (List Data)),
      1 ≤ c.cacheCapacity →
      c.cacheBuffer = lastN c.cacheCapacity.toNat hist →
      NoSuccessAfter env sent (runOps env ops c sent).2.1 →
      (runOps env ops c sent).1.cacheBuffer =
        lastN c.cacheCapacity.toNat (hist ++ createdBatches env ops c sent) := by
  intro ops
  induction ops with
  | nil =>
    intro c sent hist _ hc _
    simp only [runOps, createdBatches, List.append_nil]
    exact hc
  | cons op ops ih =>
    intro c sent hist hN hc hno
    have hn : ((c.cacheCapacity.toNat : Nat) : Int) = c.cacheCapacity := Int.toNat_of_nonneg (by omega)
    have hcap : (c.cacheBuffer.length : Int) ≤ c.cacheCapacity := by
      rw [hc, lastN_length]; omega
    have hb := step_bound env op c sent hcap
    obtain ⟨new, hnew⟩ := runOps_prefix env ops (step env op c sent).1 (step env op c sent).2.1
    have hfin : (runOps env (op :: ops) c sent).2.1 =
        (runOps env ops (step env op c sent).1 (step env op c sent).2.1).2.1 := by
      conv_lhs => unfold runOps
    have hst : (runOps env (op :: ops) c sent).1 =
        (runOps env ops (step env op c sent).1 (step env op c sent).2.1).1 := by
      conv_lhs => unfold runOps
    rw [hfin] at hno
    have hno1 : NoSuccessAfter env sent (step env op c sent).2.1 := hno.head new hnew
    have hno2 : NoSuccessAfter env (step env op c sent).2.1
        (runOps env ops (step env op c sent).1 (step env op c sent).2.1).2.1 :=
      hno.rest (step_length env op c sent)
    have hstep := step_no_success env op c sent hno1 hcap
    have hcache : (step env op c sent).1.cacheBuffer =
        lastN (step env op c sent).1.cacheCapacity.toNat (hist ++ (movedBy op c).toList) := by
      rw [hstep, hb.1, hc, ← lastN_push c.cacheCapacity.toNat (by omega) hist (movedBy op c)]
      by_cases hgt : (lastN c.cacheCapacity.toNat hist ++ (movedBy op c).toList).length >
          c.cacheCapacity.toNat
      · rw [if_pos hgt, if_pos (by omega)]
      · rw [if_neg hgt, if_neg (by omega)]
    have hres := ih (step env op c sent).1 (step env op c sent).2.1
      (hist ++ (movedBy op c).toList) (by rw [hb.1]; exact hN) hcache hno2
    rw [hst, hres, hb.1]
    simp only [createdBatches, List.append_assoc]

/-! ## Panics and the shape of the batches -/

theorem moveBuffer_batchSize (c : GEBatchConsumer) :
    (moveBuffer c).batchSize = c.batchSize := (moveBuffer_config c).2.2

theorem uploadEvents_batchSize (env : Env) (c : GEBatchConsumer) (sent : List Request) :
    (uploadEvents env c sent).1.batchSize = c.batchSize := by
  rcases uploadEvents_state env c sent with h | ⟨h, -, -⟩ <;> (rw [h]; try rfl)

theorem evictOldest_batchSize (c : GEBatchConsumer) (r : Ret) :
    (evictOldest c r).1.batchSize = c.batchSize := by
  unfold evictOldest
  split_ifs
  · split <;> rfl
  · rfl

/-- One flush changes neither the batch size nor the capacity. -/
theorem innerFlush_config (env : Env) (c : GEBatchConsumer) (sent : List Request) :
    (innerFlush env c sent).1.batchSize = c.batchSize ∧
      (innerFlush env c sent).1.cacheCapacity = c.cacheCapacity := by
  by_cases h : c.buffer.length = 0 ∧ c.cacheBuffer.length = 0
  · unfold innerFlush; rw [if_pos h]; exact ⟨rfl, rfl⟩
  · rw [innerFlush_eq env c sent h]
    simp only [evictOldest_batchSize, uploadEvents_batchSize, moveBuffer_batchSize,
      evictOldest_capacity, uploadEvents_capacity, moveBuffer_capacity, and_self]

theorem Add_config (env : Env) (c : GEBatchConsumer) (d : Data) (sent : List Request) :
    (Add env c d sent).1.batchSize = c.batchSize ∧
      (Add env c d sent).1.cacheCapacity = c.cacheCapacity := by
  unfold Add
  simp only
  split_ifs
  · exact innerFlush_config env { c with buffer := c.buffer ++ [d] } sent
  · exact ⟨rfl, rfl⟩

theorem step_config (env : Env) (op : Op) (c : GEBatchConsumer) (sent : List Request) :
    (step env op c sent).1.batchSize = c.batchSize ∧
      (step env op c sent).1.cacheCapacity = c.cacheCapacity := by
  cases op with
  | add d => exact Add_config env c d sent
  | flush => exact innerFlush_config env c sent
  | tick => exact innerFlush_config env c sent

/-- The cache is non-empty once the second step of `innerFlush` has run:
`uploadEvents` is only called on a non-empty cache. -/
theorem moveBuffer_nonempty (c : GEBatchConsumer) : (moveBuffer c).cacheBuffer ≠ [] := by
  unfold moveBuffer
  split_ifs with hm
  · simp
  · intro hnil
    exact hm (Or.inl (by rw [hnil]; rfl))

theorem uploadEvents_no_panic (env : Env) (c : GEBatchConsumer) (sent : List Request)
    (h : c.cacheBuffer ≠ []) (m : String) : (uploadEvents env c sent).2.2 ≠ Ret.panic m := by
  unfold uploadEvents
  cases hc : c.cacheBuffer with
  | nil => exact absurd hc h
  | cons b rest =>
    simp only
    rcases uploadGroups_state env
        (rangeOrder (env.rangeSeed sent) (groupByClient b).length 0 (groupByClient b)) c sent with
      ⟨-, h1⟩ | ⟨-, h2⟩
    · exact h1 m
    · rw [h2]; simp

theorem evictOldest_panic (c : GEBatchConsumer) (r : Ret) :
    (evictOldest c r).2 = r ∨
      ((evictOldest c r).2 = Ret.panic "runtime error: slice bounds out of range [1:0]" ∧
        c.cacheCapacity < 0) := by
  unfold evictOldest
  split_ifs with h
  · split
    next hnil =>
      right
      rw [hnil] at h
      simp only [List.length_nil, Nat.cast_zero] at h
      exact ⟨rfl, h⟩
    next => left; rfl
  · left; rfl

/-- The only panic one flush can end in is the slice expression of the
deferred eviction, and only on an engine of negative capacity. -/
theorem innerFlush_panic (env : Env) (c : GEBatchConsumer) (sent : List Request) (m : String)
    (hp : (innerFlush env c sent).2.2 = Ret.panic m) :
    m = "runtime error: slice bounds out of range [1:0]" ∧ c.cacheCapacity < 0 := by
  by_cases h : c.buffer.length = 0 ∧ c.cacheBuffer.length = 0
  · unfold innerFlush at hp
    rw [if_pos h] at hp
    exact absurd hp (by simp)
  · rw [innerFlush_eq env c sent h] at hp
    simp only at hp
    rcases evictOldest_panic (uploadEvents env (moveBuffer c) sent).1
        (uploadEvents env (moveBuffer c) sent).2.2 with h1 | ⟨h1, h2⟩
    · rw [h1] at hp
      exact absurd hp (uploadEvents_no_panic env (moveBuffer c) sent (moveBuffer_nonempty c) m)
    · rw [h1] at hp
      simp only [Ret.panic.injEq] at hp
      rw [uploadEvents_capacity, moveBuffer_capacity] at h2
      exact ⟨hp.symm, h2⟩

theorem Add_panic (env : Env) (c : GEBatchConsumer) (d : Data) (sent : List Request) (m : String)
    (hp : (Add env c d sent).2.2 = Ret.panic m) :
    m = "runtime error: slice bounds out of range [1:0]" ∧ c.cacheCapacity < 0 := by
  unfold Add at hp
  simp only at hp
  split_ifs at hp
  exact innerFlush_panic env { c with buffer := c.buffer ++ [d] } sent m hp

theorem FlushAll_panic (env : Env) :
    ∀ (fuel : Nat) (c : GEBatchConsumer) (sent : List Request)
      (c' : GEBatchConsumer) (sent' : List Request) (m : String),
      FlushAll env fuel c sent = some (c', sent', Ret.panic m) →
      m = "runtime error: slice bounds out of range [1:0]" ∧ c.cacheCapacity < 0 := by
  intro fuel
  induction fuel with
  | zero =>
    intro c sent c' sent' m h
    unfold FlushAll at h
    split_ifs at h
    simp at h
  | succ n ih =>
    intro c sent c' sent' m h
    unfold FlushAll at h
    split_ifs at h with hcond
    · have hcfg := innerFlush_config env c sent
      have hpan := innerFlush_panic env c sent
      unfold Flush at h
      rcases hf : innerFlush env c sent with ⟨c1, sent1, r⟩
      rw [hf] at h hcfg hpan
      simp only at hcfg hpan
      cases r with
      | nil =>
        simp only at h
        have := ih c1 sent1 c' sent' m h
        rw [hcfg.2] at this
        exact this
      | error msg =>
        simp only at h
        split_ifs at h
        · have := ih c1 sent1 c' sent' m h
          rw [hcfg.2] at this
          exact this
        · simp at h
      | panic msg =>
        simp only [Option.some.injEq, Prod.mk.injEq, Ret.panic.injEq] at h
        rw [← h.2.2]
        exact hpan msg rfl
    · simp at h

/-- The batch a flush moves is non-empty when the batch size is positive. -/
theorem movedBatch_nonempty (c : GEBatchConsumer) (hbs : 1 ≤ c.batchSize) (b : List Data)
    (h : movedBatch c = some b) : b ≠ [] := by
  unfold movedBatch at h
  split_ifs at h with h1 h2
  simp only [Option.some.injEq] at h
  subst h
  intro hnil
  rw [hnil] at h1 h2
  simp only [List.length_nil, true_and, Nat.cast_zero] at h1 h2
  rcases h2 with h2 | h2
  · exact h1 h2
  · omega

theorem movedBy_nonempty (op : Op) (c : GEBatchConsumer) (hbs : 1 ≤ c.batchSize)
    (b : List Data) (h : movedBy op c = some b) : b ≠ [] := by
  cases op with
  | add d =>
    simp only [movedBy] at h
    split_ifs at h
    exact movedBatch_nonempty { c with buffer := c.buffer ++ [d] } hbs b h
  | flush => exact movedBatch_nonempty c hbs b h
  | tick => exact movedBatch_nonempty c hbs b h

/-- One flush keeps every batch of the cache non-empty. -/
theorem innerFlush_nonempty (env : Env) (c : GEBatchConsumer) (sent : List Request)
    (hbs : 1 ≤ c.batchSize) (hall : ∀ b ∈ c.cacheBuffer, b ≠ []) :
    ∀ b ∈ (innerFlush env c sent).1.cacheBuffer, b ≠ [] := by
  by_cases h : c.buffer.length = 0 ∧ c.cacheBuffer.length = 0
  · unfold innerFlush; rw [if_pos h]; exact hall
  · obtain ⟨j, -, hj⟩ := innerFlush_drop env c sent h
    rw [hj, moveBuffer_cache c h]
    intro b hb
    have hb' := List.mem_of_mem_drop hb
    rcases List.mem_append.mp hb' with hb1 | hb2
    · exact hall b hb1
    · cases hm : movedBatch c with
      | none => rw [hm] at hb2; simp at hb2
      | some b0 =>
        rw [hm] at hb2
        simp only [Option.toList, List.mem_singleton] at hb2
        rw [hb2]
        exact movedBatch_nonempty c hbs b0 hm

theorem step_nonempty (env : Env) (op : Op) (c : GEBatchConsumer) (sent : List Request)
    (hbs : 1 ≤ c.batchSize) (hall : ∀ b ∈ c.cacheBuffer, b ≠ []) :
    ∀ b ∈ (step env op c sent).1.cacheBuffer, b ≠ [] := by
  cases op with
  | add d =>
    simp only [step, Add]
    split_ifs
    · exact innerFlush_nonempty env { c with buffer := c.buffer ++ [d] } sent hbs hall
    · exact hall
  | flush => exact innerFlush_nonempty env c sent hbs hall
  | tick => exact innerFlush_nonempty env c sent hbs hall

theorem runOps_nonempty (env : Env) :
    ∀ (ops : List Op) (c : GEBatchConsumer) (sent : List Request),
      1 ≤ c.batchSize → (∀ b ∈ c.cacheBuffer, b ≠ []) →
      (runOps env ops c sent).1.batchSize = c.batchSize ∧
      (∀ b ∈ (runOps env ops c sent).1.cacheBuffer, b ≠ []) ∧
      (∀ b ∈ createdBatches env ops c sent, b ≠ []) := by
  intro ops
  induction ops with
  | nil =>
    intro c sent _ hall
    exact ⟨rfl, hall, by simp [createdBatches]⟩
  | cons op ops ih =>
    intro c sent hbs hall
    have hcfg := step_config env op c sent
    have hst := step_nonempty env op c sent hbs hall
    obtain ⟨h1, h2, h3⟩ := ih (step env op c sent).1 (step env op c sent).2.1
      (by rw [hcfg.1]; exact hbs) hst
    have hrun : (runOps env (op :: ops) c sent).1 =
        (runOps env ops (step env op c sent).1 (step env op c sent).2.1).1 := by
      conv_lhs => unfold runOps
    rw [hrun]
    refine ⟨by rw [h1, hcfg.1], h2, ?_⟩
    intro b hb
    simp only [createdBatches, List.mem_append] at hb
    rcases hb with hb | hb
    · cases hm : movedBy op c with
      | none => rw [hm] at hb; simp at hb
      | some b0 =>
        rw [hm] at hb
        simp only [Option.toList, List.mem_singleton] at hb
        rw [hb]
        exact movedBy_nonempty op c hbs b0 hm
    · exact h3 b hb

/-! ## Draining under an endpoint that accepts -/

theorem jsonMarshalOk_eventsOf (clientId : String) :
    ∀ (b : List Data), (∀ i ∈ b, jsonMarshalOk i = true) →
      jsonMarshalOk ⟨clientId, eventsOf clientId b⟩ = true := by
  intro b
  induction b with
  | nil => intro _; rfl
  | cons i rest ih =>
    intro h
    have hi : jsonMarshalOk i = true := h i (List.mem_cons_self _ _)
    have hr := ih (fun j hj => h j (List.mem_cons_of_mem _ hj))
    unfold jsonMarshalOk at hi hr ⊢
    simp only [eventsOf]
    split_ifs
    · simp only [List.all_append, Bool.and_eq_true]
      exact ⟨hi, hr⟩
    · exact hr

theorem evictOldest_within (c : GEBatchConsumer) (r : Ret)
    (h : ¬((c.cacheBuffer.length : Int) > c.cacheCapacity)) : evictOldest c r = (c, r) := by
  unfold evictOldest
  rw [if_neg h]

/-- The batch a flush attempts: the oldest batch of the cache, or the active
buffer, non-empty, when the cache is empty. -/
theorem moveBuffer_head (c : GEBatchConsumer)
    (hne : ¬(c.buffer.length = 0 ∧ c.cacheBuffer.length = 0)) :
    ∃ b rest, (moveBuffer c).cacheBuffer = b :: rest ∧
      ((b = c.buffer ∧ c.cacheBuffer = [] ∧ b ≠ []) ∨ b ∈ c.cacheBuffer) := by
  cases hc : c.cacheBuffer with
  | nil =>
    refine ⟨c.buffer, [], ?_, Or.inl ⟨rfl, rfl, ?_⟩⟩
    · unfold moveBuffer
      rw [if_pos (Or.inl (by rw [hc]; rfl)), hc]
      rfl
    · intro hnil
      exact hne ⟨by rw [hnil]; rfl, by rw [hc]; rfl⟩
  | cons b0 rest0 =>
    refine ⟨b0, rest0 ++ (movedBatch c).toList, ?_, Or.inr (List.mem_cons_self _ _)⟩
    rw [moveBuffer_cache c hne, hc]
    rfl

/-- One flush under an endpoint that accepts, on a cache within its capacity
whose batches are non-empty, all records serialisable: exactly one request is
posted, carrying the records of one client id of the attempted batch `b`; the
whole batch `b` is removed and `nil` is returned. -/
theorem innerFlush_accepted (env : Env) (c : GEBatchConsumer) (sent : List Request)
    (hne : ¬(c.buffer.length = 0 ∧ c.cacheBuffer.length = 0))
    (hcap : (c.cacheBuffer.length : Int) ≤ c.cacheCapacity)
    (hall : ∀ b ∈ c.cacheBuffer, b ≠ [])
    (hser : AllSerialisable c)
    (hacc : ∀ req, env.Do sent req = HttpResult.response 200 (Except.ok 0)) :
    ∃ b rest i, (moveBuffer c).cacheBuffer = b :: rest ∧ i ∈ b ∧
      innerFlush env c sent =
        (dropHead (moveBuffer c),
          sent ++ [buildRequest c ⟨i.ClientId, eventsOf i.ClientId b⟩ 1], Ret.nil) := by
  obtain ⟨b, rest, hcache, hb⟩ := moveBuffer_head c hne
  have hbne : b ≠ [] := by
    rcases hb with ⟨-, -, h⟩ | h
    · exact h
    · exact hall b h
  have hbser : ∀ i ∈ b, jsonMarshalOk i = true := by
    rcases hb with ⟨h, -, -⟩ | h
    · rw [h]; exact hser.1
    · exact hser.2 b h
  obtain ⟨i0, hi0⟩ := List.exists_mem_of_ne_nil b hbne
  have hm : ∃ i ∈ b, jsonMarshalOk ⟨i.ClientId, eventsOf i.ClientId b⟩ = true :=
    ⟨i0, hi0, jsonMarshalOk_eventsOf _ b hbser⟩
  obtain ⟨i, hi, -, r, hr, heq⟩ := uploadEvents_first env (moveBuffer c) sent b rest hcache hm
  rw [sendLoop_accept env _ 2 0 (moveBuffer c) sent (by omega) (hacc _)] at hr heq
  simp only [Option.some.injEq] at hr
  refine ⟨b, rest, i, hcache, hi, ?_⟩
  rw [innerFlush_eq env c sent hne, heq, ← hr]
  simp only
  have hlen : ¬(((dropHead (moveBuffer c)).cacheBuffer.length : Int) >
      (dropHead (moveBuffer c)).cacheCapacity) := by
    have h1 := moveBuffer_length_le c
    have h2 : (dropHead (moveBuffer c)).cacheCapacity = c.cacheCapacity := moveBuffer_capacity c
    rw [h2]
    simp only [dropHead, hcache, List.tail_cons]
    rw [hcache] at h1
    simp only [List.length_cons] at h1
    omega
  rw [evictOldest_within _ _ hlen, buildRequest_moveBuffer]

theorem pendingFlushes_zero (c : GEBatchConsumer) :
    pendingFlushes c = 0 ↔ (c.buffer.length = 0 ∧ c.cacheBuffer.length = 0) := by
  unfold pendingFlushes
  split_ifs with h
  · simp [h]
  · simp [h]

theorem loop_condition (c : GEBatchConsumer) :
    (getCacheLength c > 0 ∨ getBufferLength c > 0) ↔
      ¬(c.buffer.length = 0 ∧ c.cacheBuffer.length = 0) := by
  unfold getCacheLength getBufferLength
  constructor
  · rintro (h | h) ⟨h1, h2⟩
    · rw [h2] at h; simp at h
    · rw [h1] at h; simp at h
  · intro h
    by_cases hc : c.cacheBuffer.length = 0
    · right
      have : c.buffer.length ≠ 0 := fun hb => h ⟨hb, hc⟩
      exact_mod_cast Nat.pos_of_ne_zero this
    · left
      exact_mod_cast Nat.pos_of_ne_zero hc

/-- A successful flush lowers the number of flushes still to make by one. -/
theorem pendingFlushes_dropHead (c : GEBatchConsumer) (hbs : 1 ≤ c.batchSize)
    (hne : ¬(c.buffer.length = 0 ∧ c.cacheBuffer.length = 0)) :
    pendingFlushes (dropHead (moveBuffer c)) + 1 = pendingFlushes c := by
  unfold pendingFlushes dropHead moveBuffer
  by_cases hm : c.cacheBuffer.length = 0 ∨ (c.buffer.length : Int) ≥ c.batchSize
  · rw [if_pos hm]
    simp only [List.length_nil, if_true, List.length_tail, List.length_append,
      List.length_singleton, Nat.add_sub_cancel, Nat.add_zero]
    have : c.buffer.length ≠ 0 := by
      rcases hm with h | h
      · exact fun hb => hne ⟨hb, h⟩
      · omega
    rw [if_neg this]
  · rw [if_neg hm]
    push_neg at hm
    simp only [List.length_tail]
    have : 0 < c.cacheBuffer.length := Nat.pos_of_ne_zero hm.1
    split_ifs <;> omega

theorem AllSerialisable.moveBuffer {c : GEBatchConsumer} (h : AllSerialisable c) :
    AllSerialisable (moveBuffer c) := by
  unfold gedata.moveBuffer
  split_ifs
  · refine ⟨by simp, ?_⟩
    intro b hb i hi
    rcases List.mem_append.mp hb with h1 | h2
    · exact h.2 b h1 i hi
    · simp only [List.mem_singleton] at h2
      rw [h2] at hi
      exact h.1 i hi
  · exact h

theorem AllSerialisable.dropHead {c : GEBatchConsumer} (h : AllSerialisable c) :
    AllSerialisable (dropHead c) :=
  ⟨h.1, fun b hb i hi => h.2 b (List.mem_of_mem_tail hb) i hi⟩

/-- More fuel does not change what `FlushAll` returns. -/
theorem FlushAll_fuel_succ (env : Env) :
    ∀ (fuel : Nat) (c : GEBatchConsumer) (sent : List Request)
      (x : GEBatchConsumer × List Request × Ret),
      FlushAll env fuel c sent = some x → FlushAll env (fuel + 1) c sent = some x := by
  intro fuel
  induction fuel with
  | zero =>
    intro c sent x h
    unfold FlushAll at h ⊢
    split_ifs at h ⊢ with hc
    exact h
  | succ n ih =>
    intro c sent x h
    unfold FlushAll at h
    conv_lhs => unfold FlushAll
    split_ifs at h ⊢ with hc
    · rcases hf : Flush env c sent with ⟨c1, sent1, r⟩
      rw [hf] at h
      cases r with
      | nil => simp only at h ⊢; exact ih c1 sent1 x h
      | error msg =>
        simp only at h ⊢
        split_ifs at h ⊢
        · exact ih c1 sent1 x h
        · exact h
      | panic msg => simp only at h ⊢; exact h
    · exact h

theorem FlushAll_fuel_le (env : Env) (fuel fuel' : Nat) (hle : fuel ≤ fuel')
    (c : GEBatchConsumer) (sent : List Request) (x : GEBatchConsumer × List Request × Ret)
    (h : FlushAll env fuel c sent = some x) : FlushAll env fuel' c sent = some x := by
  induction fuel' with
  | zero =>
    have : fuel = 0 := by omega
    subst this
    exact h
  | succ n ih =>
    by_cases hn : fuel ≤ n
    · exact FlushAll_fuel_succ env n c sent x (ih hn)
    · have : fuel = n + 1 := by omega
      subst this
      exact h

/-- Whenever `FlushAll` returns `nil`, the active buffer and the cache are
both empty. -/
theorem FlushAll_nil_empty (env : Env) :
    ∀ (fuel : Nat) (c : GEBatchConsumer) (sent : List Request)
      (c' : GEBatchConsumer) (sent' : List Request),
      FlushAll env fuel c sent = some (c', sent', Ret.nil) →
      c'.buffer = [] ∧ c'.cacheBuffer = [] := by
  intro fuel
  induction fuel with
  | zero =>
    intro c sent c' sent' h
    unfold FlushAll at h
    split_ifs at h with hc
    simp only [Option.some.injEq, Prod.mk.injEq, and_true] at h
    rw [loop_condition, not_not] at hc
    rw [← h.1]
    exact ⟨List.length_eq_zero.mp hc.1, List.length_eq_zero.mp hc.2⟩
  | succ n ih =>
    intro c sent c' sent' h
    unfold FlushAll at h
    split_ifs at h with hc
    · rcases hf : Flush env c sent with ⟨c1, sent1, r⟩
      rw [hf] at h
      cases r with
      | nil => exact ih c1 sent1 c' sent' h
      | error msg =>
        simp only at h
        split_ifs at h
        · exact ih c1 sent1 c' sent' h
        · simp at h
      | panic msg => simp at h
    · simp only [Option.some.injEq, Prod.mk.injEq, and_true] at h
      rw [loop_condition, not_not] at hc
      rw [← h.1]
      exact ⟨List.length_eq_zero.mp hc.1, List.length_eq_zero.mp hc.2⟩

/-- Under an endpoint that accepts, `FlushAll` ends after exactly
`pendingFlushes` calls of `Flush`, returns `nil` and leaves nothing queued. -/
theorem FlushAll_drains (env : Env) :
    ∀ (k : Nat) (c : GEBatchConsumer) (sent : List Request),
      1 ≤ c.batchSize →
      (c.cacheBuffer.length : Int) ≤ c.cacheCapacity →
      (∀ b ∈ c.cacheBuffer, b ≠ []) →
      AllSerialisable c →
      AcceptsAfter env sent →
      pendingFlushes c = k →
      ∃ c' sent', FlushAll env k c sent = some (c', sent', Ret.nil) ∧
        c'.buffer = [] ∧ c'.cacheBuffer = [] := by
  intro k
  induction k with
  | zero =>
    intro c sent _ _ _ _ _ hk
    rw [pendingFlushes_zero] at hk
    refine ⟨c, sent, ?_, List.length_eq_zero.mp hk.1, List.length_eq_zero.mp hk.2⟩
    unfold FlushAll
    rw [if_neg (by rw [loop_condition, not_not]; exact hk)]
  | succ n ih =>
    intro c sent hbs hcap hall hser hacc hk
    have hne : ¬(c.buffer.length = 0 ∧ c.cacheBuffer.length = 0) := by
      rw [← pendingFlushes_zero]; omega
    have hacc0 : ∀ req, env.Do sent req = HttpResult.response 200 (Except.ok 0) := by
      intro req
      have := hacc [] req
      rwa [List.append_nil] at this
    obtain ⟨b, rest, i, -, -, hflush⟩ := innerFlush_accepted env c sent hne hcap hall hser hacc0
    have hb := innerFlush_bound env c sent hcap
    have hn := innerFlush_nonempty env c sent hbs hall
    have hcfg := innerFlush_config env c sent
    rw [hflush] at hb hn hcfg
    simp only at hb hn hcfg
    have hpend := pendingFlushes_dropHead c hbs hne
    obtain ⟨c', sent', hfa, hres⟩ := ih (dropHead (moveBuffer c))
      (sent ++ [buildRequest c ⟨i.ClientId, eventsOf i.ClientId b⟩ 1])
      (by rw [hcfg.1]; exact hbs) (by rw [hb.1]; exact hb.2) hn
      hser.moveBuffer.dropHead
      (by
        intro extra r
        have := hacc ([buildRequest c ⟨i.ClientId, eventsOf i.ClientId b⟩ 1] ++ extra) r
        rwa [← List.append_assoc] at this)
      (by omega)
    refine ⟨c', sent', ?_, hres⟩
    unfold FlushAll
    rw [if_pos ((loop_condition c).mpr hne)]
    unfold Flush
    rw [hflush]
    exact hfa

/-- The batch size and the capacity `initBatchConsumer` gives an engine. -/
theorem initBatchConsumer_sizes (canMake : Int → Bool)
    (urlParse : String → Except String String) (config : GEBatchConfig) (c : GEBatchConsumer)
    (h : initBatchConsumer canMake urlParse config = Except.ok c) :
    c.batchSize = (if config.BatchSize > 200 then 200
        else if config.BatchSize ≤ 0 then 20 else config.BatchSize) ∧
      c.cacheCapacity = (if config.CacheCapacity ≤ 0 then 50 else config.CacheCapacity) := by
  unfold initBatchConsumer at h
  by_cases hs : config.ServerUrl = ""
  · rw [if_pos hs] at h; cases h
  · rw [if_neg hs] at h
    cases hu : urlParse config.ServerUrl with
    | error e => rw [hu] at h; cases h
    | ok u =>
      rw [hu] at h
      simp only [] at h
      by_cases hm : canMake (if config.CacheCapacity ≤ 0 then DefaultCacheCapacity
          else config.CacheCapacity) = true
      · rw [if_pos hm] at h
        simp only [Except.ok.injEq] at h
        subst h
        exact ⟨rfl, rfl⟩
      · rw [if_neg hm] at h; cases h

/-! ## C1: the cache never exceeds its capacity -/

/-- C1: for an engine built by `initBatchConsumer` (capacity `N ≥ 1`, cache
empty at the start) and every sequence of `Add`, `Flush` and timer calls under
any endpoint behaviour, the cache holds at most `N` batches after each call
(after every prefix of the sequence), and `N` never changes. -/
theorem C1_cache_within_capacity (canMake : Int → Bool)
    (urlParse : String → Except String String) (config : GEBatchConfig) (c0 : GEBatchConsumer)
    (h : initBatchConsumer canMake urlParse config = Except.ok c0)
    (env : Env) (ops : List Op) (sent : List Request) (k : Nat) :
    1 ≤ c0.cacheCapacity ∧ c0.cacheBuffer = [] ∧
      (runOps env (ops.take k) c0 sent).1.cacheCapacity = c0.cacheCapacity ∧
      ((runOps env (ops.take k) c0 sent).1.cacheBuffer.length : Int) ≤ c0.cacheCapacity := by
  obtain ⟨-, hc, -, -, hN⟩ := initBatchConsumer_fresh canMake urlParse config c0 h
  refine ⟨hN, hc, ?_⟩
  apply runOps_bound
  rw [hc]
  simp only [List.length_nil, Nat.cast_zero]
  omega

/-- C1 at a concrete run: capacity 1, batch size 1, an unreachable endpoint
and three `Add` calls. -/
theorem C1_cache_within_capacity_witness :
    initBatchConsumer sampleMake sampleParse (sampleConfig 1 1) = Except.ok (sampleEngine 1 1) ∧
      (1 ≤ (sampleEngine 1 1).cacheCapacity ∧ (sampleEngine 1 1).cacheBuffer = [] ∧
        (runOps envDown
            ([Op.add (sampleRecord "a" 1), Op.add (sampleRecord "b" 2),
              Op.add (sampleRecord "a" 3)].take 3)
            (sampleEngine 1 1) []).1.cacheCapacity = (sampleEngine 1 1).cacheCapacity ∧
        ((runOps envDown
            ([Op.add (sampleRecord "a" 1), Op.add (sampleRecord "b" 2),
              Op.add (sampleRecord "a" 3)].take 3)
            (sampleEngine 1 1) []).1.cacheBuffer.length : Int) ≤
          (sampleEngine 1 1).cacheCapacity) :=
  ⟨rfl, C1_cache_within_capacity sampleMake sampleParse (sampleConfig 1 1) (sampleEngine 1 1)
    rfl envDown _ [] 3⟩

/-! ## C2: a flush works on the oldest batch only -/

/-- C2, evaluated where it fails: batch size 2, capacity 3. Six records are
added while the endpoint is down and one flush follows when it is back, so that
the cache holds `B1` (two records of client "a") followed by `B2` (two records
of client "b"). In memory the first record of `B1` and the first record of `B2`
are windows of one array: `array0[0:1]`, of capacity 2, and `array0[1:2]`. The
first loop of the next flush runs on `B1`: `append` writes the event of the
second record of `B1` into cell 1 of array 0, and the first record of `B2`,
which is still in the cache, holds the event 2 where it held the event 9. -/
theorem C2_flush_overwrites_newer_batch :
    initBatchConsumer sampleMake sampleParse (sampleConfig 2 3) = Except.ok (sampleEngine 2 3) ∧
    sampleOlderBatch.map (viewData sampleMemory) = [sampleRecord "a" 1, sampleRecord "a" 2] ∧
    sampleNewerBatch.map (viewData sampleMemory) = [sampleRecord "b" 9, sampleRecord "b" 4] ∧
    (runOps envRecoversLate
        [Op.add (sampleRecord "x" 7), Op.add (sampleRecord "x" 8),
          Op.add (sampleRecord "a" 1), Op.add (sampleRecord "a" 2),
          Op.add (sampleRecord "b" 9), Op.add (sampleRecord "b" 4), Op.flush]
        (sampleEngine 2 3) []).1.cacheBuffer =
      [sampleOlderBatch.map (viewData sampleMemory),
        sampleNewerBatch.map (viewData sampleMemory)] ∧
    groupByClientMem sampleGrow sampleMemory sampleOlderBatch =
      ([[sampleEvent 1, sampleEvent 2], [sampleEvent 2], [sampleEvent 4]],
        [("a", [sampleEvent 1, sampleEvent 2])]) ∧
    sampleNewerBatch.map
        (viewData (groupByClientMem sampleGrow sampleMemory sampleOlderBatch).1) =
      [sampleRecord "b" 2, sampleRecord "b" 4] := by
  refine ⟨rfl, by decide, by decide, by decide, by decide, by decide⟩

/-- The defect in general: when the first record of a batch has spare capacity
for the events of the second record of the same client id, the first loop of
`uploadEvents` writes these events into the array of the first record, behind
its last event, whatever was there. -/
theorem groupByClientMem_writes (grow : Nat → Nat → Nat) (m : Memory) (d1 d2 : MemData)
    (hid : d1.ClientId = d2.ClientId) (hin : d1.EventList.arr < m.length)
    (hfit : d1.EventList.len + (readSlice m d2.EventList).length ≤ d1.EventList.cap) :
    arrayAt (groupByClientMem grow m [d1, d2]).1 d1.EventList.arr =
      writeAt (arrayAt m d1.EventList.arr) (d1.EventList.off + d1.EventList.len)
        (readSlice m d2.EventList) := by
  have h1 : sliceGet [] d1.ClientId = none := rfl
  have h2 : sliceGet (sliceSet [] d1.ClientId d1.EventList) d2.ClientId =
      some d1.EventList := by
    show (if d1.ClientId = d2.ClientId then some d1.EventList else none) = some d1.EventList
    rw [if_pos hid]
  unfold groupByClientMem
  simp only [groupLoopMem, h1, h2]
  rw [appendSlice_inPlace grow m d1.EventList _ hfit]
  exact arrayAt_set_same m _ _ hin

/-! ## C3: without a successful delivery the newest batches are kept -/

/-- C3: on a fresh engine of capacity `N ≥ 1`, after any sequence of `Add`,
`Flush` and timer calls none of whose delivery attempts succeeds, the cache is
exactly the last `min k N` of the `k` batches moved from the active buffer into
the cache, in creation order; with `N = 1` and two batches created only the
second one remains. -/
theorem C3_newest_batches_kept (canMake : Int → Bool)
    (urlParse : String → Except String String) (config : GEBatchConfig) (c0 : GEBatchConsumer)
    (h0 : initBatchConsumer canMake urlParse config = Except.ok c0)
    (env : Env) (ops : List Op) (sent : List Request)
    (hno : NoSuccessAfter env sent (runOps env ops c0 sent).2.1) :
    1 ≤ c0.cacheCapacity ∧
    (runOps env ops c0 sent).1.cacheBuffer =
      lastN c0.cacheCapacity.toNat (createdBatches env ops c0 sent) ∧
    (runOps env ops c0 sent).1.cacheBuffer.length =
      min (createdBatches env ops c0 sent).length c0.cacheCapacity.toNat ∧
    (c0.cacheCapacity = 1 → ∀ b1 b2, createdBatches env ops c0 sent = [b1, b2] →
      (runOps env ops c0 sent).1.cacheBuffer = [b2]) := by
  obtain ⟨-, hc0, -, -, hN⟩ := initBatchConsumer_fresh canMake urlParse config c0 h0
  have h := runOps_no_success env ops c0 sent [] hN (by rw [hc0]; simp [lastN]) hno
  simp only [List.nil_append] at h
  refine ⟨hN, h, ?_, ?_⟩
  · rw [h, lastN_length]
  · intro h1 b1 b2 hb
    rw [h, hb, h1]
    rfl

/-- C3 at a concrete run: capacity 1, batch size 1, endpoint down, two records
added: two batches are created and only the second is left. -/
theorem C3_newest_batches_kept_witness :
    initBatchConsumer sampleMake sampleParse (sampleConfig 1 1) = Except.ok (sampleEngine 1 1) ∧
    NoSuccessAfter envDown []
      (runOps envDown [Op.add (sampleRecord "a" 1), Op.add (sampleRecord "b" 2)]
        (sampleEngine 1 1) []).2.1 ∧
    createdBatches envDown [Op.add (sampleRecord "a" 1), Op.add (sampleRecord "b" 2)]
        (sampleEngine 1 1) [] = [[sampleRecord "a" 1], [sampleRecord "b" 2]] ∧
    (runOps envDown [Op.add (sampleRecord "a" 1), Op.add (sampleRecord "b" 2)]
        (sampleEngine 1 1) []).1.cacheBuffer = [[sampleRecord "b" 2]] :=
  ⟨rfl, fun _ _ _ _ _ h => by simp [Accepted, envDown] at h, by decide,
    (C3_newest_batches_kept sampleMake sampleParse (sampleConfig 1 1) (sampleEngine 1 1) rfl envDown
      [Op.add (sampleRecord "a" 1), Op.add (sampleRecord "b" 2)] []
      (fun _ _ _ _ _ h => by simp [Accepted, envDown] at h)).2.2.2 rfl
      [sampleRecord "a" 1] [sampleRecord "b" 2] (by decide)⟩

/-! ## C4: an `Add` that fills the buffer -/

/-- C4: in every state whose active buffer holds `batchSize - 1` records, and
for every endpoint, `Add d` runs a flush; that flush moves `buffer ++ [d]` as
one batch to the back of the cache; the active buffer is empty when `Add`
returns whatever the delivery did, and the cache is then the old cache
followed by the new batch, less at most two batches at the front. -/
theorem C4_add_fills_batch (env : Env) (c : GEBatchConsumer) (d : Data) (sent : List Request)
    (h : (c.buffer.length : Int) = c.batchSize - 1) :
    Add env c d sent = Flush env { c with buffer := c.buffer ++ [d] } sent ∧
    movedBy (Op.add d) c = some (c.buffer ++ [d]) ∧
    moveBuffer { c with buffer := c.buffer ++ [d] } =
      { c with buffer := [], cacheBuffer := c.cacheBuffer ++ [c.buffer ++ [d]] } ∧
    (Add env c d sent).1.buffer = [] ∧
    ∃ j, j ≤ 2 ∧
      (Add env c d sent).1.cacheBuffer = (c.cacheBuffer ++ [c.buffer ++ [d]]).drop j := by
  have hlen : ((c.buffer ++ [d]).length : Int) ≥ c.batchSize := by
    simp only [List.length_append, List.length_singleton]; push_cast; omega
  have hadd : Add env c d sent = Flush env { c with buffer := c.buffer ++ [d] } sent := by
    unfold Add
    simp only [getBufferLength]
    rw [if_pos (Or.inl hlen)]
  have hne : ¬(({ c with buffer := c.buffer ++ [d] } : GEBatchConsumer).buffer.length = 0 ∧
      ({ c with buffer := c.buffer ++ [d] } : GEBatchConsumer).cacheBuffer.length = 0) := by
    simp
  have hmove : moveBuffer { c with buffer := c.buffer ++ [d] } =
      { c with buffer := [], cacheBuffer := c.cacheBuffer ++ [c.buffer ++ [d]] } := by
    unfold moveBuffer
    rw [if_pos (Or.inr hlen)]
  refine ⟨hadd, ?_, hmove, ?_, ?_⟩
  · unfold movedBy movedBatch
    simp only [getBufferLength]
    rw [if_pos (Or.inl hlen), if_neg hne, if_pos (Or.inr hlen)]
  · rw [hadd]
    unfold Flush
    rw [innerFlush_buffer env _ sent hne, hmove]
  · rw [hadd]
    unfold Flush
    obtain ⟨j, hj, hres⟩ := innerFlush_drop env _ sent hne
    exact ⟨j, hj, by rw [hres, hmove]⟩

/-- C4 at a concrete state: batch size 2, one record buffered, endpoint down. -/
theorem C4_add_fills_batch_witness :
    (sampleOneBuffered.buffer.length : Int) = sampleOneBuffered.batchSize - 1 ∧
    (Add envDown sampleOneBuffered (sampleRecord "b" 2) [] =
        Flush envDown
          { sampleOneBuffered with buffer := sampleOneBuffered.buffer ++ [sampleRecord "b" 2] }
          [] ∧
      movedBy (Op.add (sampleRecord "b" 2)) sampleOneBuffered =
        some (sampleOneBuffered.buffer ++ [sampleRecord "b" 2]) ∧
      moveBuffer
          { sampleOneBuffered with buffer := sampleOneBuffered.buffer ++ [sampleRecord "b" 2] } =
        { sampleOneBuffered with
          buffer := [],
          cacheBuffer :=
            sampleOneBuffered.cacheBuffer ++ [sampleOneBuffered.buffer ++ [sampleRecord "b" 2]] } ∧
      (Add envDown sampleOneBuffered (sampleRecord "b" 2) []).1.buffer = [] ∧
      ∃ j, j ≤ 2 ∧
        (Add envDown sampleOneBuffered (sampleRecord "b" 2) []).1.cacheBuffer =
          (sampleOneBuffered.cacheBuffer ++
            [sampleOneBuffered.buffer ++ [sampleRecord "b" 2]]).drop j) :=
  ⟨by decide, C4_add_fills_batch envDown sampleOneBuffered (sampleRecord "b" 2) [] (by decide)⟩

/-! ## C5: when `Add` flushes -/

/-- C5: `Add d` runs a flush exactly when, after appending `d`, the active
buffer has at least `batchSize` records or the cache is non-empty; otherwise
it only appends and returns `nil`. Hence a sequence of `Add` calls on an
engine with an empty cache that keeps the number of buffered records below
`batchSize` posts no request, returns `nil` every time, leaves the cache empty
and leaves in the buffer the records already there followed by the added
records in call order (exactly the added records when the buffer was empty). -/
theorem C5_add_flush_condition (env : Env) :
    (∀ (c : GEBatchConsumer) (d : Data) (sent : List Request),
      (Add env c d sent = Flush env { c with buffer := c.buffer ++ [d] } sent ↔
        ((c.buffer ++ [d]).length : Int) ≥ c.batchSize ∨ c.cacheBuffer.length > 0) ∧
      (¬(((c.buffer ++ [d]).length : Int) ≥ c.batchSize ∨ c.cacheBuffer.length > 0) →
        Add env c d sent = ({ c with buffer := c.buffer ++ [d] }, sent, Ret.nil))) ∧
    (∀ (c : GEBatchConsumer) (ds : List Data) (sent : List Request),
      c.cacheBuffer = [] →
      ((c.buffer.length + ds.length : Nat) : Int) < c.batchSize →
      (runOps env (ds.map Op.add) c sent).2.1 = sent ∧
      (runOps env (ds.map Op.add) c sent).2.2 = ds.map (fun _ => Ret.nil) ∧
      (runOps env (ds.map Op.add) c sent).1.cacheBuffer = [] ∧
      (runOps env (ds.map Op.add) c sent).1.buffer = c.buffer ++ ds ∧
      (c.buffer = [] → (runOps env (ds.map Op.add) c sent).1.buffer = ds)) := by
  refine ⟨?_, ?_⟩
  · intro c d sent
    have hcond : (getBufferLength { c with buffer := c.buffer ++ [d] } ≥ c.batchSize ∨
          getCacheLength { c with buffer := c.buffer ++ [d] } > 0) ↔
        (((c.buffer ++ [d]).length : Int) ≥ c.batchSize ∨ c.cacheBuffer.length > 0) := by
      simp only [getBufferLength, getCacheLength]
      constructor
      · rintro (h | h)
        · exact Or.inl h
        · exact Or.inr (by exact_mod_cast h)
      · rintro (h | h)
        · exact Or.inl h
        · exact Or.inr (by exact_mod_cast h)
    have hneg : ¬(((c.buffer ++ [d]).length : Int) ≥ c.batchSize ∨ c.cacheBuffer.length > 0) →
        Add env c d sent = ({ c with buffer := c.buffer ++ [d] }, sent, Ret.nil) := by
      intro h
      unfold Add
      simp only
      rw [if_neg (fun h' => h (hcond.mp h'))]
    refine ⟨⟨?_, ?_⟩, hneg⟩
    · intro heq
      by_contra hc
      rw [hneg hc] at heq
      have hne : ¬(({ c with buffer := c.buffer ++ [d] } : GEBatchConsumer).buffer.length = 0 ∧
          ({ c with buffer := c.buffer ++ [d] } : GEBatchConsumer).cacheBuffer.length = 0) := by
        simp
      have hbuf := innerFlush_buffer env { c with buffer := c.buffer ++ [d] } sent hne
      have hempty : c.cacheBuffer.length = 0 := by
        by_contra h0
        exact hc (Or.inr (Nat.pos_of_ne_zero h0))
      have hmv : (moveBuffer { c with buffer := c.buffer ++ [d] }).buffer = [] := by
        unfold moveBuffer
        rw [if_pos (Or.inl hempty)]
      unfold Flush at heq
      rw [← heq, hmv] at hbuf
      simp at hbuf
    · intro h
      unfold Add
      simp only
      rw [if_pos (hcond.mpr h)]
  · intro c ds sent hc hlen
    rw [runOps_adds_below env ds c sent hc hlen]
    refine ⟨rfl, rfl, hc, rfl, ?_⟩
    intro hb
    simp only [hb, List.nil_append]

/-- C5 at a concrete run: batch size 3, two records added to a fresh engine
under an endpoint that would accept. -/
theorem C5_add_flush_condition_witness :
    (sampleEngine 3 1).cacheBuffer = [] ∧
    ((((sampleEngine 3 1).buffer.length +
        [sampleRecord "a" 1, sampleRecord "b" 2].length : Nat) : Int) <
      (sampleEngine 3 1).batchSize) ∧
    (runOps envAccept ([sampleRecord "a" 1, sampleRecord "b" 2].map Op.add)
        (sampleEngine 3 1) []).2.1 = [] ∧
    (runOps envAccept ([sampleRecord "a" 1, sampleRecord "b" 2].map Op.add)
        (sampleEngine 3 1) []).1.buffer = [sampleRecord "a" 1, sampleRecord "b" 2] :=
  ⟨rfl, by decide,
    ((C5_add_flush_condition envAccept).2 (sampleEngine 3 1)
      [sampleRecord "a" 1, sampleRecord "b" 2] [] rfl (by decide)).1,
    ((C5_add_flush_condition envAccept).2 (sampleEngine 3 1)
      [sampleRecord "a" 1, sampleRecord "b" 2] [] rfl (by decide)).2.2.2.2 rfl⟩

/-! ## C6: flushing an empty engine -/

/-- C6: `Flush` on an engine whose active buffer and cache are both empty
returns `nil`, posts no request and leaves the engine as it is; so does any
number of consecutive `Flush` calls from that state. -/
theorem C6_flush_empty_noop (env : Env) (c : GEBatchConsumer) (sent : List Request) (n : Nat)
    (hb : c.buffer = []) (hc : c.cacheBuffer = []) :
    Flush env c sent = (c, sent, Ret.nil) ∧
      runOps env (List.replicate n Op.flush) c sent = (c, sent, List.replicate n Ret.nil) := by
  have h1 : Flush env c sent = (c, sent, Ret.nil) := by
    unfold Flush innerFlush
    rw [if_pos (by rw [hb, hc]; exact ⟨rfl, rfl⟩)]
  refine ⟨h1, ?_⟩
  induction n with
  | zero => rfl
  | succ n ih =>
    simp only [List.replicate_succ, runOps, step, h1, ih]

/-- C6 at a concrete state: three flushes of a fresh engine. -/
theorem C6_flush_empty_noop_witness :
    (sampleEngine 2 1).buffer = [] ∧ (sampleEngine 2 1).cacheBuffer = [] ∧
    Flush envAccept (sampleEngine 2 1) [] = (sampleEngine 2 1, [], Ret.nil) ∧
    runOps envAccept (List.replicate 3 Op.flush) (sampleEngine 2 1) [] =
      (sampleEngine 2 1, [], List.replicate 3 Ret.nil) :=
  ⟨rfl, rfl, C6_flush_empty_noop envAccept (sampleEngine 2 1) [] 3 rfl rfl⟩

/-! ## C7: the retry budget -/

/-- C7: when a batch is delivered (some payload of it can be serialised) and
the endpoint answers the first three attempts with a status other than 200
and no transport error, the delivery posts the same request exactly three
times and then returns an error whose message carries the status code of the
third answer; the retry loop has not returned after one or two passes. The
cache is left as it was. -/
theorem C7_retry_budget (env : Env) (c : GEBatchConsumer) (sent : List Request)
    (b : List Data) (rest : List (List Data)) (hc : c.cacheBuffer = b :: rest)
    (hm : ∃ i ∈ b, jsonMarshalOk ⟨i.ClientId, eventsOf i.ClientId b⟩ = true)
    (hresp : ∀ (extra : List Request) (req : Request), extra.length < 3 →
      ∃ s body, s ≠ 200 ∧ env.Do (sent ++ extra) req = HttpResult.response s body) :
    ∃ i ∈ b, ∃ req s3 body3,
      req = buildRequest c ⟨i.ClientId, eventsOf i.ClientId b⟩ 1 ∧
      env.Do (sent ++ [req, req]) req = HttpResult.response s3 body3 ∧
      uploadEvents env c sent =
        (c, sent ++ [req, req, req],
          Ret.error ("network error, but err is nil. Sgetus code is: " ++ toString s3)) ∧
      sendLoop env ⟨i.ClientId, eventsOf i.ClientId b⟩ 1 0 c sent = (c, sent ++ [req], none) ∧
      sendLoop env ⟨i.ClientId, eventsOf i.ClientId b⟩ 2 0 c sent =
        (c, sent ++ [req, req], none) := by
  obtain ⟨i, hi, -, r, hr, heq⟩ := uploadEvents_first env c sent b rest hc hm
  have hreq : ∃ req, req = buildRequest c ⟨i.ClientId, eventsOf i.ClientId b⟩ 1 := ⟨_, rfl⟩
  obtain ⟨req, hreq⟩ := hreq
  obtain ⟨s1, b1, hs1, h1⟩ := hresp [] req (by simp)
  obtain ⟨s2, b2, hs2, h2⟩ := hresp [req] req (by simp)
  obtain ⟨s3, b3, hs3, h3⟩ := hresp [req, req] req (by simp)
  rw [List.append_nil] at h1
  rw [hreq] at h1 h2 h3
  obtain ⟨p1, p2, p3⟩ := sendLoop_three env _ c sent s1 s2 s3 b1 b2 b3 h1 hs1 h2 hs2 h3 hs3
  rw [p3] at hr heq
  simp only [Option.some.injEq] at hr
  refine ⟨i, hi, req, s3, b3, hreq, ?_, ?_, ?_, ?_⟩
  · rw [hreq]; exact h3
  · rw [heq, ← hr, hreq]
  · rw [hreq]; exact p1
  · rw [hreq]; exact p2

/-- C7 at a concrete state: the endpoint answers 503 to everything. -/
theorem C7_retry_budget_witness :
    sampleTwoBatches.cacheBuffer = [sampleRecord "a" 1] :: [[sampleRecord "b" 2]] ∧
    ∃ i ∈ [sampleRecord "a" 1], ∃ req s3 body3,
      req = buildRequest sampleTwoBatches
        ⟨i.ClientId, eventsOf i.ClientId [sampleRecord "a" 1]⟩ 1 ∧
      env503.Do ([] ++ [req, req]) req = HttpResult.response s3 body3 ∧
      uploadEvents env503 sampleTwoBatches [] =
        (sampleTwoBatches, [] ++ [req, req, req],
          Ret.error ("network error, but err is nil. Sgetus code is: " ++ toString s3)) ∧
      sendLoop env503 ⟨i.ClientId, eventsOf i.ClientId [sampleRecord "a" 1]⟩ 1 0
        sampleTwoBatches [] = (sampleTwoBatches, [] ++ [req], none) ∧
      sendLoop env503 ⟨i.ClientId, eventsOf i.ClientId [sampleRecord "a" 1]⟩ 2 0
        sampleTwoBatches [] = (sampleTwoBatches, [] ++ [req, req], none) :=
  ⟨rfl, C7_retry_budget env503 sampleTwoBatches [] [sampleRecord "a" 1] [[sampleRecord "b" 2]]
    rfl ⟨sampleRecord "a" 1, List.mem_cons_self _ _, by decide⟩
    (fun _ _ _ => ⟨503, Except.ok 0, by decide, rfl⟩)⟩

/-! ## C8: no retry after a transport error or a rejection -/

/-- C8: when a flush delivers batch `b` (some payload of it can be serialised)
and the first attempt ends in a transport error, or in HTTP 200 with a body
that is not code 0 (a non-zero code such as 7, or a body that does not
decode), exactly one request is posted and the flush returns an error at once:
the transport error itself in the first case, "unknown error" in the second. -/
theorem C8_no_retry_on_failure (env : Env) (c : GEBatchConsumer) (sent : List Request)
    (b : List Data) (rest : List (List Data))
    (hc : (moveBuffer c).cacheBuffer = b :: rest)
    (hm : ∃ i ∈ b, jsonMarshalOk ⟨i.ClientId, eventsOf i.ClientId b⟩ = true) :
    (∀ e : String, (∀ req, env.Do sent req = HttpResult.transportError e) →
      ∃ i ∈ b,
        (Flush env c sent).2.1 =
          sent ++ [buildRequest c ⟨i.ClientId, eventsOf i.ClientId b⟩ 1] ∧
        (Flush env c sent).2.2 = Ret.error e) ∧
    (∀ body : Except String Int, body ≠ Except.ok 0 →
      (∀ req, env.Do sent req = HttpResult.response 200 body) →
      ∃ i ∈ b,
        (Flush env c sent).2.1 =
          sent ++ [buildRequest c ⟨i.ClientId, eventsOf i.ClientId b⟩ 1] ∧
        (Flush env c sent).2.2 = Ret.error "unknown error") := by
  refine ⟨?_, ?_⟩
  · intro e he
    exact innerFlush_of_first_pass env c sent b rest hc hm e
      (fun d => sendLoop_transport env d 2 0 (moveBuffer c) sent e (by omega) (he _))
  · intro body hb he
    exact innerFlush_of_first_pass env c sent b rest hc hm "unknown error"
      (fun d => sendLoop_reject env d 2 0 (moveBuffer c) sent body (by omega) (he _) hb)

/-- C8 at a concrete state: the endpoint answers HTTP 200 with code 7. -/
theorem C8_no_retry_on_failure_witness :
    (moveBuffer sampleTwoBatches).cacheBuffer =
      [sampleRecord "a" 1] :: [[sampleRecord "b" 2]] ∧
    (∀ req, envReject.Do [] req = HttpResult.response 200 (Except.ok 7)) ∧
    ∃ i ∈ [sampleRecord "a" 1],
      (Flush envReject sampleTwoBatches []).2.1 =
        [] ++ [buildRequest sampleTwoBatches
          ⟨i.ClientId, eventsOf i.ClientId [sampleRecord "a" 1]⟩ 1] ∧
      (Flush envReject sampleTwoBatches []).2.2 = Ret.error "unknown error" :=
  ⟨by decide, fun _ => rfl,
    (C8_no_retry_on_failure envReject sampleTwoBatches [] [sampleRecord "a" 1]
      [[sampleRecord "b" 2]] (by decide)
      ⟨sampleRecord "a" 1, List.mem_cons_self _ _, by decide⟩).2
      (Except.ok 7) (by simp) (fun _ => rfl)⟩

/-! ## C9: an error leaves the batch in the cache -/

/-- C9: when a flush returns an error, a batch `b` was attempted and the
delivery removed nothing: if the cache length after the attempt is within
`cacheCapacity`, the cache still starts with `b` and is unchanged; only when it
exceeds `cacheCapacity` is one batch dropped, the oldest (which is `b`). -/
theorem C9_error_keeps_batch (env : Env) (c : GEBatchConsumer) (sent : List Request)
    (msg : String) (herr : (Flush env c sent).2.2 = Ret.error msg) :
    ∃ b rest, (moveBuffer c).cacheBuffer = b :: rest ∧
      (uploadEvents env (moveBuffer c) sent).1 = moveBuffer c ∧
      ((((uploadEvents env (moveBuffer c) sent).1.cacheBuffer.length : Int) ≤ c.cacheCapacity →
        (Flush env c sent).1.cacheBuffer = b :: rest) ∧
      (((uploadEvents env (moveBuffer c) sent).1.cacheBuffer.length : Int) > c.cacheCapacity →
        (Flush env c sent).1.cacheBuffer = rest)) := by
  unfold Flush at herr ⊢
  have hne : ¬(c.buffer.length = 0 ∧ c.cacheBuffer.length = 0) := by
    intro h
    unfold innerFlush at herr
    rw [if_pos h] at herr
    exact absurd herr (by simp)
  have hret : (evictOldest (uploadEvents env (moveBuffer c) sent).1
      (uploadEvents env (moveBuffer c) sent).2.2).2 = Ret.error msg := by
    rw [innerFlush_eq env c sent hne] at herr
    exact herr
  have hup : (uploadEvents env (moveBuffer c) sent).2.2 = Ret.error msg := by
    rcases evictOldest_ret_cases (uploadEvents env (moveBuffer c) sent).1
        (uploadEvents env (moveBuffer c) sent).2.2 with h | ⟨m, h⟩
    · rw [← h]; exact hret
    · rw [h] at hret; exact absurd hret (by simp)
  have hst : (uploadEvents env (moveBuffer c) sent).1 = moveBuffer c := by
    rcases uploadEvents_state env (moveBuffer c) sent with h | ⟨-, h, -⟩
    · exact h
    · rw [h] at hup; exact absurd hup (by simp)
  cases hcache : (moveBuffer c).cacheBuffer with
  | nil =>
    exfalso
    unfold uploadEvents at hup
    rw [hcache] at hup
    exact absurd hup (by simp)
  | cons b rest =>
    refine ⟨b, rest, rfl, hst, ?_, ?_⟩
    · intro hle
      rcases innerFlush_cache env c sent hne with ⟨-, hres⟩ | ⟨hu, -, hnil, -⟩
      · rw [hst] at hle
        rw [hres, if_neg (by omega), hcache]
      · rw [hst] at hu
        have := congrArg (fun x => x.cacheBuffer.length) hu
        simp [dropHead, hcache] at this
    · intro hgt
      rcases innerFlush_cache env c sent hne with ⟨-, hres⟩ | ⟨hu, -, hnil, -⟩
      · rw [hst] at hgt
        rw [hres, if_pos hgt, hcache]; rfl
      · rw [hst] at hu
        have := congrArg (fun x => x.cacheBuffer.length) hu
        simp [dropHead, hcache] at this

/-- C9 at a concrete state: two batches wait, capacity 2, endpoint down. -/
theorem C9_error_keeps_batch_witness :
    (Flush envDown sampleTwoBatches []).2.2 = Ret.error "connection refused" ∧
    ∃ b rest, (moveBuffer sampleTwoBatches).cacheBuffer = b :: rest ∧
      (uploadEvents envDown (moveBuffer sampleTwoBatches) []).1 = moveBuffer sampleTwoBatches ∧
      ((((uploadEvents envDown (moveBuffer sampleTwoBatches) []).1.cacheBuffer.length : Int) ≤
          sampleTwoBatches.cacheCapacity →
        (Flush envDown sampleTwoBatches []).1.cacheBuffer = b :: rest) ∧
      (((uploadEvents envDown (moveBuffer sampleTwoBatches) []).1.cacheBuffer.length : Int) >
          sampleTwoBatches.cacheCapacity →
        (Flush envDown sampleTwoBatches []).1.cacheBuffer = rest)) :=
  ⟨by decide, C9_error_keeps_batch envDown sampleTwoBatches [] "connection refused" (by decide)⟩

/-! ## C10: one payload per client id -/

/-- The payloads of a delivery, on records without spare capacity: for the
batch `b` being delivered, the map built by `uploadEvents` has exactly one
entry for each client id of `b`, and its event list is the concatenation of the
event lists of that client's records in the order they appear in `b`; every
request the delivery posts carries one of these entries as its payload, and
two posted requests for the same client id are the same request (a retry); and
when all records of `b` share one client id and the payload can be serialised,
that payload is posted, between one and three times, and nothing else is. -/
theorem uploadEvents_grouping (env : Env) (c : GEBatchConsumer) (sent : List Request)
    (b : List Data) (rest : List (List Data)) (hc : c.cacheBuffer = b :: rest) :
    (∀ i ∈ b, (groupByClient b).filter (fun g => decide (g.1 = i.ClientId)) =
      [(i.ClientId, eventsOf i.ClientId b)]) ∧
    (∃ new, (uploadEvents env c sent).2.1 = sent ++ new ∧
      (∀ r ∈ new, ∃ i ∈ b, r = buildRequest c ⟨i.ClientId, eventsOf i.ClientId b⟩ 1) ∧
      (∀ r1 ∈ new, ∀ r2 ∈ new, r1.body.ClientId = r2.body.ClientId → r1 = r2)) ∧
    (∀ clientId : String, b ≠ [] → (∀ i ∈ b, i.ClientId = clientId) →
      jsonMarshalOk ⟨clientId, eventsOf clientId b⟩ = true →
      ∃ n, 1 ≤ n ∧ n ≤ 3 ∧ (uploadEvents env c sent).2.1 =
        sent ++ List.replicate n (buildRequest c ⟨clientId, eventsOf clientId b⟩ 1)) := by
  refine ⟨?_, ?_, ?_⟩
  · intro i hi
    exact filter_key_of_mem _ (groupLoop_nodup b [] (by simp)) _ _ (groupByClient_get b i hi)
  · obtain ⟨new, hnew, hall⟩ := uploadEvents_sent env c sent b rest hc
    refine ⟨new, hnew, hall, ?_⟩
    intro r1 h1 r2 h2 hid
    obtain ⟨i1, -, e1⟩ := hall r1 h1
    obtain ⟨i2, -, e2⟩ := hall r2 h2
    rw [e1, e2] at hid
    simp only [buildRequest] at hid
    rw [e1, e2, hid]
  · intro clientId hb hall hm
    obtain ⟨i0, hi0⟩ := List.exists_mem_of_ne_nil b hb
    have hm0 : ∃ i ∈ b, jsonMarshalOk ⟨i.ClientId, eventsOf i.ClientId b⟩ = true :=
      ⟨i0, hi0, by rw [hall i0 hi0]; exact hm⟩
    obtain ⟨i, hi, -, r, -, heq⟩ := uploadEvents_first env c sent b rest hc hm0
    rw [hall i hi] at heq
    obtain ⟨n, h1, h3, hn⟩ := sendLoop_sent_pos env ⟨clientId, eventsOf clientId b⟩ 2 0 c sent
      (by omega)
    exact ⟨n, h1, h3, by rw [heq]; exact hn⟩

/-- C10, evaluated where it fails: batch size 3, an endpoint that accepts
everything, and records of the clients "a", "b", "a" added in this order. When
the map iteration visits "b" first, the flush of the third `Add` posts the
request of "b" alone, returns `nil` and removes the batch: the two records that
share the client id "a" are in no request (when "a" is visited first they are
posted together, the events 1 and 3 in this order). And for three records of
one client id whose event lists are windows of one array (`sampleSharedBatch`,
holding the events 1, 2 and 9), the payload holds the events 1, 2, 2: `append`
wrote the event of the second record over the event of the third. -/
theorem C10_same_client_records_lost :
    initBatchConsumer sampleMake sampleParse (sampleConfig 3 50) = Except.ok (sampleEngine 3 50) ∧
    runOps envAcceptSecond
        [Op.add (sampleRecord "a" 1), Op.add (sampleRecord "b" 2), Op.add (sampleRecord "a" 3)]
        (sampleEngine 3 50) [] =
      (sampleEngine 3 50, [buildRequest (sampleEngine 3 50) (sampleRecord "b" 2) 1],
        [Ret.nil, Ret.nil, Ret.nil]) ∧
    (∀ r ∈ (runOps envAcceptSecond
        [Op.add (sampleRecord "a" 1), Op.add (sampleRecord "b" 2), Op.add (sampleRecord "a" 3)]
        (sampleEngine 3 50) []).2.1, r.body.ClientId ≠ "a") ∧
    runOps envAccept
        [Op.add (sampleRecord "a" 1), Op.add (sampleRecord "b" 2), Op.add (sampleRecord "a" 3)]
        (sampleEngine 3 50) [] =
      (sampleEngine 3 50,
        [buildRequest (sampleEngine 3 50) ⟨"a", [sampleEvent 1, sampleEvent 3]⟩ 1],
        [Ret.nil, Ret.nil, Ret.nil]) ∧
    sampleSharedBatch.map (viewData sampleMemory) =
      [sampleRecord "a" 1, sampleRecord "a" 2, sampleRecord "a" 9] ∧
    eventsOf "a" [sampleRecord "a" 1, sampleRecord "a" 2, sampleRecord "a" 9] =
      [sampleEvent 1, sampleEvent 2, sampleEvent 9] ∧
    (groupByClientMem sampleGrow sampleMemory sampleSharedBatch).2 =
      [("a", [sampleEvent 1, sampleEvent 2, sampleEvent 2])] := by
  refine ⟨rfl, by decide, by decide, by decide, by decide, by decide, by decide⟩

/-! ## C11: one request for each client id of a batch -/

/-- C11, evaluated where it fails: batch size 2, an endpoint that accepts
everything, one record of client "a" and one of client "b". The flush of the
second `Add` posts a single request, for the client id the map iteration
visits first ("a" under one order, "b" under the other), returns `nil` and
removes the whole batch: the record of the other client is in no request and
in no queue. -/
theorem C11_only_first_group_posted :
    initBatchConsumer sampleMake sampleParse (sampleConfig 2 50) = Except.ok (sampleEngine 2 50) ∧
    runOps envAccept [Op.add (sampleRecord "a" 1), Op.add (sampleRecord "b" 2)]
        (sampleEngine 2 50) [] =
      (sampleEngine 2 50, [buildRequest (sampleEngine 2 50) (sampleRecord "a" 1) 1],
        [Ret.nil, Ret.nil]) ∧
    runOps envAcceptSecond [Op.add (sampleRecord "a" 1), Op.add (sampleRecord "b" 2)]
        (sampleEngine 2 50) [] =
      (sampleEngine 2 50, [buildRequest (sampleEngine 2 50) (sampleRecord "b" 2) 1],
        [Ret.nil, Ret.nil]) ∧
    (∀ r ∈ (runOps envAccept [Op.add (sampleRecord "a" 1), Op.add (sampleRecord "b" 2)]
        (sampleEngine 2 50) []).2.1, r.body.ClientId ≠ "b") ∧
    (∀ r ∈ (runOps envAcceptSecond [Op.add (sampleRecord "a" 1), Op.add (sampleRecord "b" 2)]
        (sampleEngine 2 50) []).2.1, r.body.ClientId ≠ "a") := by
  refine ⟨rfl, by decide, by decide, by decide, by decide⟩

/-- The defect in general: a flush that is accepted posts one request, for one
client id of the batch, and removes the batch from the head of the cache; when the batch holds two
records of different client ids, one of them is in no request of the flush. -/
theorem innerFlush_skips_client (env : Env) (c : GEBatchConsumer) (sent : List Request)
    (b : List Data) (rest : List (List Data)) (hc : c.cacheBuffer = b :: rest)
    (hcap : (c.cacheBuffer.length : Int) ≤ c.cacheCapacity)
    (hall : ∀ b ∈ c.cacheBuffer, b ≠ [])
    (hser : AllSerialisable c)
    (hacc : ∀ req, env.Do sent req = HttpResult.response 200 (Except.ok 0))
    (i1 i2 : Data) (h1 : i1 ∈ b) (h2 : i2 ∈ b) (hdiff : i1.ClientId ≠ i2.ClientId) :
    ∃ req, (Flush env c sent).2.1 = sent ++ [req] ∧ (Flush env c sent).2.2 = Ret.nil ∧
      (Flush env c sent).1.cacheBuffer = rest ++ (movedBatch c).toList ∧
      ∃ i ∈ b, i.ClientId ≠ req.body.ClientId := by
  have hne : ¬(c.buffer.length = 0 ∧ c.cacheBuffer.length = 0) := by rw [hc]; simp
  obtain ⟨b', rest', i, hcache, hi, hflush⟩ := innerFlush_accepted env c sent hne hcap hall hser hacc
  have hm : (moveBuffer c).cacheBuffer = b :: (rest ++ (movedBatch c).toList) := by
    rw [moveBuffer_cache c hne, hc]; rfl
  rw [hm] at hcache
  simp only [List.cons.injEq] at hcache
  obtain ⟨hb, hrest⟩ := hcache
  subst hb
  unfold Flush
  rw [hflush]
  refine ⟨_, rfl, rfl, ?_, ?_⟩
  · simp only [dropHead, hm, List.tail_cons]
  · simp only [buildRequest]
    by_cases hi1 : i1.ClientId = i.ClientId
    · exact ⟨i2, h2, fun h => hdiff (hi1.trans h.symm)⟩
    · exact ⟨i1, h1, hi1⟩

/-! ## C12: `Close` drains the engine -/

/-- C12: in every state reached from a fresh engine, if the endpoint accepts
every request from then on and every queued record can be serialised, `Close`
(`FlushAll`) ends within `len(cache) + 1` calls of `Flush`, returns `nil` and
leaves the active buffer and the cache empty (more fuel gives the same
result); and whenever `FlushAll` returns `nil`, on any state under any
endpoint, the buffer and the cache are both empty. -/
theorem C12_close_drains (canMake : Int → Bool)
    (urlParse : String → Except String String) (config : GEBatchConfig) (c0 : GEBatchConsumer)
    (h0 : initBatchConsumer canMake urlParse config = Except.ok c0)
    (env : Env) (ops : List Op) (sent0 : List Request)
    (c : GEBatchConsumer) (sent : List Request) (rs : List Ret)
    (hrun : runOps env ops c0 sent0 = (c, sent, rs))
    (hser : AllSerialisable c) (hacc : AcceptsAfter env sent) :
    (∃ c' sent', Close env (c.cacheBuffer.length + 1) c sent = some (c', sent', Ret.nil) ∧
      c'.buffer = [] ∧ c'.cacheBuffer = [] ∧
      ∀ fuel, c.cacheBuffer.length + 1 ≤ fuel →
        Close env fuel c sent = some (c', sent', Ret.nil)) ∧
    (∀ (env' : Env) (fuel : Nat) (c1 : GEBatchConsumer) (s1 : List Request)
        (c2 : GEBatchConsumer) (s2 : List Request),
      FlushAll env' fuel c1 s1 = some (c2, s2, Ret.nil) →
      c2.buffer = [] ∧ c2.cacheBuffer = []) := by
  obtain ⟨-, hc0, hbs, -, hN⟩ := initBatchConsumer_fresh canMake urlParse config c0 h0
  have hb := runOps_bound env ops c0 sent0 (by
    rw [hc0]; simp only [List.length_nil, Nat.cast_zero]; omega)
  have hn := runOps_nonempty env ops c0 sent0 hbs (by rw [hc0]; simp)
  rw [hrun] at hb hn
  simp only at hb hn
  obtain ⟨c', sent', hfa, h1, h2⟩ := FlushAll_drains env (pendingFlushes c) c sent
    (by rw [hn.1]; exact hbs) (by rw [hb.1]; exact hb.2) hn.2.1 hser hacc rfl
  have hle : pendingFlushes c ≤ c.cacheBuffer.length + 1 := by
    unfold pendingFlushes; split_ifs <;> omega
  refine ⟨⟨c', sent', ?_, h1, h2, ?_⟩, ?_⟩
  · exact FlushAll_fuel_le env _ _ hle c sent _ hfa
  · intro fuel hf
    exact FlushAll_fuel_le env _ _ (by omega) c sent _ hfa
  · intro env' fuel c1 s1 c2 s2 h
    exact FlushAll_nil_empty env' fuel c1 s1 c2 s2 h

/-- C12 at a concrete state: two batches queued while the endpoint was down;
the endpoint then accepts and `Close` delivers both. -/
theorem C12_close_drains_witness :
    initBatchConsumer sampleMake sampleParse (sampleConfig 1 2) = Except.ok (sampleEngine 1 2) ∧
    runOps envRecovers [Op.add (sampleRecord "a" 1), Op.add (sampleRecord "b" 2)]
        (sampleEngine 1 2) [] =
      (sampleTwoBatches, [sampleRequest, sampleRequest],
        [Ret.error "connection refused", Ret.error "connection refused"]) ∧
    AllSerialisable sampleTwoBatches ∧
    AcceptsAfter envRecovers [sampleRequest, sampleRequest] ∧
    Close envRecovers 3 sampleTwoBatches [sampleRequest, sampleRequest] =
      some (sampleEngine 1 2,
        [sampleRequest, sampleRequest, sampleRequest,
          buildRequest (sampleEngine 1 2) (sampleRecord "b" 2) 1], Ret.nil) ∧
    ((∃ c' sent', Close envRecovers (sampleTwoBatches.cacheBuffer.length + 1) sampleTwoBatches
          [sampleRequest, sampleRequest] = some (c', sent', Ret.nil) ∧
      c'.buffer = [] ∧ c'.cacheBuffer = [] ∧
      ∀ fuel, sampleTwoBatches.cacheBuffer.length + 1 ≤ fuel →
        Close envRecovers fuel sampleTwoBatches [sampleRequest, sampleRequest] =
          some (c', sent', Ret.nil)) ∧
    (∀ (env' : Env) (fuel : Nat) (c1 : GEBatchConsumer) (s1 : List Request)
        (c2 : GEBatchConsumer) (s2 : List Request),
      FlushAll env' fuel c1 s1 = some (c2, s2, Ret.nil) →
      c2.buffer = [] ∧ c2.cacheBuffer = [])) :=
  have hser : AllSerialisable sampleTwoBatches := by
    refine ⟨by simp [sampleTwoBatches, sampleEngine], ?_⟩
    intro b hb i hi
    simp only [sampleTwoBatches, List.mem_cons, List.mem_singleton] at hb
    rcases hb with rfl | rfl | hb
    · simp only [List.mem_singleton] at hi; subst hi; rfl
    · simp only [List.mem_singleton] at hi; subst hi; rfl
    · simp at hb
  have hacc : AcceptsAfter envRecovers [sampleRequest, sampleRequest] := by
    intro extra req
    simp [envRecovers]
  ⟨rfl, by decide, hser, hacc, by decide,
    C12_close_drains sampleMake sampleParse (sampleConfig 1 2) (sampleEngine 1 2) rfl envRecovers
      [Op.add (sampleRecord "a" 1), Op.add (sampleRecord "b" 2)] []
      sampleTwoBatches [sampleRequest, sampleRequest]
      [Ret.error "connection refused", Ret.error "connection refused"]
      (by decide) hser hacc⟩

/-! ## C13: three records with batch size 2 -/

/-- A flush on an empty cache whose buffer holds serialisable records of one
client, under an endpoint that accepts: the buffer is posted as one request
and nothing stays queued. -/
theorem innerFlush_one_client (env : Env) (c : GEBatchConsumer) (sent : List Request)
    (clientId : String) (hc : c.cacheBuffer = []) (hb : c.buffer ≠ [])
    (hcap : 0 ≤ c.cacheCapacity)
    (hid : ∀ i ∈ c.buffer, i.ClientId = clientId)
    (hser : ∀ i ∈ c.buffer, jsonMarshalOk i = true)
    (hacc : ∀ req, env.Do sent req = HttpResult.response 200 (Except.ok 0)) :
    innerFlush env c sent =
      ({ c with buffer := [], cacheBuffer := [] },
        sent ++ [buildRequest c ⟨clientId, eventsOf clientId c.buffer⟩ 1], Ret.nil) := by
  have hne : ¬(c.buffer.length = 0 ∧ c.cacheBuffer.length = 0) := by
    intro h; exact hb (List.length_eq_zero.mp h.1)
  have hmv : moveBuffer c = { c with buffer := [], cacheBuffer := [c.buffer] } := by
    unfold moveBuffer
    rw [if_pos (Or.inl (by rw [hc]; rfl)), hc]
    rfl
  obtain ⟨b, rest, i, hcache, hi, hflush⟩ := innerFlush_accepted env c sent hne
    (by rw [hc]; simpa using hcap) (by rw [hc]; simp) ⟨hser, by rw [hc]; simp⟩ hacc
  rw [hmv] at hcache
  simp only [List.cons.injEq] at hcache
  obtain ⟨hbb, -⟩ := hcache
  subst hbb
  rw [hflush, hid i hi, hmv]
  rfl

/-- C13, as the code has it: batch size 2, a fresh engine, an endpoint that
accepts every request, three serialisable records of client "c1". The first
`Add` only buffers; the second `Add` runs a flush, and that flush itself
delivers the first two records as one request; the third `Add` leaves its
record alone in the active buffer; the explicit `Flush` delivers the third
record; `Close` then finds nothing queued, posts nothing and returns `nil`. -/
theorem C13_three_records (canMake : Int → Bool)
    (urlParse : String → Except String String) (config : GEBatchConfig) (c0 : GEBatchConsumer)
    (h0 : initBatchConsumer canMake urlParse config = Except.ok c0)
    (hbs : config.BatchSize = 2)
    (env : Env) (hacc : AcceptsAfter env [])
    (r1 r2 r3 : Data)
    (h1 : r1.ClientId = "c1") (h2 : r2.ClientId = "c1") (h3 : r3.ClientId = "c1")
    (hs1 : jsonMarshalOk r1 = true) (hs2 : jsonMarshalOk r2 = true)
    (hs3 : jsonMarshalOk r3 = true) (fuel : Nat) :
    Add env c0 r1 [] = ({ c0 with buffer := [r1] }, [], Ret.nil) ∧
    Add env { c0 with buffer := [r1] } r2 [] = Flush env { c0 with buffer := [r1, r2] } [] ∧
    Add env { c0 with buffer := [r1] } r2 [] =
      (c0, [buildRequest c0 ⟨"c1", r1.EventList ++ r2.EventList⟩ 1], Ret.nil) ∧
    Add env c0 r3 [buildRequest c0 ⟨"c1", r1.EventList ++ r2.EventList⟩ 1] =
      ({ c0 with buffer := [r3] },
        [buildRequest c0 ⟨"c1", r1.EventList ++ r2.EventList⟩ 1], Ret.nil) ∧
    Flush env { c0 with buffer := [r3] }
        [buildRequest c0 ⟨"c1", r1.EventList ++ r2.EventList⟩ 1] =
      (c0, [buildRequest c0 ⟨"c1", r1.EventList ++ r2.EventList⟩ 1,
        buildRequest c0 ⟨"c1", r3.EventList⟩ 1], Ret.nil) ∧
    Close env fuel c0 [buildRequest c0 ⟨"c1", r1.EventList ++ r2.EventList⟩ 1,
        buildRequest c0 ⟨"c1", r3.EventList⟩ 1] =
      some (c0, [buildRequest c0 ⟨"c1", r1.EventList ++ r2.EventList⟩ 1,
        buildRequest c0 ⟨"c1", r3.EventList⟩ 1], Ret.nil) := by
  obtain ⟨hb0, hc0, -, -, hN⟩ := initBatchConsumer_fresh canMake urlParse config c0 h0
  have hsize : c0.batchSize = 2 := by
    rw [(initBatchConsumer_sizes canMake urlParse config c0 h0).1, hbs]
    rfl
  obtain ⟨url, comp, buf, bs, cache, cap⟩ := c0
  simp only at hb0 hc0 hsize hN
  subst hb0 hc0 hsize
  have hacc' : ∀ (sent : List Request) (req : Request),
      env.Do sent req = HttpResult.response 200 (Except.ok 0) := by
    intro sent req
    have := hacc sent req
    rwa [List.nil_append] at this
  have hadd1 : ∀ (r : Data) (sent : List Request),
      Add env ⟨url, comp, [], 2, [], cap⟩ r sent = (⟨url, comp, [r], 2, [], cap⟩, sent, Ret.nil) := by
    intro r sent
    unfold Add
    simp [getBufferLength, getCacheLength]
  have hflush12 := innerFlush_one_client env ⟨url, comp, [r1, r2], 2, [], cap⟩ [] "c1" rfl
    (by simp) (by simp only; omega) (by simp [h1, h2]) (by simp [hs1, hs2]) (hacc' _)
  have hflush3 := innerFlush_one_client env ⟨url, comp, [r3], 2, [], cap⟩
    [buildRequest ⟨url, comp, [], 2, [], cap⟩ ⟨"c1", r1.EventList ++ r2.EventList⟩ 1] "c1" rfl
    (by simp) (by simp only; omega) (by simp [h3]) (by simp [hs3]) (hacc' _)
  simp only [eventsOf, h1, h2, h3, if_true, List.append_nil, List.nil_append] at hflush12 hflush3
  have hadd2 : Add env ⟨url, comp, [r1], 2, [], cap⟩ r2 [] =
      Flush env ⟨url, comp, [r1, r2], 2, [], cap⟩ [] := by
    unfold Add
    simp [getBufferLength, getCacheLength]
  refine ⟨hadd1 r1 [], hadd2, ?_, hadd1 r3 _, ?_, ?_⟩
  · rw [hadd2]
    unfold Flush
    rw [hflush12]
    rfl
  · unfold Flush
    rw [hflush3]
    rfl
  · cases fuel with
    | zero => simp [Close, FlushAll, getBufferLength, getCacheLength]
    | succ n => simp [Close, FlushAll, getBufferLength, getCacheLength]

/-- C13 as the code has it, at concrete records: three records of client "c1"
on a fresh engine of batch size 2 under an endpoint that accepts. -/
theorem C13_three_records_witness :
    initBatchConsumer sampleMake sampleParse (sampleConfig 2 50) = Except.ok (sampleEngine 2 50) ∧
    (sampleConfig 2 50).BatchSize = 2 ∧
    AcceptsAfter envAccept [] ∧
    (Add envAccept (sampleEngine 2 50) (sampleRecord "c1" 1) [] =
      ({ sampleEngine 2 50 with buffer := [sampleRecord "c1" 1] }, [], Ret.nil) ∧
    Add envAccept { sampleEngine 2 50 with buffer := [sampleRecord "c1" 1] }
        (sampleRecord "c1" 2) [] =
      Flush envAccept
        { sampleEngine 2 50 with buffer := [sampleRecord "c1" 1, sampleRecord "c1" 2] } [] ∧
    Add envAccept { sampleEngine 2 50 with buffer := [sampleRecord "c1" 1] }
        (sampleRecord "c1" 2) [] = (sampleEngine 2 50, [sampleFirstTwo], Ret.nil) ∧
    Add envAccept (sampleEngine 2 50) (sampleRecord "c1" 3) [sampleFirstTwo] =
      ({ sampleEngine 2 50 with buffer := [sampleRecord "c1" 3] }, [sampleFirstTwo], Ret.nil) ∧
    Flush envAccept { sampleEngine 2 50 with buffer := [sampleRecord "c1" 3] } [sampleFirstTwo] =
      (sampleEngine 2 50, [sampleFirstTwo, sampleThird], Ret.nil) ∧
    Close envAccept 1 (sampleEngine 2 50) [sampleFirstTwo, sampleThird] =
      some (sampleEngine 2 50, [sampleFirstTwo, sampleThird], Ret.nil)) :=
  ⟨rfl, rfl, fun _ _ => rfl,
    C13_three_records sampleMake sampleParse (sampleConfig 2 50) (sampleEngine 2 50) rfl rfl envAccept
      (fun _ _ => rfl) (sampleRecord "c1" 1) (sampleRecord "c1" 2) (sampleRecord "c1" 3)
      rfl rfl rfl rfl rfl rfl 1⟩

/-- C13 as stated fails: on the fresh engine of batch size 2 under the
accepting endpoint, the three `Add` calls already post the request carrying
the first two records (the second `Add` delivers them); the explicit `Flush`
posts one request, carrying the third record and neither of the first two;
and `Close` posts no request at all, so it does not deliver the third. -/
theorem C13_flush_close_counterexample :
    initBatchConsumer sampleMake sampleParse (sampleConfig 2 50) = Except.ok (sampleEngine 2 50) ∧
    runOps envAccept
        [Op.add (sampleRecord "c1" 1), Op.add (sampleRecord "c1" 2), Op.add (sampleRecord "c1" 3)]
        (sampleEngine 2 50) [] =
      ({ sampleEngine 2 50 with buffer := [sampleRecord "c1" 3] }, [sampleFirstTwo],
        [Ret.nil, Ret.nil, Ret.nil]) ∧
    Flush envAccept { sampleEngine 2 50 with buffer := [sampleRecord "c1" 3] } [sampleFirstTwo] =
      (sampleEngine 2 50, [sampleFirstTwo, sampleThird], Ret.nil) ∧
    ¬(∃ r ∈ (Flush envAccept { sampleEngine 2 50 with buffer := [sampleRecord "c1" 3] }
          [sampleFirstTwo]).2.1.drop [sampleFirstTwo].length,
        sampleEvent 1 ∈ r.body.EventList ∨ sampleEvent 2 ∈ r.body.EventList) ∧
    Close envAccept 1 (sampleEngine 2 50) [sampleFirstTwo, sampleThird] =
      some (sampleEngine 2 50, [sampleFirstTwo, sampleThird], Ret.nil) ∧
    ¬(∃ c' sent', Close envAccept 1 (sampleEngine 2 50) [sampleFirstTwo, sampleThird] =
          some (c', sent', Ret.nil) ∧
        ∃ r ∈ sent'.drop [sampleFirstTwo, sampleThird].length,
          sampleEvent 3 ∈ r.body.EventList) := by
  refine ⟨rfl, by decide, by decide, by decide, by decide, ?_⟩
  rintro ⟨c', sent', h, r, hr, -⟩
  have heq : Close envAccept 1 (sampleEngine 2 50) [sampleFirstTwo, sampleThird] =
      some (sampleEngine 2 50, [sampleFirstTwo, sampleThird], Ret.nil) := by decide
  rw [heq] at h
  simp only [Option.some.injEq, Prod.mk.injEq] at h
  rw [← h.2.1] at hr
  simp at hr

/-! ## C14: the configuration of a new engine -/

/-- C14: with an empty `ServerUrl` construction returns the error "ServerUrl
not be empty" and no engine; an engine that is constructed has a non-empty
`ServerUrl`, batch size 200 when `BatchSize > 200`, 20 when `BatchSize ≤ 0` and
`BatchSize` otherwise, hence in `(0, 200]`, and capacity 50 when
`CacheCapacity ≤ 0` and `CacheCapacity` otherwise, hence positive; and when the
non-empty `ServerUrl` parses, the engine is constructed if the runtime
allocates a cache of that capacity, and construction panics if it does not. -/
theorem C14_init_clamps (canMake : Int → Bool) (urlParse : String → Except String String)
    (config : GEBatchConfig) :
    (config.ServerUrl = "" →
      initBatchConsumer canMake urlParse config =
        Except.error (InitFailure.error "ServerUrl not be empty")) ∧
    (∀ c, initBatchConsumer canMake urlParse config = Except.ok c →
      config.ServerUrl ≠ "" ∧
      c.batchSize = (if config.BatchSize > 200 then 200
        else if config.BatchSize ≤ 0 then 20 else config.BatchSize) ∧
      0 < c.batchSize ∧ c.batchSize ≤ 200 ∧
      c.cacheCapacity = (if config.CacheCapacity ≤ 0 then 50 else config.CacheCapacity) ∧
      0 < c.cacheCapacity) ∧
    (config.ServerUrl ≠ "" → ∀ u, urlParse config.ServerUrl = Except.ok u →
      (canMake (if config.CacheCapacity ≤ 0 then 50 else config.CacheCapacity) = true →
        ∃ c, initBatchConsumer canMake urlParse config = Except.ok c) ∧
      (canMake (if config.CacheCapacity ≤ 0 then 50 else config.CacheCapacity) = false →
        initBatchConsumer canMake urlParse config =
          Except.error (InitFailure.panic "runtime error: makeslice: cap out of range"))) := by
  refine ⟨?_, ?_, ?_⟩
  · intro h
    unfold initBatchConsumer
    rw [if_pos h]
  · intro c h
    unfold initBatchConsumer at h
    by_cases hs : config.ServerUrl = ""
    · rw [if_pos hs] at h; cases h
    · rw [if_neg hs] at h
      cases hu : urlParse config.ServerUrl with
      | error e => rw [hu] at h; cases h
      | ok u =>
        rw [hu] at h
        simp only [] at h
        by_cases hm : canMake (if config.CacheCapacity ≤ 0 then DefaultCacheCapacity
            else config.CacheCapacity) = true
        · rw [if_pos hm] at h
          simp only [Except.ok.injEq] at h
          subst h
          refine ⟨hs, rfl, ?_, ?_, rfl, ?_⟩ <;>
            simp only [MaxBatchSize, DefaultBatchSize, DefaultCacheCapacity] <;>
            split_ifs <;> omega
        · rw [if_neg hm] at h; cases h
  · intro hs u hu
    unfold initBatchConsumer
    rw [if_neg hs, hu]
    simp only [DefaultCacheCapacity]
    constructor
    · intro hm
      rw [if_pos hm]
      exact ⟨_, rfl⟩
    · intro hm
      rw [if_neg (by rw [hm]; exact Bool.false_ne_true)]

/-- C14 at concrete configurations: a batch size of 500 and a capacity of -3
are replaced by 200 and 50; an empty endpoint gives an error. -/
theorem C14_init_clamps_witness :
    initBatchConsumer sampleMake sampleParse (sampleConfig 500 (-3)) =
      Except.ok (sampleEngine 200 50) ∧
    initBatchConsumer sampleMake sampleParse { sampleConfig 500 (-3) with ServerUrl := "" } =
      Except.error (InitFailure.error "ServerUrl not be empty") ∧
    ((sampleConfig 500 (-3)).ServerUrl ≠ "" ∧
      (sampleEngine 200 50).batchSize = (if (sampleConfig 500 (-3)).BatchSize > 200 then 200
        else if (sampleConfig 500 (-3)).BatchSize ≤ 0 then 20
        else (sampleConfig 500 (-3)).BatchSize) ∧
      0 < (sampleEngine 200 50).batchSize ∧ (sampleEngine 200 50).batchSize ≤ 200 ∧
      (sampleEngine 200 50).cacheCapacity =
        (if (sampleConfig 500 (-3)).CacheCapacity ≤ 0 then 50
          else (sampleConfig 500 (-3)).CacheCapacity) ∧
      0 < (sampleEngine 200 50).cacheCapacity) ∧
    initBatchConsumer sampleMake sampleParse (sampleConfig 20 9223372036854775807) =
      Except.error (InitFailure.panic "runtime error: makeslice: cap out of range") :=
  ⟨rfl,
    (C14_init_clamps sampleMake sampleParse { sampleConfig 500 (-3) with ServerUrl := "" }).1 rfl,
    (C14_init_clamps sampleMake sampleParse (sampleConfig 500 (-3))).2.1 (sampleEngine 200 50) rfl,
    ((C14_init_clamps sampleMake sampleParse (sampleConfig 20 9223372036854775807)).2.2
      (by decide) "http://localhost" rfl).2 rfl⟩

/-! ## C15: `Add` after `Close` -/

/-- C15, evaluated where it fails: `Close` on a fresh engine returns `nil`
and leaves the engine as it was (there is no closed flag to set); the `Add`
that follows returns `nil` and the record is in the active buffer. A closed
engine that still held a batch behaves the same once drained. -/
theorem C15_add_after_close_accepted :
    initBatchConsumer sampleMake sampleParse (sampleConfig 2 50) = Except.ok (sampleEngine 2 50) ∧
    Close envAccept 1 (sampleEngine 2 50) [] = some (sampleEngine 2 50, [], Ret.nil) ∧
    Add envAccept (sampleEngine 2 50) (sampleRecord "a" 1) [] =
      ({ sampleEngine 2 50 with buffer := [sampleRecord "a" 1] }, [], Ret.nil) ∧
    Close envRecovers 3 sampleTwoBatches [sampleRequest, sampleRequest] =
      some (sampleEngine 1 2,
        [sampleRequest, sampleRequest, sampleRequest,
          buildRequest (sampleEngine 1 2) (sampleRecord "b" 2) 1], Ret.nil) ∧
    (Add envRecovers (sampleEngine 1 2) (sampleRecord "a" 3)
        [sampleRequest, sampleRequest, sampleRequest,
          buildRequest (sampleEngine 1 2) (sampleRecord "b" 2) 1]).2.2 = Ret.nil ∧
    (Add envRecovers (sampleEngine 1 2) (sampleRecord "a" 3)
        [sampleRequest, sampleRequest, sampleRequest,
          buildRequest (sampleEngine 1 2) (sampleRecord "b" 2) 1]).2.1 =
      [sampleRequest, sampleRequest, sampleRequest,
        buildRequest (sampleEngine 1 2) (sampleRecord "b" 2) 1,
        buildRequest (sampleEngine 1 2) (sampleRecord "a" 3) 1] := by
  refine ⟨rfl, by decide, by decide, by decide, by decide, by decide⟩

/-- The defect in general: whenever `Close` has returned `nil`, an `Add` on the
engine it leaves is taken like any other; with a batch size of 2 or more it
returns `nil` and the record is the content of the active buffer. -/
theorem Add_after_Close (env : Env) (fuel : Nat) (c : GEBatchConsumer) (sent : List Request)
    (c' : GEBatchConsumer) (sent' : List Request) (d : Data)
    (hclose : Close env fuel c sent = some (c', sent', Ret.nil))
    (hbs : 2 ≤ c'.batchSize) :
    Add env c' d sent' = ({ c' with buffer := [d] }, sent', Ret.nil) := by
  obtain ⟨hb, hc⟩ := FlushAll_nil_empty env fuel c sent c' sent' hclose
  unfold Add
  simp only [getBufferLength, getCacheLength, hb, hc, List.nil_append, List.length_singleton,
    List.length_nil]
  rw [if_neg]
  rintro (h | h)
  · simp only [Nat.cast_one] at h; omega
  · simp at h

/-! ## C16: a record that cannot be serialised -/

/-- When no entry of the map can be serialised the second loop of
`uploadEvents` posts nothing, changes nothing and returns `nil`. -/
theorem uploadGroups_unserialisable (env : Env) :
    ∀ (groups : ClientIdMap) (c : GEBatchConsumer) (sent : List Request),
      (∀ g ∈ groups, jsonMarshalOk ⟨g.1, g.2⟩ = false) →
      uploadGroups env groups c sent = (c, sent, Ret.nil) := by
  intro groups
  induction groups with
  | nil => intro c sent _; rfl
  | cons g rest ih =>
    intro c sent h
    obtain ⟨clientId, buffer⟩ := g
    have hg := h (clientId, buffer) (List.mem_cons_self _ _)
    unfold uploadGroups
    simp only at hg ⊢
    rw [hg]
    simp only [Bool.false_eq_true, if_false]
    exact ih c sent (fun g' hg' => h g' (List.mem_cons_of_mem _ hg'))

/-- The defect in general: when no payload of the oldest batch can be
serialised, `uploadEvents` posts nothing, leaves the batch at the head of the
cache and returns `nil`: the error of `json.Marshal` is dropped. -/
theorem uploadEvents_unserialisable (env : Env) (c : GEBatchConsumer) (sent : List Request)
    (b : List Data) (rest : List (List Data)) (hc : c.cacheBuffer = b :: rest)
    (h : ∀ i ∈ b, jsonMarshalOk ⟨i.ClientId, eventsOf i.ClientId b⟩ = false) :
    uploadEvents env c sent = (c, sent, Ret.nil) := by
  unfold uploadEvents
  rw [hc]
  simp only
  apply uploadGroups_unserialisable
  intro g hg
  obtain ⟨⟨i, hi, hid⟩, hev⟩ := groupByClient_mem b g (rangeOrder_subset _ _ _ _ g hg)
  rw [hev, ← hid]
  exact h i hi

/-- A flush of the engine whose only batch cannot be serialised changes
nothing and returns `nil`, under any endpoint. -/
theorem Flush_stuck (env : Env) (sent : List Request) :
    Flush env sampleStuck sent = (sampleStuck, sent, Ret.nil) := by
  have hne : ¬(sampleStuck.buffer.length = 0 ∧ sampleStuck.cacheBuffer.length = 0) := by decide
  have hmv : moveBuffer sampleStuck = sampleStuck := by decide
  have hup : uploadEvents env sampleStuck sent = (sampleStuck, sent, Ret.nil) :=
    uploadEvents_unserialisable env sampleStuck sent [sampleUnserialisable] [] rfl (by decide)
  unfold Flush
  rw [innerFlush_eq env sampleStuck sent hne, hmv, hup]
  rfl

/-- `FlushAll` never ends on the engine whose only batch cannot be
serialised. -/
theorem FlushAll_stuck (env : Env) :
    ∀ (fuel : Nat) (sent : List Request), FlushAll env fuel sampleStuck sent = none := by
  intro fuel
  induction fuel with
  | zero => intro sent; rfl
  | succ n ih =>
    intro sent
    unfold FlushAll
    rw [if_pos (by decide), Flush_stuck env sent]
    exact ih sent

/-- C16, evaluated where it fails: a record that `json.Marshal` rejects is
added to a fresh engine of batch size 1 under an endpoint that accepts. `Add`
returns `nil`, posts nothing, and the record is in the cache; a further
`Flush` returns `nil` again and the record is still there, so `FlushAll`
never ends; and in a batch with a serialisable record of another client the
whole batch, the unserialisable record included, is removed with `nil`
returned and only the other client's request posted. -/
theorem C16_marshal_error_swallowed :
    initBatchConsumer sampleMake sampleParse (sampleConfig 1 50) = Except.ok (sampleEngine 1 50) ∧
    jsonMarshalOk sampleUnserialisable = false ∧
    Add envAccept (sampleEngine 1 50) sampleUnserialisable [] = (sampleStuck, [], Ret.nil) ∧
    sampleStuck.cacheBuffer = [[sampleUnserialisable]] ∧
    Flush envAccept sampleStuck [] = (sampleStuck, [], Ret.nil) ∧
    (∀ fuel, FlushAll envAccept fuel sampleStuck [] = none) ∧
    runOps envAccept [Op.add sampleUnserialisable, Op.add (sampleRecord "a" 1)]
        (sampleEngine 2 50) [] =
      (sampleEngine 2 50, [buildRequest (sampleEngine 2 50) (sampleRecord "a" 1) 1],
        [Ret.nil, Ret.nil]) := by
  refine ⟨rfl, by decide, by decide, by decide, by decide, ?_, by decide⟩
  intro fuel
  exact FlushAll_stuck envAccept fuel []

/-! ## C17: the read of the oldest batch is in range -/

/-- C17: in every engine state and under every endpoint, the cache is
non-empty when the flush reaches `uploadEvents`, which therefore never panics;
`Flush`, `Add` and `FlushAll` never end in the index-out-of-range panic of
`c.cacheBuffer[0]`, and with a capacity of 0 or more (every constructed engine)
they never panic at all; and on an engine started empty with a batch size of
at least 1, every batch in the cache after any sequence of calls, and every
batch ever created, is non-empty. -/
theorem C17_oldest_batch_in_range (env : Env) (c : GEBatchConsumer) (sent : List Request)
    (d : Data) (fuel : Nat) :
    (moveBuffer c).cacheBuffer ≠ [] ∧
    (∀ m, (uploadEvents env (moveBuffer c) sent).2.2 ≠ Ret.panic m) ∧
    (Flush env c sent).2.2 ≠ Ret.panic "runtime error: index out of range [0] with length 0" ∧
    (Add env c d sent).2.2 ≠ Ret.panic "runtime error: index out of range [0] with length 0" ∧
    (∀ c' sent', FlushAll env fuel c sent ≠
      some (c', sent', Ret.panic "runtime error: index out of range [0] with length 0")) ∧
    (0 ≤ c.cacheCapacity →
      (∀ m, (Flush env c sent).2.2 ≠ Ret.panic m) ∧
      (∀ m, (Add env c d sent).2.2 ≠ Ret.panic m) ∧
      ∀ c' sent' m, FlushAll env fuel c sent ≠ some (c', sent', Ret.panic m)) ∧
    (1 ≤ c.batchSize → c.buffer = [] → c.cacheBuffer = [] → ∀ ops : List Op,
      (∀ b ∈ (runOps env ops c sent).1.cacheBuffer, b ≠ []) ∧
      ∀ b ∈ createdBatches env ops c sent, b ≠ []) := by
  have hidx : "runtime error: index out of range [0] with length 0" ≠
      "runtime error: slice bounds out of range [1:0]" := by
    decide
  refine ⟨moveBuffer_nonempty c,
    uploadEvents_no_panic env (moveBuffer c) sent (moveBuffer_nonempty c), ?_, ?_, ?_, ?_, ?_⟩
  · intro h
    exact hidx (innerFlush_panic env c sent _ h).1
  · intro h
    exact hidx (Add_panic env c d sent _ h).1
  · intro c' sent' h
    exact hidx (FlushAll_panic env fuel c sent c' sent' _ h).1
  · intro hcap
    refine ⟨?_, ?_, ?_⟩
    · intro m h
      have := (innerFlush_panic env c sent m h).2
      omega
    · intro m h
      have := (Add_panic env c d sent m h).2
      omega
    · intro c' sent' m h
      have := (FlushAll_panic env fuel c sent c' sent' m h).2
      omega
  · intro hbs _ hc ops
    exact (runOps_nonempty env ops c sent hbs (by rw [hc]; simp)).2

/-- C17 at a concrete run: a fresh engine of batch size 1 and capacity 2 under
an endpoint that is down. -/
theorem C17_oldest_batch_in_range_witness :
    (1 ≤ (sampleEngine 1 2).batchSize ∧ (sampleEngine 1 2).buffer = [] ∧
      (sampleEngine 1 2).cacheBuffer = []) ∧
    (Flush envDown (sampleEngine 1 2) []).2.2 ≠
      Ret.panic "runtime error: index out of range [0] with length 0" ∧
    (∀ b ∈ (runOps envDown [Op.add (sampleRecord "a" 1), Op.flush, Op.add (sampleRecord "b" 2)]
        (sampleEngine 1 2) []).1.cacheBuffer, b ≠ []) :=
  ⟨by decide,
    (C17_oldest_batch_in_range envDown (sampleEngine 1 2) [] (sampleRecord "a" 1) 3).2.2.1,
    ((C17_oldest_batch_in_range envDown (sampleEngine 1 2) [] (sampleRecord "a" 1) 3).2.2.2.2.2.2
      (by decide) rfl rfl
      [Op.add (sampleRecord "a" 1), Op.flush, Op.add (sampleRecord "b" 2)]).1⟩

end gedata
